import Mathlib

/-!
Shallow embedding of the local agentic tool-execution loop of
`adws/adw_modules/local_agent.py` (functions `parse_tool_calls_from_text`,
`execute_tool`, the individual tool executors, `run_agent_loop`,
`save_output`, `prompt_local_agent`), together with theorems settling the
specification claims about it.

Strings are modelled as `List Char`.  Machine-level effects (file system,
shell, the Ollama chat endpoint) are modelled as explicit state / oracle
parameters.  Python exceptions that can escape a function are modelled with
`Except`.
-/

namespace LocalAgent

/-- The characters Python's `re` `\s` matches and `str.strip` removes on
`str` inputs (CPython's `Py_UNICODE_ISSPACE`, Unicode 14): the ASCII
whitespace `\t\n\v\f\r` and space, the separator controls
`\x1c`-`\x1f`, next line `\x85`, no-break space `\xa0`, ogham space
mark, the `\u2000`-`\u200a` spaces, line and paragraph separators,
narrow no-break space, medium mathematical space and ideographic
space. -/
def isPySpace (c : Char) : Bool :=
  (0x09 ≤ c.toNat && c.toNat ≤ 0x0d) || (0x1c ≤ c.toNat && c.toNat ≤ 0x1f) ||
    c.toNat = 0x20 || c.toNat = 0x85 || c.toNat = 0xa0 || c.toNat = 0x1680 ||
    (0x2000 ≤ c.toNat && c.toNat ≤ 0x200a) || c.toNat = 0x2028 || c.toNat = 0x2029 ||
    c.toNat = 0x202f || c.toNat = 0x205f || c.toNat = 0x3000

/-- Python `str.strip()`: remove leading and trailing whitespace. -/
def pyStrip (s : List Char) : List Char :=
  ((s.dropWhile isPySpace).reverse.dropWhile isPySpace).reverse

/-- Python `needle in hay` (substring containment). -/
def isSubstr (needle : List Char) : List Char → Bool
  | [] => needle.isEmpty
  | c :: t => needle.isPrefixOf (c :: t) || isSubstr needle t

/-- Helper for `substrCount`: count non-overlapping occurrences of the
non-empty needle `n0 :: nrest`, scanning left to right; a positive `skip`
means the position lies inside the needle occurrence just counted. -/
def substrCountAux (n0 : Char) (nrest : List Char) : List Char → Nat → Nat
  | [], _ => 0
  | _ :: t, skip + 1 => substrCountAux n0 nrest t skip
  | c :: t, 0 =>
    if (n0 :: nrest).isPrefixOf (c :: t) then 1 + substrCountAux n0 nrest t nrest.length
    else substrCountAux n0 nrest t 0

/-- Python `hay.count(needle)`: number of non-overlapping occurrences;
for the empty needle Python returns `len(hay) + 1`. -/
def substrCount (needle hay : List Char) : Nat :=
  match needle with
  | [] => hay.length + 1
  | n0 :: nrest => substrCountAux n0 nrest hay 0

/-- Helper for `replaceAll`: replace every non-overlapping occurrence of
the non-empty needle `n0 :: nrest` by `repl`; a positive `skip` means the
position lies inside the occurrence just replaced, whose characters are
not emitted. -/
def replaceAllAux (n0 : Char) (nrest repl : List Char) : List Char → Nat → List Char
  | [], _ => []
  | _ :: t, skip + 1 => replaceAllAux n0 nrest repl t skip
  | c :: t, 0 =>
    if (n0 :: nrest).isPrefixOf (c :: t) then repl ++ replaceAllAux n0 nrest repl t nrest.length
    else c :: replaceAllAux n0 nrest repl t 0

/-- Python `hay.replace(needle, repl)` (replace all non-overlapping
occurrences; the empty needle interleaves `repl` around every character). -/
def replaceAll (needle repl hay : List Char) : List Char :=
  match needle with
  | [] => repl ++ hay.flatMap (fun c => [c] ++ repl)
  | n0 :: nrest => replaceAllAux n0 nrest repl hay 0

/-- Decimal rendering of a natural number, as Python's `str`/f-strings do. -/
def natChars (n : Nat) : List Char :=
  Nat.toDigits 10 n

/-- Decimal rendering of an integer, as Python's f-strings do. -/
def intChars (i : Int) : List Char :=
  if i < 0 then '-' :: natChars i.natAbs else natChars i.toNat

/-- The JSON values `json.loads` can produce, restricted to integer
numerals (the tool-calling protocol of the agent uses only strings,
objects, integers, booleans and null; a non-integer numeral makes the
embedded parser fail, which the extractor treats like malformed JSON). -/
inductive JsonValue where
  | null
  | bool (b : Bool)
  | num (n : Int)
  | str (s : List Char)
  | arr (elems : List JsonValue)
  | obj (fields : List (List Char × JsonValue))
deriving Repr

mutual

/-- Structural (syntactic) equality of JSON values. -/
def beqJ : JsonValue → JsonValue → Bool
  | .null, .null => true
  | .bool a, .bool b => a == b
  | .num a, .num b => a == b
  | .str a, .str b => a == b
  | .arr a, .arr b => beqArrJ a b
  | .obj a, .obj b => beqObjJ a b
  | _, _ => false

/-- Elementwise equality of JSON arrays. -/
def beqArrJ : List JsonValue → List JsonValue → Bool
  | [], [] => true
  | x :: xs, y :: ys => beqJ x y && beqArrJ xs ys
  | _, _ => false

/-- Elementwise equality of JSON object field lists. -/
def beqObjJ : List (List Char × JsonValue) → List (List Char × JsonValue) → Bool
  | [], [] => true
  | (k, v) :: xs, (k2, v2) :: ys => k == k2 && beqJ v v2 && beqObjJ xs ys
  | _, _ => false

end

/-- Look up a key in a JSON object's field list (first match). -/
def lookupField (k : List Char) : List (List Char × JsonValue) → Option JsonValue
  | [] => none
  | (k2, v) :: rest => if k = k2 then some v else lookupField k rest

mutual

/-- Python `==` on parsed JSON values: dict comparison is key-based and
order-insensitive.  Since `json.loads` never yields duplicate keys, a
length check plus one-sided key lookup coincides with Python's two-sided
dict equality on every value this program compares. -/
def pyEqJ : JsonValue → JsonValue → Bool
  | .null, .null => true
  | .bool a, .bool b => a == b
  | .num a, .num b => a == b
  | .str a, .str b => a == b
  | .arr a, .arr b => pyEqArrJ a b
  | .obj a, .obj b => a.length == b.length && pyEqFieldsJ a b
  | _, _ => false

/-- Elementwise Python `==` on JSON arrays. -/
def pyEqArrJ : List JsonValue → List JsonValue → Bool
  | [], [] => true
  | x :: xs, y :: ys => pyEqJ x y && pyEqArrJ xs ys
  | _, _ => false

/-- Every field of the first list is present (by key) in the second with a
Python-equal value. -/
def pyEqFieldsJ : List (List Char × JsonValue) → List (List Char × JsonValue) → Bool
  | [], _ => true
  | (k, v) :: rest, b =>
    (match lookupField k b with
     | some w => pyEqJ v w
     | none => false) && pyEqFieldsJ rest b

end

/-! ### JSON parsing (`json.loads`) -/

/-- The whitespace characters the JSON grammar allows between tokens. -/
def isJsonWs (c : Char) : Bool :=
  c = ' ' || c = '\t' || c = '\n' || c = '\r'

/-- Skip JSON inter-token whitespace. -/
def skipJsonWs (s : List Char) : List Char :=
  s.dropWhile isJsonWs

/-- Value of a hexadecimal digit. -/
def hexVal (c : Char) : Option Nat :=
  if '0' ≤ c && c ≤ '9' then some (c.toNat - 48)
  else if 'a' ≤ c && c ≤ 'f' then some (c.toNat - 87)
  else if 'A' ≤ c && c ≤ 'F' then some (c.toNat - 55)
  else none

/-- The single-character escapes `json.loads` decodes (checked in the
same order as the embedded parser's branches). -/
def escCharFor (e : Char) : Option Char :=
  if e = '"' ∨ e = '\\' ∨ e = '/' then some e
  else if e = 'b' then some (Char.ofNat 8)
  else if e = 'f' then some (Char.ofNat 12)
  else if e = 'n' then some '\n'
  else if e = 'r' then some '\r'
  else if e = 't' then some '\t'
  else none

/-- Four hexadecimal digits as a number. -/
def hex4 (x1 x2 x3 x4 : Char) : Option Nat :=
  match hexVal x1, hexVal x2, hexVal x3, hexVal x4 with
  | some a, some b, some c, some d => some (a * 4096 + b * 256 + c * 16 + d)
  | _, _, _, _ => none

/-- Prepend a decoded character to a string-body parse result. -/
def consStr (c : Char) : Option (List Char × List Char) → Option (List Char × List Char)
  | some (s, rest) => some (c :: s, rest)
  | none => none

/-- One decoding step of a JSON string body after `\u` with a pending
high surrogate `n`: expects the low-surrogate escape and combines the
pair; `k` parses the remainder. -/
def parseSBLowSurrogate (k : List Char → Option (List Char × List Char)) (n : Nat) :
    List Char → Option (List Char × List Char)
  | b1 :: u1 :: y1 :: y2 :: y3 :: y4 :: t4 =>
    if b1 = '\\' ∧ u1 = 'u' then
      match hex4 y1 y2 y3 y4 with
      | none => none
      | some m =>
        if 0xDC00 ≤ m ∧ m < 0xE000 then
          consStr (Char.ofNat ((n - 0xD800) * 1024 + (m - 0xDC00) + 0x10000)) (k t4)
        else none
    else none
  | _ => none

/-- Decoding of a `\uXXXX` escape: a lone low surrogate is rejected, a
high surrogate must be followed by its partner. -/
def parseSBUnicode (k : List Char → Option (List Char × List Char)) :
    List Char → Option (List Char × List Char)
  | x1 :: x2 :: x3 :: x4 :: t3 =>
    match hex4 x1 x2 x3 x4 with
    | none => none
    | some n =>
      if 0xD800 ≤ n ∧ n < 0xDC00 then parseSBLowSurrogate k n t3
      else if 0xDC00 ≤ n ∧ n < 0xE000 then none
      else consStr (Char.ofNat n) (k t3)
  | _ => none

/-- Decoding after a backslash. -/
def parseSBEscape (k : List Char → Option (List Char × List Char)) :
    List Char → Option (List Char × List Char)
  | [] => none
  | e :: t2 =>
    if e = 'u' then parseSBUnicode k t2
    else
      match escCharFor e with
      | some ec => consStr ec (k t2)
      | none => none

/-- One step of JSON string-body parsing: closing quote, escape, strict
rejection of raw control characters, or a plain character. -/
def parseSBCore (k : List Char → Option (List Char × List Char)) :
    List Char → Option (List Char × List Char)
  | [] => none
  | c :: t =>
    if c = '"' then some ([], t)
    else if c = '\\' then parseSBEscape k t
    else if c.toNat < 0x20 then none
    else consStr c (k t)

/-- Fuel-driven string-body parser (one fuel tick per decoded
character). -/
def parseStringBodyF : Nat → List Char → Option (List Char × List Char)
  | 0, _ => none
  | fuel + 1, s => parseSBCore (parseStringBodyF fuel) s

/-- Parse the body of a JSON string literal (the part after the opening
quote), returning the decoded characters and the input after the closing
quote.  Escapes are decoded as `json.loads` does; a `\uXXXX` high
surrogate must be followed by a low surrogate and the pair is combined
(the embedding cannot represent lone surrogates, which Lean's `Char`
excludes).  The fuel, one tick per decoded character, can never run out
at `length + 1`. -/
def parseStringBody (s : List Char) : Option (List Char × List Char) :=
  parseStringBodyF (s.length + 1) s

/-- Accumulate a run of decimal digits. -/
def digitsToNat (acc : Nat) : List Char → Nat
  | [] => acc
  | c :: t => digitsToNat (acc * 10 + (c.toNat - 48)) t

/-- Parse a JSON integer numeral exactly as Python's tokenizer regex
`(-?(?:0|[1-9]\d*))` does; a following fraction or exponent part (which
would make the value a float) is out of the embedding's scope and makes the
parse fail. -/
def parseNumber (s : List Char) : Option (Int × List Char) :=
  let p := match s with
    | '-' :: t => (true, t)
    | _ => (false, s)
  match p.2 with
  | [] => none
  | c :: t =>
    if ¬ c.isDigit then none
    else
      let digitsRest : List Char × List Char :=
        if c = '0' then ([c], t) else ((c :: t).span Char.isDigit)
      let rest := digitsRest.2
      let isFloat :=
        match rest with
        | '.' :: d :: _ => d.isDigit
        | 'e' :: d :: _ => d.isDigit || ((d = '-' || d = '+') && (match rest with | _ :: _ :: d2 :: _ => d2.isDigit | _ => false))
        | 'E' :: d :: _ => d.isDigit || ((d = '-' || d = '+') && (match rest with | _ :: _ :: d2 :: _ => d2.isDigit | _ => false))
        | _ => false
      if isFloat then none
      else
        let n : Nat := digitsToNat 0 digitsRest.1
        some (if p.1 then -(n : Int) else (n : Int), rest)

/-- Insert a key/value pair into a JSON object's field list as Python's
dict does: an existing key keeps its position and gets the new value, a new
key is appended. -/
def objInsert : List (List Char × JsonValue) → List Char → JsonValue → List (List Char × JsonValue)
  | [], k, v => [(k, v)]
  | (k2, v2) :: rest, k, v =>
    if k = k2 then (k2, v) :: rest else (k2, v2) :: objInsert rest k v

mutual

/-- Parse one JSON value (after skipping leading whitespace), returning
the value and the unconsumed input.  `fuel` bounds the recursion; callers
supply at least `length + 1`, which is always sufficient. -/
def parseValue : Nat → List Char → Option (JsonValue × List Char)
  | 0, _ => none
  | fuel + 1, s0 =>
    match skipJsonWs s0 with
    | [] => none
    | c :: t =>
      if c = '"' then
        match parseStringBody t with
        | some (s, rest) => some (.str s, rest)
        | none => none
      else if c = '{' then
        match skipJsonWs t with
        | [] => none
        | c2 :: r2 =>
          if c2 = '}' then some (.obj [], r2)
          else parseMembers fuel (c2 :: r2) []
      else if c = '[' then
        match skipJsonWs t with
        | [] => none
        | c2 :: r2 =>
          if c2 = ']' then some (.arr [], r2)
          else parseElements fuel (c2 :: r2) []
      else if "true".toList.isPrefixOf (c :: t) then some (.bool true, (c :: t).drop 4)
      else if "false".toList.isPrefixOf (c :: t) then some (.bool false, (c :: t).drop 5)
      else if "null".toList.isPrefixOf (c :: t) then some (.null, (c :: t).drop 4)
      else
        match parseNumber (c :: t) with
        | some (n, rest) => some (.num n, rest)
        | none => none

/-- Parse the members of a JSON object after at least one field is known
to follow. -/
def parseMembers : Nat → List Char → List (List Char × JsonValue) → Option (JsonValue × List Char)
  | 0, _, _ => none
  | fuel + 1, s, acc =>
    match s with
    | [] => none
    | c :: t =>
      if c = '"' then
        match parseStringBody t with
        | none => none
        | some (key, rest) =>
          match skipJsonWs rest with
          | [] => none
          | c2 :: rest2 =>
            if c2 = ':' then
              match parseValue fuel rest2 with
              | none => none
              | some (v, rest3) =>
                match skipJsonWs rest3 with
                | [] => none
                | c3 :: rest4 =>
                  if c3 = ',' then parseMembers fuel (skipJsonWs rest4) (objInsert acc key v)
                  else if c3 = '}' then some (.obj (objInsert acc key v), rest4)
                  else none
            else none
      else none

/-- Parse the elements of a JSON array after at least one element is known
to follow. -/
def parseElements : Nat → List Char → List JsonValue → Option (JsonValue × List Char)
  | 0, _, _ => none
  | fuel + 1, s, acc =>
    match parseValue fuel s with
    | none => none
    | some (v, rest) =>
      match skipJsonWs rest with
      | [] => none
      | c2 :: rest2 =>
        if c2 = ',' then parseElements fuel rest2 (acc ++ [v])
        else if c2 = ']' then some (.arr (acc ++ [v]), rest2)
        else none

end

/-- Python `json.loads`: parse a full document; trailing non-whitespace is
an error. -/
def pyLoads (s : List Char) : Option JsonValue :=
  match parseValue (s.length + 1) s with
  | some (v, rest) => if skipJsonWs rest = [] then some v else none
  | none => none

/-! ### The three tool-call extraction patterns of `parse_tool_calls_from_text`

Pattern 1 is `re.findall(r'```tool\s*\n?(.*?)\n?```', text, re.DOTALL)`,
pattern 2 is `re.findall(r'<tool_call>\s*(.*?)\s*</tool_call>', text, re.DOTALL)`,
pattern 3 is
`re.findall(r'\{[^{}]*"name"\s*:\s*"[^"]+"\s*,[^{}]*"arguments"\s*:\s*\{[^{}]*\}[^{}]*\}', text)`.
Each matcher below implements the leftmost, non-overlapping `findall`
scan with Python's greedy/lazy backtracking preferences specialised to
the concrete pattern. -/

/-- The lazy part of pattern 1: after `` ```tool\s*\n? ``, the group
`(.*?)` stops at the earliest position where `\n?``` ` matches, the
optional newline being preferred.  Returns the captured group and the
input after the whole match. -/
def fenceClose (acc : List Char) : List Char → Option (List Char × List Char)
  | [] => none
  | c :: t =>
    if ('\n' :: '`' :: '`' :: '`' :: []).isPrefixOf (c :: t) then some (acc.reverse, t.drop 3)
    else if ('`' :: '`' :: '`' :: []).isPrefixOf (c :: t) then some (acc.reverse, t.drop 2)
    else fenceClose (c :: acc) t

theorem fenceClose_rest_length {s : List Char} :
    ∀ {acc content rest}, fenceClose acc s = some (content, rest) → rest.length ≤ s.length := by
  induction s with
  | nil => intro acc content rest h; simp [fenceClose] at h
  | cons c t ih =>
    intro acc content rest h
    simp only [fenceClose] at h
    split at h
    · simp only [Option.some.injEq, Prod.mk.injEq] at h
      obtain ⟨-, rfl⟩ := h
      simp only [List.length_drop, List.length_cons]
      omega
    · split at h
      · simp only [Option.some.injEq, Prod.mk.injEq] at h
        obtain ⟨-, rfl⟩ := h
        simp only [List.length_drop, List.length_cons]
        omega
      · exact Nat.le_trans (ih h) (by simp)

/-- The `findall` scan for pattern 1, over explicit fuel.  At each
occurrence of `` ```tool `` the greedy `\s*` takes the maximal whitespace
run (after which `\n?` can only match empty, since `\s` includes the
newline), then the lazy group closes at the earliest fence; if no closing
fence follows, no suffix of whitespace choices can rescue the match
(backtick is not whitespace), so scanning resumes one character later,
exactly as `re` does. -/
def findToolFencesF : Nat → List Char → List (List Char)
  | 0, _ => []
  | _ + 1, [] => []
  | fuel + 1, c :: t =>
    if "```tool".toList.isPrefixOf (c :: t) then
      match fenceClose [] (((c :: t).drop 7).dropWhile isPySpace) with
      | some (content, rest) => content :: findToolFencesF fuel rest
      | none => findToolFencesF fuel t
    else findToolFencesF fuel t

/-- The `findall` scan for pattern 1, with the fuel fixed at the input
length (which the scan, consuming at least one character per step, never
exhausts). -/
def findToolFences (s : List Char) : List (List Char) :=
  findToolFencesF s.length s

/-- The lazy part of pattern 2: the group `(.*?)` stops at the earliest
position from which `\s*</tool_call>` matches (the greedy `\s*` is forced
to take the whole whitespace run, `<` not being whitespace). -/
def tagClose (acc : List Char) : List Char → Option (List Char × List Char)
  | [] => none
  | c :: t =>
    if "</tool_call>".toList.isPrefixOf ((c :: t).dropWhile isPySpace) then
      some (acc.reverse, ((c :: t).dropWhile isPySpace).drop 12)
    else tagClose (c :: acc) t

theorem tagClose_rest_length {s : List Char} :
    ∀ {acc content rest}, tagClose acc s = some (content, rest) → rest.length ≤ s.length := by
  induction s with
  | nil => intro acc content rest h; simp [tagClose] at h
  | cons c t ih =>
    intro acc content rest h
    simp only [tagClose] at h
    split at h
    · simp only [Option.some.injEq, Prod.mk.injEq] at h
      obtain ⟨-, rfl⟩ := h
      have h2 : (((c :: t).dropWhile isPySpace)).length ≤ (c :: t).length :=
        (List.dropWhile_suffix _).length_le
      simp only [List.length_drop, List.length_cons] at *
      omega
    · exact Nat.le_trans (ih h) (by simp)

/-- The `findall` scan for pattern 2, over explicit fuel. -/
def findTagCallsF : Nat → List Char → List (List Char)
  | 0, _ => []
  | _ + 1, [] => []
  | fuel + 1, c :: t =>
    if "<tool_call>".toList.isPrefixOf (c :: t) then
      match tagClose [] (((c :: t).drop 11).dropWhile isPySpace) with
      | some (content, rest) => content :: findTagCallsF fuel rest
      | none => findTagCallsF fuel t
    else findTagCallsF fuel t

/-- The `findall` scan for pattern 2. -/
def findTagCalls (s : List Char) : List (List Char) :=
  findTagCallsF s.length s

/-- Characters the class `[^{}]` of pattern 3 accepts. -/
def nonBrace (c : Char) : Bool :=
  !(c == '{' || c == '}')

/-- The deterministic tail of pattern 3 after the literal `"arguments"`:
`\s*:\s*\{[^{}]*\}[^{}]*\}` (each `\s*`/`[^{}]*` is followed by a
character outside its class, so greedy matching is forced).  Returns the
input after the final `}`. -/
def match3AfterArgs (s : List Char) : Option (List Char) :=
  match s.dropWhile isPySpace with
  | [] => none
  | c :: r =>
    if c = ':' then
      match r.dropWhile isPySpace with
      | [] => none
      | c2 :: r2 =>
        if c2 = '{' then
          match (r2.span nonBrace).2 with
          | [] => none
          | c3 :: r3 =>
            if c3 = '}' then
              match ((r3.span nonBrace).2) with
              | [] => none
              | c4 :: r4 => if c4 = '}' then some r4 else none
            else none
        else none
    else none

theorem match3AfterArgs_suffix {s r : List Char} (h : match3AfterArgs s = some r) :
    r <:+ s := by
  unfold match3AfterArgs at h
  split at h
  · simp at h
  case _ c r1 heq =>
    split at h
    case isFalse => simp at h
    case isTrue =>
      have h1 : r1 <:+ s := (List.suffix_cons c r1).trans (heq ▸ List.dropWhile_suffix isPySpace)
      split at h
      · simp at h
      case _ c2 r2 heq2 =>
        split at h
        case isFalse => simp at h
        case isTrue =>
          have h2 : r2 <:+ r1 :=
            (List.suffix_cons c2 r2).trans (heq2 ▸ List.dropWhile_suffix isPySpace)
          split at h
          · simp at h
          case _ c3 r3 heq3 =>
            split at h
            case isFalse => simp at h
            case isTrue =>
              have hs3 : (List.span nonBrace r2).2 <:+ r2 := by
                rw [List.span_eq_take_drop]; exact List.dropWhile_suffix _
              have h3 : r3 <:+ r2 := (List.suffix_cons c3 r3).trans (heq3 ▸ hs3)
              split at h
              · simp at h
              case _ c4 r4 heq4 =>
                have hs4 : (List.span nonBrace r3).2 <:+ r3 := by
                  rw [List.span_eq_take_drop]; exact List.dropWhile_suffix _
                have h4 : r4 <:+ r3 := (List.suffix_cons c4 r4).trans (heq4 ▸ hs4)
                split at h
                case isTrue =>
                  simp only [Option.some.injEq] at h
                  subst h
                  exact ((h4.trans h3).trans h2).trans h1
                case isFalse => simp at h

/-- Candidate lengths for a greedy `[^{}]*` before a literal: Python tries
the longest first, backtracking downwards. -/
def descKs (s : List Char) : List Nat :=
  (List.range ((s.takeWhile nonBrace).length + 1)).reverse

/-- Backtracking over the greedy `[^{}]*` before `"arguments"`: try each
candidate split (longest first); on the first where the literal and the
deterministic tail match, the match is fixed. -/
def tryArgsAt : List Nat → List Char → Option (List Char)
  | [], _ => none
  | k :: ks, s =>
    if "\"arguments\"".toList.isPrefixOf (s.drop k) then
      match match3AfterArgs ((s.drop k).drop 11) with
      | some r => some r
      | none => tryArgsAt ks s
    else tryArgsAt ks s

theorem tryArgsAt_suffix : ∀ {ks : List Nat} {s r : List Char},
    tryArgsAt ks s = some r → r <:+ s := by
  intro ks
  induction ks with
  | nil => intro s r h; simp [tryArgsAt] at h
  | cons k ks ih =>
    intro s r h
    simp only [tryArgsAt] at h
    split at h
    · split at h
      case _ r2 heq =>
        simp only [Option.some.injEq] at h
        subst h
        exact ((match3AfterArgs_suffix heq).trans (List.drop_suffix 11 _)).trans
          (List.drop_suffix k s)
      case _ => exact ih h
    · exact ih h

/-- The part of pattern 3 following the literal `"name"`:
`\s*:\s*"[^"]+"\s*,` (deterministic: each greedy piece is followed by a
character outside its class), then the backtracking `[^{}]*"arguments"`
and the deterministic tail.  Returns the input after the whole match. -/
def match3AfterName (s : List Char) : Option (List Char) :=
  match s.dropWhile isPySpace with
  | [] => none
  | c :: r =>
    if c = ':' then
      match r.dropWhile isPySpace with
      | [] => none
      | c2 :: r2 =>
        if c2 = '"' then
          if ((r2.span (fun c => !(c == '"'))).1).isEmpty then none
          else
            match (r2.span (fun c => !(c == '"'))).2 with
            | [] => none
            | c3 :: r3 =>
              if c3 = '"' then
                match r3.dropWhile isPySpace with
                | [] => none
                | c4 :: r4 => if c4 = ',' then tryArgsAt (descKs r4) r4 else none
              else none
        else none
    else none

theorem match3AfterName_suffix {s r : List Char} (h : match3AfterName s = some r) :
    r <:+ s := by
  unfold match3AfterName at h
  split at h
  · simp at h
  case _ c r1 heq =>
    split at h
    case isFalse => simp at h
    case isTrue =>
      have h1 : r1 <:+ s := (List.suffix_cons c r1).trans (heq ▸ List.dropWhile_suffix isPySpace)
      split at h
      · simp at h
      case _ c2 r2 heq2 =>
        split at h
        case isFalse => simp at h
        case isTrue =>
          have h2 : r2 <:+ r1 :=
            (List.suffix_cons c2 r2).trans (heq2 ▸ List.dropWhile_suffix isPySpace)
          split at h
          · simp at h
          · split at h
            · simp at h
            case _ c3 r3 heq3 =>
              split at h
              case isFalse => simp at h
              case isTrue =>
                have hs3 : (r2.span (fun c => !(c == '"'))).2 <:+ r2 := by
                  rw [List.span_eq_take_drop]; exact List.dropWhile_suffix _
                have h3 : r3 <:+ r2 := (List.suffix_cons c3 r3).trans (heq3 ▸ hs3)
                split at h
                · simp at h
                case _ c4 r4 heq4 =>
                  have h4 : r4 <:+ r3 :=
                    (List.suffix_cons c4 r4).trans (heq4 ▸ List.dropWhile_suffix isPySpace)
                  split at h
                  case isTrue =>
                    exact ((((tryArgsAt_suffix h).trans h4).trans h3).trans h2).trans h1
                  case isFalse => simp at h

/-- Backtracking over the greedy `[^{}]*` before `"name"`. -/
def tryNameAt : List Nat → List Char → Option (List Char)
  | [], _ => none
  | k :: ks, s =>
    if "\"name\"".toList.isPrefixOf (s.drop k) then
      match match3AfterName ((s.drop k).drop 6) with
      | some r => some r
      | none => tryNameAt ks s
    else tryNameAt ks s

theorem tryNameAt_suffix : ∀ {ks : List Nat} {s r : List Char},
    tryNameAt ks s = some r → r <:+ s := by
  intro ks
  induction ks with
  | nil => intro s r h; simp [tryNameAt] at h
  | cons k ks ih =>
    intro s r h
    simp only [tryNameAt] at h
    split at h
    · split at h
      case _ r2 heq =>
        simp only [Option.some.injEq] at h
        subst h
        exact ((match3AfterName_suffix heq).trans (List.drop_suffix 6 _)).trans
          (List.drop_suffix k s)
      case _ => exact ih h
    · exact ih h

/-- Try the whole of pattern 3 at the head of `s` (which must be `{`),
returning the matched text and the input after it. -/
def tryMatch3 : List Char → Option (List Char × List Char)
  | [] => none
  | c :: t =>
    if c = '{' then
      match tryNameAt (descKs t) t with
      | some rest => some ((c :: t).take ((c :: t).length - rest.length), rest)
      | none => none
    else none

theorem tryMatch3_rest_length {s : List Char} {m rest : List Char}
    (h : tryMatch3 s = some (m, rest)) : rest.length < s.length := by
  cases s with
  | nil => simp [tryMatch3] at h
  | cons c t =>
    simp only [tryMatch3] at h
    split at h
    · split at h
      case _ r heq =>
        simp only [Option.some.injEq, Prod.mk.injEq] at h
        obtain ⟨-, rfl⟩ := h
        have := (tryNameAt_suffix heq).length_le
        simp only [List.length_cons]
        omega
      case _ => simp at h
    · simp at h

/-- The `findall` scan for pattern 3 (a match can only start at `{`),
over explicit fuel. -/
def findJsonObjsF : Nat → List Char → List (List Char)
  | 0, _ => []
  | _ + 1, [] => []
  | fuel + 1, c :: t =>
    if c = '{' then
      match tryMatch3 (c :: t) with
      | some (m, rest) => m :: findJsonObjsF fuel rest
      | none => findJsonObjsF fuel t
    else findJsonObjsF fuel t

/-- The `findall` scan for pattern 3. -/
def findJsonObjs (s : List Char) : List (List Char) :=
  findJsonObjsF s.length s

/-! ### `parse_tool_calls_from_text` -/

/-- Python `"k" in data` for a parsed JSON value: key membership when the
value is an object (the only shape pattern 3 can produce, since every
match starts with `{` and parses as JSON). -/
def hasKeyJ (k : List Char) (v : JsonValue) : Bool :=
  match v with
  | .obj fs => (lookupField k fs).isSome
  | _ => false

/-- Processing of one pattern-3 match: parse it as JSON, require `name`
and `arguments` keys, and append unless an equal call was already found
(Python `data not in tool_calls`). -/
def dedupStep (acc : List JsonValue) (m : List Char) : List JsonValue :=
  match pyLoads m with
  | some d =>
    if hasKeyJ "name".toList d && hasKeyJ "arguments".toList d then
      if acc.any (fun x => pyEqJ d x) then acc else acc ++ [d]
    else acc
  | none => acc

/-- `parse_tool_calls_from_text`: union of the three extraction patterns,
in source order; patterns 1 and 2 parse each stripped match and keep any
well-formed JSON, pattern 3 additionally deduplicates against the calls
already found. -/
def parseToolCallsFromText (text : List Char) : List JsonValue :=
  let p1 := (findToolFences text).filterMap (fun m => pyLoads (pyStrip m))
  let p2 := (findTagCalls text).filterMap (fun m => pyLoads (pyStrip m))
  (findJsonObjs text).foldl dedupStep (p1 ++ p2)

/-! ### Tool executors

The ambient machine state the executors touch is collected in `World`:
the project root (`get_project_root()`), the file system, and oracles for
the shell, `glob.glob`, `os.path.relpath` and the spawned `grep` process.
`tool_bash` additionally reports whether it spawned a process. -/

/-- Outcome of running a shell command (`subprocess.run(..., shell=True)`). -/
inductive BashOutcome where
  | res (stdout stderr : List Char) (code : Int)
  | timeout
  | exn (e : List Char)

/-- Outcome of the spawned `grep` process in `tool_grep_search`. -/
inductive GrepOutcome where
  | out (stdout : List Char)
  | timeout
  | exn (e : List Char)

/-- The machine state and external oracles of the tool executors. -/
structure World where
  root : List Char
  fs : List Char → Option (List Char)
  shell : List Char → BashOutcome
  globFn : List Char → List (List Char)
  relpathFn : List Char → List Char
  grepFn : List Char → List Char → List Char → GrepOutcome

/-- `os.path.isabs`. -/
def isAbsPath (p : List Char) : Bool :=
  match p with
  | '/' :: _ => true
  | _ => false

/-- `os.path.join(a, b)`: an absolute right component discards the left. -/
def pathJoin (a b : List Char) : List Char :=
  if isAbsPath b then b else a ++ '/' :: b

/-- The executors' common path resolution: relative paths are joined to
the project root. -/
def resolvePath (root p : List Char) : List Char :=
  if isAbsPath p then p else pathJoin root p

/-- Point update of the modelled file system (`open(path, "w")` plus the
implicit `os.makedirs` for parents, which the flat path↦content model
subsumes). -/
def fsUpdate (fs : List Char → Option (List Char)) (p c : List Char) :
    List Char → Option (List Char) :=
  fun q => if q = p then some c else fs q

/-- `tool_read_file`.  A non-string argument makes `os.path.isabs` raise
inside the executor's `try`, which is reported textually. -/
def toolReadFile (w : World) (pathArg : JsonValue) : List Char :=
  match pathArg with
  | .str p =>
    let rp := resolvePath w.root p
    match w.fs rp with
    | some content =>
      "File contents of ".toList ++ rp ++ ":\n```\n".toList ++ content ++ "\n```".toList
    | none => "Error: File not found: ".toList ++ rp
  | _ => "Error reading file: TypeError".toList

/-- `tool_write_file`. -/
def toolWriteFile (w : World) (pathArg contentArg : JsonValue) : List Char × World :=
  match pathArg, contentArg with
  | .str p, .str content =>
    let rp := resolvePath w.root p
    ("Successfully wrote to ".toList ++ rp, { w with fs := fsUpdate w.fs rp content })
  | _, _ => ("Error writing file: TypeError".toList, w)

/-- `tool_edit_file`: requires `old_string` to occur, and to occur exactly
once; only then is the file rewritten. -/
def toolEditFile (w : World) (pathArg oldArg newArg : JsonValue) : List Char × World :=
  match pathArg, oldArg, newArg with
  | .str p, .str old, .str new =>
    let rp := resolvePath w.root p
    match w.fs rp with
    | none => ("Error: File not found: ".toList ++ rp, w)
    | some content =>
      if isSubstr old content = false then
        ("Error: String not found in ".toList ++ rp, w)
      else if substrCount old content > 1 then
        ("Error: String appears ".toList ++ natChars (substrCount old content) ++
          " times in ".toList ++ rp ++ ". Provide more context for unique match.".toList, w)
      else
        ("Successfully edited ".toList ++ rp,
          { w with fs := fsUpdate w.fs rp (replaceAll old new content) })
  | _, _, _ => ("Error editing file: TypeError".toList, w)

/-- Atoms of the tiny regex language the deny-list patterns use. -/
inductive ReAtom where
  | lit (c : Char)
  | wsPlus
  | wsStar

/-- Match a deny-list pattern against a prefix of `s`, with full
backtracking over the `\s+`/`\s*` runs. -/
def matchAtoms : List ReAtom → List Char → Bool
  | [], _ => true
  | .lit c :: ps, s =>
    match s with
    | c2 :: t => c == c2 && matchAtoms ps t
    | [] => false
  | .wsPlus :: ps, s =>
    (List.range ((s.takeWhile isPySpace).length + 1)).any
      (fun k => decide (1 ≤ k) && matchAtoms ps (s.drop k))
  | .wsStar :: ps, s =>
    (List.range ((s.takeWhile isPySpace).length + 1)).any
      (fun k => matchAtoms ps (s.drop k))

/-- `re.search`: the pattern may match starting at any position. -/
def reSearch (ps : List ReAtom) : List Char → Bool
  | [] => matchAtoms ps []
  | c :: t => matchAtoms ps (c :: t) || reSearch ps t

/-- Literal characters as pattern atoms. -/
def litAtoms (s : String) : List ReAtom :=
  s.toList.map .lit

/-- The deny-list of `tool_bash`:
`rm\s+-rf\s+/`, `rm\s+-rf\s+\*`, `>\s*/dev/sd`, `mkfs\.`, `dd\s+if=`. -/
def dangerousPatterns : List (List ReAtom) :=
  [ litAtoms "rm" ++ [.wsPlus] ++ litAtoms "-rf" ++ [.wsPlus] ++ litAtoms "/",
    litAtoms "rm" ++ [.wsPlus] ++ litAtoms "-rf" ++ [.wsPlus] ++ litAtoms "*",
    litAtoms ">" ++ [.wsStar] ++ litAtoms "/dev/sd",
    litAtoms "mkfs.",
    litAtoms "dd" ++ [.wsPlus] ++ litAtoms "if=" ]

/-- The deny-list check of `tool_bash`, applied to the literal command
string before any shell interpretation. -/
def dangerousHit (command : List Char) : Bool :=
  dangerousPatterns.any (fun p => reSearch p command)

/-- `tool_bash` on a string command: the deny-list is consulted first and
a hit returns without touching the shell; otherwise the command runs and
stdout, stderr and a nonzero exit code are folded into one text.  The
second component records whether a process was spawned. -/
def toolBash (w : World) (command : List Char) : List Char × Bool :=
  if dangerousHit command then
    ("Error: Command blocked for safety: ".toList ++ command, false)
  else
    match w.shell command with
    | .timeout => ("Error: Command timed out after 120 seconds".toList, true)
    | .exn e => ("Error executing command: ".toList ++ e, true)
    | .res stdout stderr code =>
      let o1 : List Char := if stdout.isEmpty then [] else "stdout:\n".toList ++ stdout ++ ['\n']
      let o2 : List Char := o1 ++ (if stderr.isEmpty then [] else "stderr:\n".toList ++ stderr ++ ['\n'])
      let o3 : List Char := o2 ++ (if code = 0 then [] else "Exit code: ".toList ++ intChars code)
      (if o3.isEmpty then "Command completed successfully (no output)".toList else o3, true)

/-- The body of `tool_glob_search` once the raw search path is fixed:
resolve it against the root, expand the glob oracle, relativise, and
render at most 50 entries (all matches counted). -/
def globRender (w : World) (pattern searchPathRaw : List Char) : List Char :=
  let sp := if isAbsPath searchPathRaw then searchPathRaw else pathJoin w.root searchPathRaw
  let fullPattern := pathJoin sp pattern
  let rel := (w.globFn fullPattern).map w.relpathFn
  if rel.isEmpty then "No files found matching pattern: ".toList ++ pattern
  else
    "Found ".toList ++ natChars rel.length ++ " files:\n".toList ++
      List.intercalate "\n".toList (rel.take 50)

/-- `tool_glob_search` (`search_path = path or get_project_root()`: an
absent, `None` or empty path falls back to the project root; a non-string
path raises inside the `try` and is reported textually). -/
def toolGlobSearch (w : World) (patternArg : JsonValue) (pathOpt : Option JsonValue) : List Char :=
  match patternArg with
  | .str pattern =>
    match pathOpt with
    | some (.str p) => globRender w pattern (if p.isEmpty then w.root else p)
    | some .null => globRender w pattern w.root
    | some _ => "Error in glob search: TypeError".toList
    | none => globRender w pattern w.root
  | _ => "Error in glob search: TypeError".toList

/-- `tool_grep_search`. -/
def toolGrepSearch (w : World) (patternArg : JsonValue)
    (pathOpt filePatternOpt : Option JsonValue) : List Char :=
  match patternArg with
  | .str pattern =>
    let pathR : Option (List Char) ⊕ Unit :=
      match pathOpt with
      | some (.str p) => .inl (some p)
      | some .null => .inl none
      | none => .inl none
      | some _ => .inr ()
    let fpR : Option (List Char) ⊕ Unit :=
      match filePatternOpt with
      | some (.str fp) => .inl (some fp)
      | some .null => .inl none
      | none => .inl none
      | some _ => .inr ()
    match pathR, fpR with
    | .inl pOpt, .inl fpOpt =>
      let sp := match pOpt with
        | some p => if p.isEmpty then w.root else p
        | none => w.root
      let sp2 := if isAbsPath sp then sp else pathJoin w.root sp
      let inc := match fpOpt with
        | some fp => if fp.isEmpty then "*".toList else fp
        | none => "*".toList
      match w.grepFn pattern sp2 inc with
      | .out stdout =>
        if stdout.isEmpty then "No matches found for pattern: ".toList ++ pattern
        else
          let lines := (pyStrip stdout).splitOn '\n'
          "Found ".toList ++ natChars lines.length ++ " matches:\n".toList ++
            List.intercalate "\n".toList (lines.take 30)
      | .timeout => "Error: Search timed out".toList
      | .exn e => "Error in grep search: ".toList ++ e
    | _, _ => "Error in grep search: TypeError".toList
  | _ => "Error in grep search: TypeError".toList

/-! ### `execute_tool` -/

/-- The Python exceptions that can escape `execute_tool` (raised by the
dispatch lambdas' argument accesses, before an executor's own `try`). -/
inductive PyExn where
  | keyError
  | typeError
  | attributeError
deriving DecidableEq, Repr

/-- `args[k]` on a parsed JSON value: a missing key raises `KeyError`, a
non-dict raises `TypeError`. -/
def jsonIndex (args : JsonValue) (k : List Char) : Except PyExn JsonValue :=
  match args with
  | .obj fs =>
    match lookupField k fs with
    | some v => .ok v
    | none => .error .keyError
  | _ => .error .typeError

/-- `args.get(k)`: a non-dict has no `get` and raises `AttributeError`. -/
def jsonGet (args : JsonValue) (k : List Char) : Except PyExn (Option JsonValue) :=
  match args with
  | .obj fs => .ok (lookupField k fs)
  | _ => .error .attributeError

/-- The registered tool names (the keys of `tool_functions`). -/
def registeredToolNames : List (List Char) :=
  ["read_file".toList, "write_file".toList, "edit_file".toList,
   "bash".toList, "glob_search".toList, "grep_search".toList]

/-- Python `f"{v}"` rendering of the JSON values a hashable tool name can
take (only used inside result texts). -/
def pyStrOfJson (v : JsonValue) : List Char :=
  match v with
  | .str s => s
  | .num n => intChars n
  | .bool true => "True".toList
  | .bool false => "False".toList
  | .null => "None".toList
  | _ => []

/-- `execute_tool(name, arguments)`.  An unhashable name (dict/list) makes
the `name not in tool_functions` check raise `TypeError`; an unknown
hashable name yields the textual unknown-tool result without invoking any
executor; a registered name runs its dispatch lambda, whose subscript
accesses `args["…"]`/`args.get("…")` happen outside the executors' `try`
blocks and can therefore raise out of `execute_tool`. -/
def executeTool (w : World) (name args : JsonValue) : Except PyExn (List Char) × World :=
  match name with
  | .obj _ => (.error .typeError, w)
  | .arr _ => (.error .typeError, w)
  | .str n =>
    if n = "read_file".toList then
      match jsonIndex args "path".toList with
      | .error e => (.error e, w)
      | .ok p => (.ok (toolReadFile w p), w)
    else if n = "write_file".toList then
      match jsonIndex args "path".toList with
      | .error e => (.error e, w)
      | .ok p =>
        match jsonIndex args "content".toList with
        | .error e => (.error e, w)
        | .ok c =>
          let r := toolWriteFile w p c
          (.ok r.1, r.2)
    else if n = "edit_file".toList then
      match jsonIndex args "path".toList with
      | .error e => (.error e, w)
      | .ok p =>
        match jsonIndex args "old_string".toList with
        | .error e => (.error e, w)
        | .ok o =>
          match jsonIndex args "new_string".toList with
          | .error e => (.error e, w)
          | .ok nw =>
            let r := toolEditFile w p o nw
            (.ok r.1, r.2)
    else if n = "bash".toList then
      match jsonIndex args "command".toList with
      | .error e => (.error e, w)
      | .ok (.str c) => (.ok (toolBash w c).1, w)
      | .ok _ => (.error .typeError, w)
    else if n = "glob_search".toList then
      match jsonIndex args "pattern".toList with
      | .error e => (.error e, w)
      | .ok p =>
        match jsonGet args "path".toList with
        | .error e => (.error e, w)
        | .ok pathOpt => (.ok (toolGlobSearch w p pathOpt), w)
    else if n = "grep_search".toList then
      match jsonIndex args "pattern".toList with
      | .error e => (.error e, w)
      | .ok p =>
        match jsonGet args "path".toList with
        | .error e => (.error e, w)
        | .ok pathOpt =>
          match jsonGet args "file_pattern".toList with
          | .error e => (.error e, w)
          | .ok fpOpt => (.ok (toolGrepSearch w p pathOpt fpOpt), w)
    else (.ok ("Error: Unknown tool '".toList ++ n ++ "'".toList), w)
  | other => (.ok ("Error: Unknown tool '".toList ++ pyStrOfJson other ++ "'".toList), w)

/-! ### The conversation loop (`run_agent_loop`) -/

/-- One conversation message (`{"role": …, "content": …}`, with the
`name` field tool-role messages carry). -/
structure Msg where
  role : List Char
  content : List Char
  name : Option (List Char)
deriving DecidableEq, Repr

/-- Outcome of one `chat_with_ollama` round-trip: the response's parsed
`message` object, or a raised exception (connection failure or non-200
status). -/
inductive ChatOutcome where
  | ok (message : Msg)
  | exn (e : List Char)

/-- The chat-completion capability as an oracle over the current message
history (the model and payload details are absorbed into it). -/
def ChatOracle : Type :=
  List Msg → ChatOutcome

/-- Which exit path `run_agent_loop` took (recorded by the embedding; the
Python function distinguishes them only by control flow). -/
inductive TermTag where
  | done
  | truncated
  | transportError
  | raised (e : PyExn)
deriving DecidableEq, Repr

/-- Whether a tag is the exception exit path. -/
def TermTag.isRaised : TermTag → Bool
  | .raised _ => true
  | _ => false

/-- The observable result of `run_agent_loop`, instrumented with the
conversation history variable, the final world, the number of
`chat_with_ollama` calls performed, and the exit path taken.  On the
`raised` path the Python function does not return; `finalResponse` is then
the meaningless empty string. -/
structure RunResult where
  finalResponse : List Char
  allMessages : List Msg
  messages : List Msg
  world : World
  chatCalls : Nat
  tag : TermTag

/-- `tool_call.get("name", "")` (a non-dict tool call, which patterns 1-2
can produce, has no `get` and raises). -/
def toolCallName (tc : JsonValue) : Except PyExn JsonValue :=
  match tc with
  | .obj fs => .ok ((lookupField "name".toList fs).getD (.str []))
  | _ => .error .attributeError

/-- `tool_call.get("arguments", {})`. -/
def toolCallArgs (tc : JsonValue) : Except PyExn JsonValue :=
  match tc with
  | .obj fs => .ok ((lookupField "arguments".toList fs).getD (.obj []))
  | _ => .error .attributeError

/-- Dispatch the extracted tool calls of one turn in order, accumulating
the `tool_results` texts and the tool-role messages appended to
`all_messages`.  A raised exception aborts the turn with the partial
accumulators (Python would propagate it out of `run_agent_loop`). -/
def processToolCalls (w : World) (tcs : List JsonValue)
    (results : List (List Char)) (toolMsgs : List Msg) :
    Option PyExn × List (List Char) × List Msg × World :=
  match tcs with
  | [] => (none, results, toolMsgs, w)
  | tc :: rest =>
    match toolCallName tc with
    | .error e => (some e, results, toolMsgs, w)
    | .ok nameV =>
      match toolCallArgs tc with
      | .error e => (some e, results, toolMsgs, w)
      | .ok argsV =>
        match executeTool w nameV argsV with
        | (.error e, w2) => (some e, results, toolMsgs, w2)
        | (.ok text, w2) =>
          let entry := "**".toList ++ pyStrOfJson nameV ++ "** result:\n".toList ++ text
          let tm : Msg := ⟨"tool".toList, text, some (pyStrOfJson nameV)⟩
          processToolCalls w2 rest (results ++ [entry]) (toolMsgs ++ [tm])

/-- The fixed system prompt of `run_agent_loop` (verbatim). -/
def systemPromptText : List Char :=
  "You are a helpful AI coding assistant. You have access to tools to help you complete tasks.\n\n## Available Tools\n\n1. **read_file** - Read file contents\n   Arguments: \x7b\"path\": \"file/path\"\x7d\n\n2. **write_file** - Write content to a file\n   Arguments: \x7b\"path\": \"file/path\", \"content\": \"file content\"\x7d\n\n3. **edit_file** - Replace a specific string in a file\n   Arguments: \x7b\"path\": \"file/path\", \"old_string\": \"text to find\", \"new_string\": \"replacement text\"\x7d\n\n4. **bash** - Execute shell commands\n   Arguments: \x7b\"command\": \"shell command\"\x7d\n\n5. **glob_search** - Find files matching patterns\n   Arguments: \x7b\"pattern\": \"**/*.py\", \"path\": \"optional/directory\"\x7d\n\n6. **grep_search** - Search for patterns in files\n   Arguments: \x7b\"pattern\": \"regex pattern\", \"path\": \"optional/directory\", \"file_pattern\": \"*.py\"\x7d\n\n## How to Call Tools\n\nTo use a tool, include a tool call block in your response:\n\n```tool\n\x7b\"name\": \"tool_name\", \"arguments\": \x7b\"arg1\": \"value1\"\x7d\x7d\n```\n\nExample:\n```tool\n\x7b\"name\": \"read_file\", \"arguments\": \x7b\"path\": \"README.md\"\x7d\x7d\n```\n\n## Important Rules\n\n1. Call ONE tool at a time and wait for the result before calling another\n2. After receiving tool results, analyze them and decide next steps\n3. When your task is complete, provide a clear final answer WITHOUT any tool blocks\n4. Think step by step about what you need to do\n\nBegin by analyzing the task and determining what information you need.".toList

/-- The synthetic user message closing a tool turn. -/
def toolResultsUserMsg (results : List (List Char)) : Msg :=
  ⟨"user".toList,
    "Tool results:\n\n".toList ++ List.intercalate "\n\n".toList results ++
      "\n\nContinue with your task. If complete, provide your final answer without tool blocks.".toList,
    none⟩

/-- The iteration body of `run_agent_loop`: `fuel` is the number of
remaining `range(max_iterations)` iterations, `calls` the number of
`chat_with_ollama` round-trips performed so far. -/
def runLoopAux (oracle : ChatOracle) :
    Nat → List Msg → List Msg → World → Nat → RunResult
  | 0, messages, allM, w, calls => ⟨[], allM, messages, w, calls, .truncated⟩
  | fuel + 1, messages, allM, w, calls =>
    match oracle messages with
    | .exn e =>
      ⟨"Error in agent loop: ".toList ++ e, allM, messages, w, calls + 1, .transportError⟩
    | .ok message =>
      let content := message.content
      let tcs := parseToolCallsFromText content
      if tcs.isEmpty then
        ⟨content, allM ++ [message], messages, w, calls + 1, .done⟩
      else
        match processToolCalls w tcs [] [] with
        | (some e, _, toolMsgs, w2) =>
          ⟨[], (allM ++ [message]) ++ toolMsgs,
            messages ++ [⟨"assistant".toList, content, none⟩], w2, calls + 1, .raised e⟩
        | (none, results, toolMsgs, w2) =>
          runLoopAux oracle fuel
            ((messages ++ [⟨"assistant".toList, content, none⟩]) ++ [toolResultsUserMsg results])
            ((allM ++ [message]) ++ toolMsgs) w2 (calls + 1)

/-- `run_agent_loop(prompt, model, max_iterations)` (the model identifier
is absorbed into the oracle). -/
def runAgentLoop (oracle : ChatOracle) (w : World) (prompt : List Char)
    (maxIterations : Nat) : RunResult :=
  runLoopAux oracle maxIterations
    [⟨"system".toList, systemPromptText, none⟩, ⟨"user".toList, prompt, none⟩] [] w 0

/-! ### Transcript recording (`save_output`) and `prompt_local_agent` -/

/-- One hexadecimal digit as `json.dumps` prints it (lowercase). -/
def hexDigitChar (n : Nat) : Char :=
  if n < 10 then Char.ofNat (48 + n) else Char.ofNat (87 + n)

/-- A `\uXXXX` escape. -/
def uEscape (n : Nat) : List Char :=
  '\\' :: 'u' :: [hexDigitChar (n / 4096 % 16), hexDigitChar (n / 256 % 16),
    hexDigitChar (n / 16 % 16), hexDigitChar (n % 16)]

/-- `json.dumps` escaping of one character (default `ensure_ascii=True`:
printable ASCII passes through, the short escapes are used where they
exist, everything else becomes `\uXXXX`, astral characters a surrogate
pair). -/
def escapeChar (c : Char) : List Char :=
  if c = '"' then ['\\', '"']
  else if c = '\\' then ['\\', '\\']
  else if c = '\n' then ['\\', 'n']
  else if c = '\r' then ['\\', 'r']
  else if c = '\t' then ['\\', 't']
  else if c = Char.ofNat 8 then ['\\', 'b']
  else if c = Char.ofNat 12 then ['\\', 'f']
  else if c.toNat < 0x20 then uEscape c.toNat
  else if c.toNat < 0x7f then [c]
  else if c.toNat < 0x10000 then uEscape c.toNat
  else uEscape (0xD800 + (c.toNat - 0x10000) / 0x400) ++ uEscape (0xDC00 + (c.toNat - 0x10000) % 0x400)

/-- `json.dumps` of a string. -/
def jsonStrLit (s : List Char) : List Char :=
  '"' :: s.flatMap escapeChar ++ ['"']

/-- The common shape of a serialised message dict, parameterised by the
whitespace padding that the flat (`json.dumps`) and indented
(`json.dump(..., indent=2)`) forms insert after `{`, after each `,`, and
before `}`.  Keys are in insertion order: `role`, then `name` when
present, then `content`. -/
def dumpsMsgGen (pad0 pad padEnd : List Char) (m : Msg) : List Char :=
  '{' :: (pad0 ++ jsonStrLit "role".toList ++ ": ".toList ++ jsonStrLit m.role ++
    (match m.name with
     | some nm => ',' :: (pad ++ jsonStrLit "name".toList ++ ": ".toList ++ jsonStrLit nm)
     | none => []) ++
    ',' :: (pad ++ jsonStrLit "content".toList ++ ": ".toList ++ jsonStrLit m.content) ++
    padEnd) ++ ['}']

/-- `json.dumps(msg)` for one message dict, with the default `", "`/`": "`
separators. -/
def dumpsMsg (m : Msg) : List Char :=
  dumpsMsgGen [] [' '] [] m

/-- One element of `json.dump(messages, f, indent=2)`: the same fields at
indent level one. -/
def dumpsMsgIndent (m : Msg) : List Char :=
  dumpsMsgGen "\n    ".toList "\n    ".toList "\n  ".toList m

/-- The JSONL file content: one `json.dumps(msg)` per line. -/
def jsonlOfMessages (messages : List Msg) : List Char :=
  (messages.map (fun m => dumpsMsg m ++ ['\n'])).flatten

/-- The `json.dump(messages, f, indent=2)` file content. -/
def jsonArrayOfMessages (messages : List Msg) : List Char :=
  if messages.isEmpty then "[]".toList
  else
    '[' :: '\n' :: "  ".toList ++
      List.intercalate ",\n  ".toList (messages.map dumpsMsgIndent) ++ '\n' :: [']']

/-- `save_output(messages, output_file)`: the ordered file writes it
performs — the JSONL stream at the given path and the JSON array at the
path with every `".jsonl"` occurrence replaced by `".json"`. -/
def saveOutput (messages : List Msg) (outputFile : List Char) : List (List Char × List Char) :=
  [(outputFile, jsonlOfMessages messages),
   (replaceAll ".jsonl".toList ".json".toList outputFile, jsonArrayOfMessages messages)]

/-- The caller-visible response of `prompt_local_agent`. -/
structure AgentPromptResponse where
  output : List Char
  success : Bool
  sessionId : Option (List Char)
deriving DecidableEq, Repr

/-- Rendering of an escaped exception in
`f"Error executing local agent: {e}"`. -/
def pyExnChars : PyExn → List Char
  | .keyError => "KeyError".toList
  | .typeError => "TypeError".toList
  | .attributeError => "AttributeError".toList

/-- The core of `prompt_local_agent` (the Ollama-availability and
model-pull preamble, which returns early without running the loop, and
`save_prompt` are outside the claims and elided): run the loop with the
default `max_iterations = 20`, save the transcript, and report success —
including for transport errors, which `run_agent_loop` swallowed into its
returned string; only an exception escaping the loop (a tool-dispatch
failure) is caught and reported as `success=False`, skipping
`save_output`.  Returns the response and the file writes performed. -/
def promptLocalAgent (oracle : ChatOracle) (w : World) (prompt adwId outputFile : List Char) :
    AgentPromptResponse × List (List Char × List Char) :=
  let r := runAgentLoop oracle w prompt 20
  match r.tag with
  | .raised e => (⟨"Error executing local agent: ".toList ++ pyExnChars e, false, none⟩, [])
  | _ => (⟨r.finalResponse, true, some adwId⟩, saveOutput r.allMessages outputFile)

/-! ### Concrete instances used by witnesses and counterexamples -/

/-- A minimal concrete world: an absolute project root, empty file
system, a shell whose commands succeed silently, no glob matches. -/
def emptyWorld : World :=
  ⟨"/proj".toList, fun _ => none, fun _ => .res [] [] 0, fun _ => [], id, fun _ _ _ => .out []⟩

/-! ### Claim C1 -/

theorem runLoopAux_chatCalls_le (oracle : ChatOracle) :
    ∀ (fuel : Nat) (messages allM : List Msg) (w : World) (calls : Nat),
      (runLoopAux oracle fuel messages allM w calls).chatCalls ≤ calls + fuel := by
  intro fuel
  induction fuel with
  | zero => intro messages allM w calls; simp [runLoopAux]
  | succ n ih =>
    intro messages allM w calls
    rw [runLoopAux]
    cases oracle messages with
    | exn e =>
      show calls + 1 ≤ calls + (n + 1)
      omega
    | ok message =>
      simp only
      split
      · show calls + 1 ≤ calls + (n + 1)
        omega
      · split
        · show calls + 1 ≤ calls + (n + 1)
          omega
        · exact Nat.le_trans (ih _ _ _ _) (by omega)

/-- C1: for every prompt, chat oracle (covering every model behaviour,
including one that requests tools on every turn), world and
`max_iterations`, `run_agent_loop` performs at most `max_iterations`
round-trips to `chat_with_ollama` before terminating. -/
theorem run_agent_loop_at_most_max_iterations_chat_calls
    (oracle : ChatOracle) (w : World) (prompt : List Char) (maxIterations : Nat) :
    (runAgentLoop oracle w prompt maxIterations).chatCalls ≤ maxIterations := by
  have h := runLoopAux_chatCalls_le oracle maxIterations
    [⟨"system".toList, systemPromptText, none⟩, ⟨"user".toList, prompt, none⟩] [] w 0
  simpa [runAgentLoop] using h

/-! ### Claim C7 -/

theorem executeTool_unknown_eq (w : World) (args : JsonValue) (n : List Char)
    (hn : n ∉ registeredToolNames) :
    executeTool w (.str n) args =
      (.ok ("Error: Unknown tool '".toList ++ n ++ "'".toList), w) := by
  have h1 : ¬ n = "read_file".toList := fun h => hn (by rw [h]; simp [registeredToolNames])
  have h2 : ¬ n = "write_file".toList := fun h => hn (by rw [h]; simp [registeredToolNames])
  have h3 : ¬ n = "edit_file".toList := fun h => hn (by rw [h]; simp [registeredToolNames])
  have h4 : ¬ n = "bash".toList := fun h => hn (by rw [h]; simp [registeredToolNames])
  have h5 : ¬ n = "glob_search".toList := fun h => hn (by rw [h]; simp [registeredToolNames])
  have h6 : ¬ n = "grep_search".toList := fun h => hn (by rw [h]; simp [registeredToolNames])
  simp only [executeTool, if_neg h1, if_neg h2, if_neg h3, if_neg h4, if_neg h5, if_neg h6]

/-- C7: dispatching any name outside the registered set through
`execute_tool` fails with the unknown-tool error outcome: the textual
result `Error: Unknown tool '<name>'` is returned, no executor is invoked
and the world is untouched (no exception is raised — tool failures are
textual in this design). -/
theorem execute_tool_unknown_name (w : World) (args : JsonValue) (n : List Char)
    (hn : n ∉ registeredToolNames) :
    executeTool w (.str n) args =
      (.ok ("Error: Unknown tool '".toList ++ n ++ "'".toList), w) :=
  executeTool_unknown_eq w args n hn

/-- Witness for C7 at the concrete unregistered name `foo`. -/
theorem execute_tool_unknown_name_witness :
    executeTool emptyWorld (.str "foo".toList) (.obj []) =
      (.ok ("Error: Unknown tool '".toList ++ "foo".toList ++ "'".toList), emptyWorld) :=
  execute_tool_unknown_name emptyWorld (.obj []) "foo".toList (by decide)

/-! ### Claim C9 -/

/-- C9: with the project root absolute (as `os.path.abspath` guarantees),
`glob_search` with more than 50 matches reports the full match count in
its header while listing exactly the first 50 relative paths, and with
zero matches produces the no-files message. -/
theorem tool_glob_search_caps_listing (w : World) (pattern : List Char)
    (hroot : isAbsPath w.root = true) :
    (50 < ((w.globFn (pathJoin w.root pattern)).map w.relpathFn).length →
      toolGlobSearch w (.str pattern) none =
        "Found ".toList ++ natChars ((w.globFn (pathJoin w.root pattern)).map w.relpathFn).length ++
          " files:\n".toList ++
          List.intercalate "\n".toList (((w.globFn (pathJoin w.root pattern)).map w.relpathFn).take 50) ∧
      (((w.globFn (pathJoin w.root pattern)).map w.relpathFn).take 50).length = 50) ∧
    (((w.globFn (pathJoin w.root pattern)).map w.relpathFn) = [] →
      toolGlobSearch w (.str pattern) none =
        "No files found matching pattern: ".toList ++ pattern) := by
  constructor
  · intro h50
    have hne : (((w.globFn (pathJoin w.root pattern)).map w.relpathFn)).isEmpty = false := by
      cases hmat : ((w.globFn (pathJoin w.root pattern)).map w.relpathFn) with
      | nil => rw [hmat] at h50; simp at h50
      | cons a l => simp
    constructor
    · simp [toolGlobSearch, globRender, hroot, hne]
    · simp only [List.length_take]
      omega
  · intro h0
    simp [toolGlobSearch, globRender, hroot, h0]

/-- A world whose glob oracle returns 60 matches. -/
def glob60World : World :=
  ⟨"/proj".toList, fun _ => none, fun _ => .res [] [] 0,
    fun _ => (List.range 60).map (fun i => "/proj/f".toList ++ natChars i),
    id, fun _ _ _ => .out []⟩

/-- Witness for C9: 60 matches → header counts 60 and exactly 50 paths
are listed; zero matches → the no-files message. -/
theorem tool_glob_search_caps_listing_witness :
    (toolGlobSearch glob60World (.str "**/*.py".toList) none =
      "Found ".toList ++ natChars ((glob60World.globFn (pathJoin glob60World.root "**/*.py".toList)).map glob60World.relpathFn).length ++
        " files:\n".toList ++
        List.intercalate "\n".toList (((glob60World.globFn (pathJoin glob60World.root "**/*.py".toList)).map glob60World.relpathFn).take 50) ∧
      (((glob60World.globFn (pathJoin glob60World.root "**/*.py".toList)).map glob60World.relpathFn).take 50).length = 50) ∧
    toolGlobSearch emptyWorld (.str "**/*.py".toList) none =
      "No files found matching pattern: ".toList ++ "**/*.py".toList :=
  ⟨(tool_glob_search_caps_listing glob60World "**/*.py".toList (by decide)).1 (by decide),
   (tool_glob_search_caps_listing emptyWorld "**/*.py".toList (by decide)).2 (by decide)⟩

/-! ### Claim C6 -/

theorem isSubstr_append_self (needle : List Char) :
    ∀ pre : List Char, isSubstr needle (pre ++ needle) = true := by
  intro pre
  induction pre with
  | nil =>
    cases needle with
    | nil => rfl
    | cons c t =>
      simp only [List.nil_append, isSubstr, Bool.or_eq_true]
      exact Or.inl (List.isPrefixOf_iff_prefix.mpr (List.prefix_refl _))
  | cons c pre ih =>
    simp only [List.cons_append, isSubstr, Bool.or_eq_true]
    exact Or.inr ih

/-- C6: `tool_bash` checks the deny-list against the literal command
string first: a matching command is answered with the blocked-for-safety
text and no process is ever spawned; a non-matching command always spawns
the shell, and whenever the completed process exits nonzero the result
text contains `Exit code: <code>`. -/
theorem tool_bash_denylist_and_exit_code (w : World) (command : List Char) :
    (dangerousHit command = true →
      toolBash w command =
        ("Error: Command blocked for safety: ".toList ++ command, false)) ∧
    (dangerousHit command = false →
      (toolBash w command).2 = true ∧
      (∀ stdout stderr code, w.shell command = .res stdout stderr code → code ≠ 0 →
        isSubstr ("Exit code: ".toList ++ intChars code) (toolBash w command).1 = true)) := by
  constructor
  · intro hhit
    simp [toolBash, hhit]
  · intro hmiss
    constructor
    · simp only [toolBash, hmiss, Bool.false_eq_true, if_false]
      cases w.shell command <;> simp
    · intro stdout stderr code hshell hcode
      simp only [toolBash, hmiss, Bool.false_eq_true, if_false, hshell]
      have hne : ((if stdout.isEmpty then [] else "stdout:\n".toList ++ stdout ++ ['\n']) ++
          (if stderr.isEmpty then [] else "stderr:\n".toList ++ stderr ++ ['\n']) ++
          (if code = 0 then [] else "Exit code: ".toList ++ intChars code)).isEmpty = false := by
        rw [if_neg hcode]
        simp [List.isEmpty_eq_true]
      simp only [if_neg hcode, List.append_assoc] at hne ⊢
      rw [if_neg (by simp [hne])]
      rw [← List.append_assoc]
      exact isSubstr_append_self _ _

/-- A world whose shell reports exit code 7 for every command. -/
def exit7World : World :=
  ⟨"/proj".toList, fun _ => none, fun _ => .res "out".toList [] 7, fun _ => [], id,
    fun _ _ _ => .out []⟩

/-- Witness for C6: `rm -rf /` is blocked without spawning; `ls` is not
blocked, spawns, and its nonzero exit code 7 appears in the result. -/
theorem tool_bash_denylist_and_exit_code_witness :
    toolBash exit7World "rm -rf /".toList =
      ("Error: Command blocked for safety: ".toList ++ "rm -rf /".toList, false) ∧
    (toolBash exit7World "ls".toList).2 = true ∧
    isSubstr ("Exit code: ".toList ++ intChars 7) (toolBash exit7World "ls".toList).1 = true :=
  ⟨(tool_bash_denylist_and_exit_code exit7World "rm -rf /".toList).1 (by decide),
   ((tool_bash_denylist_and_exit_code exit7World "ls".toList).2 (by decide)).1,
   ((tool_bash_denylist_and_exit_code exit7World "ls".toList).2 (by decide)).2
     "out".toList [] 7 rfl (by decide)⟩

/-! ### Claim C5 -/

theorem isSubstr_iff_substrCount_pos (needle hay : List Char) :
    isSubstr needle hay = true ↔ 1 ≤ substrCount needle hay := by
  cases needle with
  | nil =>
    cases hay with
    | nil => simp [isSubstr, substrCount, List.isEmpty]
    | cons c t => simp [isSubstr, substrCount]
  | cons n0 nrest =>
    induction hay with
    | nil => simp [isSubstr, substrCount, substrCountAux, List.isEmpty]
    | cons c t ih =>
      simp only [substrCount] at ih ⊢
      rw [isSubstr, substrCountAux]
      by_cases hpre : (n0 :: nrest).isPrefixOf (c :: t) = true
      · simp [hpre]
      · simp only [Bool.not_eq_true] at hpre
        simp [hpre, ih]

/-- C5: on a file whose content contains `old_string` more than once
(e.g. exactly twice), `tool_edit_file` answers with the textual error
reporting the occurrence count and leaves the file system untouched; if
`old_string` is absent it answers with the textual not-found error, again
leaving the file system untouched; and any successful edit implies the
string occurred exactly once. -/
theorem tool_edit_file_ambiguity_safe (w : World) (p old new content : List Char)
    (hfile : w.fs (resolvePath w.root p) = some content) :
    (isSubstr old content = false →
      toolEditFile w (.str p) (.str old) (.str new) =
        ("Error: String not found in ".toList ++ resolvePath w.root p, w)) ∧
    (1 < substrCount old content →
      toolEditFile w (.str p) (.str old) (.str new) =
        ("Error: String appears ".toList ++ natChars (substrCount old content) ++
          " times in ".toList ++ resolvePath w.root p ++
          ". Provide more context for unique match.".toList, w)) ∧
    ((toolEditFile w (.str p) (.str old) (.str new)).1 =
        "Successfully edited ".toList ++ resolvePath w.root p →
      substrCount old content = 1) := by
  refine ⟨?_, ?_, ?_⟩
  · intro habsent
    simp [toolEditFile, hfile, habsent]
  · intro hmulti
    have hsub : isSubstr old content = true :=
      (isSubstr_iff_substrCount_pos old content).mpr (by omega)
    simp [toolEditFile, hfile, hsub, hmulti]
  · intro hsuccess
    by_cases hsub : isSubstr old content = true
    · by_cases hmulti : 1 < substrCount old content
      · exfalso
        rw [toolEditFile] at hsuccess
        simp only [hfile, hsub, hmulti, if_true, if_false, Bool.true_eq_false] at hsuccess
        have := congrArg (fun l => l.take 6) hsuccess
        simp at this
      · have := (isSubstr_iff_substrCount_pos old content).mp hsub
        omega
    · exfalso
      simp only [Bool.not_eq_true] at hsub
      rw [toolEditFile] at hsuccess
      simp only [hfile, hsub, Bool.false_eq_true, if_false] at hsuccess
      have := congrArg (fun l => l.take 6) hsuccess
      simp at this

/-- A world with one file `/proj/a.txt` containing `abcXabc`. -/
def twoOccWorld : World :=
  ⟨"/proj".toList,
    fun q => if q = "/proj/a.txt".toList then some "abcXabc".toList else none,
    fun _ => .res [] [] 0, fun _ => [], id, fun _ _ _ => .out []⟩

/-- Witness for C5: the string `abc` occurs twice in the file, so the
edit fails reporting the count 2 and the world is unchanged; the string
`zzz` is absent, so the edit fails with the not-found text. -/
theorem tool_edit_file_ambiguity_safe_witness :
    toolEditFile twoOccWorld (.str "a.txt".toList) (.str "abc".toList) (.str "Q".toList) =
      ("Error: String appears ".toList ++ natChars (substrCount "abc".toList "abcXabc".toList) ++
        " times in ".toList ++ resolvePath twoOccWorld.root "a.txt".toList ++
        ". Provide more context for unique match.".toList, twoOccWorld) ∧
    toolEditFile twoOccWorld (.str "a.txt".toList) (.str "zzz".toList) (.str "Q".toList) =
      ("Error: String not found in ".toList ++ resolvePath twoOccWorld.root "a.txt".toList,
        twoOccWorld) :=
  ⟨(tool_edit_file_ambiguity_safe twoOccWorld "a.txt".toList "abc".toList "Q".toList
      "abcXabc".toList (by decide)).2.1 (by decide),
   (tool_edit_file_ambiguity_safe twoOccWorld "a.txt".toList "zzz".toList "Q".toList
      "abcXabc".toList (by decide)).1 (by decide)⟩

/-! ### Claim C3 (counterexample) and claim C10 -/

/-- A bare JSON invocation whose `arguments` object is nested:
`{"name": "read_file", "arguments": {"sub": {}}}`. -/
def nestedBareCall : List Char :=
  "\x7b\"name\": \"read_file\", \"arguments\": \x7b\"sub\": \x7b\x7d\x7d\x7d".toList

/-- C3 counterexample: a well-formed bare-JSON invocation (top-level
string `name`, object `arguments` — here containing a nested object) on
which `parse_tool_calls_from_text` finds no tool call at all: the
pattern-3 regex cannot span the nested braces.  The second conjunct
certifies well-formedness by parsing the text as JSON. -/
theorem parse_tool_calls_misses_nested_bare_json :
    parseToolCallsFromText nestedBareCall = [] ∧
    pyLoads nestedBareCall =
      some (.obj [("name".toList, .str "read_file".toList),
        ("arguments".toList, .obj [("sub".toList, .obj [])])]) :=
  ⟨rfl, rfl⟩

/-- The invocation `{"name": "bash", "arguments": {"command": "ls"}}`. -/
def bashLsCall : List Char :=
  "\x7b\"name\": \"bash\", \"arguments\": \x7b\"command\": \"ls\"\x7d\x7d".toList

/-- `bashLsCall` as a parsed JSON value. -/
def bashLsJson : JsonValue :=
  .obj [("name".toList, .str "bash".toList),
    ("arguments".toList, .obj [("command".toList, .str "ls".toList)])]

/-- One assistant text carrying the same invocation once in a ```tool
fence and once in a tag pair. -/
def doubledCallText : List Char :=
  "```tool\n".toList ++ bashLsCall ++ "\n```\n<tool_call>".toList ++ bashLsCall ++
    "</tool_call>".toList

/-- The oracle for C10: the doubled text on the first turn, a plain
answer on the second. -/
def doubledCallOracle : ChatOracle := fun ms =>
  if ms.length ≤ 2 then .ok ⟨"assistant".toList, doubledCallText, none⟩
  else .ok ⟨"assistant".toList, "done".toList, none⟩

set_option maxRecDepth 100000 in
/-- C10: when one assistant text carries the same invocation once in a
```tool fence and once in a tag pair, the extractor returns the call
twice (patterns 1 and 2 both collect it; only pattern 3 deduplicates, and
its two re-detections are both dropped), and the conversation loop
dispatches the tool twice in that turn, appending two tool-role
messages. -/
theorem parse_tool_calls_duplicates_across_patterns :
    parseToolCallsFromText doubledCallText = [bashLsJson, bashLsJson] ∧
    (runAgentLoop doubledCallOracle emptyWorld "go".toList 2).allMessages =
      [⟨"assistant".toList, doubledCallText, none⟩,
       ⟨"tool".toList, "Command completed successfully (no output)".toList, some "bash".toList⟩,
       ⟨"tool".toList, "Command completed successfully (no output)".toList, some "bash".toList⟩,
       ⟨"assistant".toList, "done".toList, none⟩] ∧
    (runAgentLoop doubledCallOracle emptyWorld "go".toList 2).tag = .done :=
  ⟨rfl, rfl, rfl⟩

/-! ### Claim C4 -/

/-- The oracle for the C4 counterexample: the model always requests
`read_file` with an empty arguments object. -/
def readFileNoArgsOracle : ChatOracle := fun _ =>
  .ok ⟨"assistant".toList,
    "\x7b\"name\": \"read_file\", \"arguments\": \x7b\x7d\x7d".toList, none⟩

set_option maxRecDepth 100000 in
/-- C4 counterexample: an extracted call whose arguments mapping omits
the required `path` raises `KeyError` out of `execute_tool` (the dispatch
lambda's `args["path"]` runs outside the executor's `try`), and the
conversation loop does not continue to a next turn: the run aborts after
a single chat call on the exception path. -/
theorem execute_tool_raises_on_missing_required_arg :
    (executeTool emptyWorld (.str "read_file".toList) (.obj [])).1 = .error .keyError ∧
    (runAgentLoop readFileNoArgsOracle emptyWorld "go".toList 5).tag = .raised .keyError ∧
    (runAgentLoop readFileNoArgsOracle emptyWorld "go".toList 5).chatCalls = 1 :=
  ⟨rfl, rfl, rfl⟩

/-- The argument-shape condition under which a registered tool's dispatch
lambda performs no raising access: the arguments are a mapping containing
the tool's required argument names (and, for `bash`, a string command,
since `re.search` rejects non-strings before `tool_bash`'s `try`). -/
def requiredArgsPresent (n : List Char) (args : JsonValue) : Bool :=
  match args with
  | .obj fields =>
    if n = "read_file".toList then (lookupField "path".toList fields).isSome
    else if n = "write_file".toList then
      (lookupField "path".toList fields).isSome && (lookupField "content".toList fields).isSome
    else if n = "edit_file".toList then
      (lookupField "path".toList fields).isSome &&
        (lookupField "old_string".toList fields).isSome &&
        (lookupField "new_string".toList fields).isSome
    else if n = "bash".toList then
      match lookupField "command".toList fields with
      | some (.str _) => true
      | _ => false
    else if n = "glob_search".toList then (lookupField "pattern".toList fields).isSome
    else if n = "grep_search".toList then (lookupField "pattern".toList fields).isSome
    else true
  | _ => false

/-- A (name, arguments) pair `execute_tool` handles without raising: an
unregistered hashable name (no argument is ever accessed), or a
registered name whose required arguments are present. -/
def wellFormedCall (name args : JsonValue) : Bool :=
  match name with
  | .str n => if n ∈ registeredToolNames then requiredArgsPresent n args else true
  | .obj _ => false
  | .arr _ => false
  | _ => true

/-- An extracted tool call the conversation loop survives: a JSON object
whose defaulted name/arguments form a well-formed call. -/
def turnCallOk (tc : JsonValue) : Bool :=
  match tc with
  | .obj fs =>
    wellFormedCall ((lookupField "name".toList fs).getD (.str []))
      ((lookupField "arguments".toList fs).getD (.obj []))
  | _ => false

theorem executeTool_ok_of_wellFormed (w : World) (name args : JsonValue)
    (h : wellFormedCall name args = true) :
    ∃ t, (executeTool w name args).1 = Except.ok t := by
  match name with
  | .obj _ => simp [wellFormedCall] at h
  | .arr _ => simp [wellFormedCall] at h
  | .null | .bool _ | .num _ => exact ⟨_, rfl⟩
  | .str n =>
    rw [wellFormedCall] at h
    by_cases hreg : n ∈ registeredToolNames
    · rw [if_pos hreg] at h
      match args with
      | .null | .bool _ | .num _ | .str _ | .arr _ => simp [requiredArgsPresent] at h
      | .obj fields =>
        rw [requiredArgsPresent] at h
        simp only [executeTool]
        by_cases h1 : n = "read_file".toList
        · rw [if_pos h1] at h ⊢
          obtain ⟨v, hv⟩ := Option.isSome_iff_exists.mp h
          simp only [jsonIndex, hv]
          exact ⟨_, rfl⟩
        · rw [if_neg h1] at h ⊢
          by_cases h2 : n = "write_file".toList
          · rw [if_pos h2] at h ⊢
            rw [Bool.and_eq_true] at h
            obtain ⟨v1, hv1⟩ := Option.isSome_iff_exists.mp h.1
            obtain ⟨v2, hv2⟩ := Option.isSome_iff_exists.mp h.2
            simp only [jsonIndex, hv1, hv2]
            exact ⟨_, rfl⟩
          · rw [if_neg h2] at h ⊢
            by_cases h3 : n = "edit_file".toList
            · rw [if_pos h3] at h ⊢
              rw [Bool.and_eq_true, Bool.and_eq_true] at h
              obtain ⟨v1, hv1⟩ := Option.isSome_iff_exists.mp h.1.1
              obtain ⟨v2, hv2⟩ := Option.isSome_iff_exists.mp h.1.2
              obtain ⟨v3, hv3⟩ := Option.isSome_iff_exists.mp h.2
              simp only [jsonIndex, hv1, hv2, hv3]
              exact ⟨_, rfl⟩
            · rw [if_neg h3] at h ⊢
              by_cases h4 : n = "bash".toList
              · rw [if_pos h4] at h ⊢
                match hv : lookupField "command".toList fields with
                | some (.str c) =>
                  simp only [jsonIndex, hv]
                  exact ⟨_, rfl⟩
                | some .null | some (.bool _) | some (.num _) | some (.arr _) | some (.obj _) =>
                  rw [hv] at h; simp at h
                | none => rw [hv] at h; simp at h
              · rw [if_neg h4] at h ⊢
                by_cases h5 : n = "glob_search".toList
                · rw [if_pos h5] at h ⊢
                  obtain ⟨v, hv⟩ := Option.isSome_iff_exists.mp h
                  simp only [jsonIndex, jsonGet, hv]
                  exact ⟨_, rfl⟩
                · rw [if_neg h5] at h ⊢
                  by_cases h6 : n = "grep_search".toList
                  · rw [if_pos h6] at h ⊢
                    obtain ⟨v, hv⟩ := Option.isSome_iff_exists.mp h
                    simp only [jsonIndex, jsonGet, hv]
                    exact ⟨_, rfl⟩
                  · exfalso
                    rw [registeredToolNames] at hreg
                    simp only [List.mem_cons, List.not_mem_nil, or_false] at hreg
                    rcases hreg with hx | hx | hx | hx | hx | hx
                    · exact h1 hx
                    · exact h2 hx
                    · exact h3 hx
                    · exact h4 hx
                    · exact h5 hx
                    · exact h6 hx
    · rw [if_neg hreg] at h
      exact ⟨_, by rw [executeTool_unknown_eq w args n hreg]⟩

theorem processToolCalls_none_of_ok :
    ∀ (tcs : List JsonValue) (w : World) (results : List (List Char)) (toolMsgs : List Msg),
      tcs.all turnCallOk = true → (processToolCalls w tcs results toolMsgs).1 = none := by
  intro tcs
  induction tcs with
  | nil => intro w results toolMsgs _; rfl
  | cons tc rest ih =>
    intro w results toolMsgs hall
    simp only [List.all_cons, Bool.and_eq_true] at hall
    obtain ⟨hok, hrest⟩ := hall
    match tc with
    | .null | .bool _ | .num _ | .str _ | .arr _ => simp [turnCallOk] at hok
    | .obj fs =>
      rw [turnCallOk] at hok
      rw [processToolCalls]
      simp only [toolCallName, toolCallArgs]
      obtain ⟨t, ht⟩ := executeTool_ok_of_wellFormed w _ _ hok
      rcases hres : executeTool w ((lookupField "name".toList fs).getD (.str []))
          ((lookupField "arguments".toList fs).getD (.obj [])) with ⟨r1, w2⟩
      rw [hres] at ht
      simp only at ht
      subst ht
      exact ih w2 _ _ hrest

theorem runLoopAux_no_raise (oracle : ChatOracle)
    (h : ∀ ms m, oracle ms = .ok m → (parseToolCallsFromText m.content).all turnCallOk = true) :
    ∀ (fuel : Nat) (messages allM : List Msg) (w : World) (calls : Nat),
      ((runLoopAux oracle fuel messages allM w calls).tag).isRaised = false := by
  intro fuel
  induction fuel with
  | zero => intro messages allM w calls; rfl
  | succ n ih =>
    intro messages allM w calls
    rw [runLoopAux]
    cases horacle : oracle messages with
    | exn e => rfl
    | ok message =>
      simp only
      split
      · rfl
      · have hall := h messages message horacle
        have hnone := processToolCalls_none_of_ok _ w [] [] hall
        rcases hres : processToolCalls w (parseToolCallsFromText message.content) [] []
          with ⟨o, res, tms, w2⟩
        rw [hres] at hnone
        simp only at hnone
        subst hnone
        exact ih _ _ _ _

/-- C4 (amended): a call whose arguments mapping supplies the dispatched
tool's required argument names (string command for `bash`) — and any call
to an unregistered hashable name — is answered by `execute_tool` with a
textual result, failures included, without raising; and a run in which
every extracted call is of this shape never ends on the exception path,
the loop continuing turn after turn.  (The unamended claim, which allowed
omitted required arguments, is refuted by the counterexample.) -/
theorem execute_tool_textual_on_wellformed_calls (w : World) (name args : JsonValue)
    (oracle : ChatOracle) (w2 : World) (prompt : List Char) (n : Nat) :
    (wellFormedCall name args = true → ∃ t, (executeTool w name args).1 = Except.ok t) ∧
    ((∀ ms m, oracle ms = .ok m → (parseToolCallsFromText m.content).all turnCallOk = true) →
      ((runAgentLoop oracle w2 prompt n).tag).isRaised = false) :=
  ⟨executeTool_ok_of_wellFormed w name args,
   fun h => runLoopAux_no_raise oracle h n _ _ w2 0⟩

/-- The oracle for the C4 witness: a well-formed `bash` call every turn. -/
def bashLsOracle : ChatOracle := fun _ => .ok ⟨"assistant".toList, bashLsCall, none⟩

/-- Witness for the amended C4 at a concrete well-formed call and a
concrete all-well-formed oracle. -/
theorem execute_tool_textual_on_wellformed_calls_witness :
    (∃ t, (executeTool emptyWorld (.str "read_file".toList)
      (.obj [("path".toList, .str "x".toList)])).1 = Except.ok t) ∧
    ((runAgentLoop bashLsOracle emptyWorld "go".toList 3).tag).isRaised = false :=
  ⟨(execute_tool_textual_on_wellformed_calls emptyWorld (.str "read_file".toList)
      (.obj [("path".toList, .str "x".toList)]) bashLsOracle emptyWorld "go".toList 3).1
      (by decide),
   (execute_tool_textual_on_wellformed_calls emptyWorld (.str "read_file".toList)
      (.obj [("path".toList, .str "x".toList)]) bashLsOracle emptyWorld "go".toList 3).2
      (fun ms m hm => by
        have : (⟨"assistant".toList, bashLsCall, none⟩ : Msg) = m := ChatOutcome.ok.inj hm
        rw [← this]
        decide)⟩

/-! ### Claim C2 -/

/-- The invocation `{"name": "noop", "arguments": {}}`: an unregistered
tool, so every dispatch is the cheap textual unknown-tool result. -/
def noopCall : List Char :=
  "\x7b\"name\": \"noop\", \"arguments\": \x7b\x7d\x7d".toList

/-- A model that requests a tool on every turn. -/
def alwaysToolOracle : ChatOracle := fun _ => .ok ⟨"assistant".toList, noopCall, none⟩

/-- A model that immediately answers with empty content. -/
def emptyDoneOracle : ChatOracle := fun _ => .ok ⟨"assistant".toList, [], none⟩

/-- A chat endpoint that always raises. -/
def failingChatOracle : ChatOracle := fun _ => .exn "boom".toList

/-- A model whose legitimate final answer happens to be the transport
error string. -/
def errorLookalikeOracle : ChatOracle := fun _ =>
  .ok ⟨"assistant".toList, "Error in agent loop: ".toList ++ "boom".toList, none⟩

set_option maxRecDepth 400000 in
/-- C2 counterexample: (i) a run truncated at the iteration cap returns
the empty string — the initialised `final_response` — not the last
assistant content (which here is the non-empty tool-request text); and
(ii) the outcomes do not distinguish the three terminal states: a
Truncated run and a Done run with empty answer produce identical
`AgentPromptResponse`s (both `success=True`), as do a fatal transport
error and a Done run whose answer is the error-prefixed string. -/
theorem truncation_discards_last_content_and_outcomes_collide :
    (runAgentLoop alwaysToolOracle emptyWorld "go".toList 1).tag = .truncated ∧
    (runAgentLoop alwaysToolOracle emptyWorld "go".toList 1).finalResponse = [] ∧
    (runAgentLoop alwaysToolOracle emptyWorld "go".toList 1).allMessages.head?.map Msg.content =
      some noopCall ∧
    noopCall ≠ [] ∧
    (runAgentLoop emptyDoneOracle emptyWorld "go".toList 20).tag = .done ∧
    (runAgentLoop alwaysToolOracle emptyWorld "go".toList 20).tag = .truncated ∧
    (promptLocalAgent emptyDoneOracle emptyWorld "go".toList "adw1".toList "o.jsonl".toList).1 =
      (promptLocalAgent alwaysToolOracle emptyWorld "go".toList "adw1".toList "o.jsonl".toList).1 ∧
    (runAgentLoop failingChatOracle emptyWorld "go".toList 20).tag = .transportError ∧
    (runAgentLoop errorLookalikeOracle emptyWorld "go".toList 20).tag = .done ∧
    (promptLocalAgent failingChatOracle emptyWorld "go".toList "adw1".toList "o.jsonl".toList).1 =
      (promptLocalAgent errorLookalikeOracle emptyWorld "go".toList "adw1".toList "o.jsonl".toList).1 :=
  ⟨rfl, rfl, rfl, by decide, rfl, rfl, rfl, rfl, rfl, rfl⟩

theorem runLoopAux_truncated (oracle : ChatOracle)
    (h : ∀ ms, ∃ m, oracle ms = .ok m ∧ parseToolCallsFromText m.content ≠ [] ∧
      (parseToolCallsFromText m.content).all turnCallOk = true) :
    ∀ (fuel : Nat) (messages allM : List Msg) (w : World) (calls : Nat),
      (runLoopAux oracle fuel messages allM w calls).tag = .truncated ∧
      (runLoopAux oracle fuel messages allM w calls).finalResponse = [] := by
  intro fuel
  induction fuel with
  | zero => intro messages allM w calls; exact ⟨rfl, rfl⟩
  | succ n ih =>
    intro messages allM w calls
    obtain ⟨m, hm, hne, hok⟩ := h messages
    rw [runLoopAux, hm]
    simp only
    rw [if_neg (by simpa [List.isEmpty_iff] using hne)]
    have hnone := processToolCalls_none_of_ok (parseToolCallsFromText m.content) w [] [] hok
    rcases hres : processToolCalls w (parseToolCallsFromText m.content) [] []
      with ⟨o, res, tms, w2⟩
    rw [hres] at hnone
    simp only at hnone
    subst hnone
    exact ih _ _ _ _

/-- C2 (amended): when the model keeps requesting (well-formed) tools so
that the iteration counter reaches `max_iterations` before a turn with
zero tool calls, the run terminates in the Truncated state returning the
*empty string* — the initialised final response, not the last assistant
content — and not as an error: `prompt_local_agent` reports success.
(The unamended claim — that the partial answer is the last assistant
content and that the caller can distinguish the three terminal states
from the outcome — is refuted by the counterexample.) -/
theorem truncated_run_returns_empty_final_response (oracle : ChatOracle)
    (w : World) (prompt adwId outputFile : List Char) (maxIterations : Nat)
    (h : ∀ ms, ∃ m, oracle ms = .ok m ∧ parseToolCallsFromText m.content ≠ [] ∧
      (parseToolCallsFromText m.content).all turnCallOk = true) :
    (runAgentLoop oracle w prompt maxIterations).tag = .truncated ∧
    (runAgentLoop oracle w prompt maxIterations).finalResponse = [] ∧
    ((promptLocalAgent oracle w prompt adwId outputFile).1).success = true := by
  obtain ⟨ht, hf⟩ := runLoopAux_truncated oracle h maxIterations
    [⟨"system".toList, systemPromptText, none⟩, ⟨"user".toList, prompt, none⟩] [] w 0
  refine ⟨ht, hf, ?_⟩
  obtain ⟨ht20, -⟩ := runLoopAux_truncated oracle h 20
    [⟨"system".toList, systemPromptText, none⟩, ⟨"user".toList, prompt, none⟩] [] w 0
  rw [promptLocalAgent]
  simp only [runAgentLoop] at ht20 ⊢
  rw [ht20]

theorem parse_noopCall_ne_nil : parseToolCallsFromText noopCall ≠ [] := fun hx => by
  have h1 : (parseToolCallsFromText noopCall).length = 1 := rfl
  rw [hx] at h1
  exact absurd h1 (by decide)

/-- Witness for the amended C2 at the concrete always-tool oracle. -/
theorem truncated_run_returns_empty_final_response_witness :
    (runAgentLoop alwaysToolOracle emptyWorld "go".toList 3).tag = .truncated ∧
    (runAgentLoop alwaysToolOracle emptyWorld "go".toList 3).finalResponse = [] ∧
    ((promptLocalAgent alwaysToolOracle emptyWorld "go".toList "adw1".toList
      "o.jsonl".toList).1).success = true :=
  truncated_run_returns_empty_final_response alwaysToolOracle emptyWorld "go".toList
    "adw1".toList "o.jsonl".toList 3
    (fun _ => ⟨⟨"assistant".toList, noopCall, none⟩, rfl, parse_noopCall_ne_nil, by decide⟩)

/-! ### Claim C8: JSON string escape/parse roundtrip -/

theorem char_toNat_valid (c : Char) :
    c.toNat < 0xd800 ∨ (0xdfff < c.toNat ∧ c.toNat < 0x110000) := c.valid

theorem hexVal_hexDigitChar : ∀ d, d < 16 → hexVal (hexDigitChar d) = some d := by decide

theorem hex4_uEscapeDigits (n : Nat) (h16 : n < 0x10000) :
    hex4 (hexDigitChar (n / 4096 % 16)) (hexDigitChar (n / 256 % 16))
      (hexDigitChar (n / 16 % 16)) (hexDigitChar (n % 16)) = some n := by
  rw [hex4]
  rw [hexVal_hexDigitChar (n / 4096 % 16) (by omega),
      hexVal_hexDigitChar (n / 256 % 16) (by omega),
      hexVal_hexDigitChar (n / 16 % 16) (by omega),
      hexVal_hexDigitChar (n % 16) (by omega)]
  dsimp only
  have h : n / 4096 % 16 * 4096 + n / 256 % 16 * 256 + n / 16 % 16 * 16 + n % 16 = n := by
    omega
  rw [h]

theorem parseSBCore_uEscape (k : List Char → Option (List Char × List Char)) (n : Nat)
    (h16 : n < 0x10000) (hno : n < 0xD800 ∨ 0xE000 ≤ n) (T : List Char) :
    parseSBCore k (uEscape n ++ T) = consStr (Char.ofNat n) (k T) := by
  show parseSBCore k ('\\' :: 'u' :: hexDigitChar (n / 4096 % 16) ::
    hexDigitChar (n / 256 % 16) :: hexDigitChar (n / 16 % 16) :: hexDigitChar (n % 16) ::
    T) = _
  have e1 : parseSBCore k ('\\' :: 'u' :: hexDigitChar (n / 4096 % 16) ::
      hexDigitChar (n / 256 % 16) :: hexDigitChar (n / 16 % 16) :: hexDigitChar (n % 16) ::
      T) = parseSBUnicode k (hexDigitChar (n / 4096 % 16) :: hexDigitChar (n / 256 % 16) ::
        hexDigitChar (n / 16 % 16) :: hexDigitChar (n % 16) :: T) := rfl
  rw [e1, parseSBUnicode, hex4_uEscapeDigits n h16]
  dsimp only
  rw [if_neg (by omega), if_neg (by omega)]

theorem parseSBCore_surrogatePair (k : List Char → Option (List Char × List Char))
    (n m : Nat) (hn : 0xD800 ≤ n ∧ n < 0xDC00) (hm : 0xDC00 ≤ m ∧ m < 0xE000)
    (T : List Char) :
    parseSBCore k (uEscape n ++ (uEscape m ++ T)) =
      consStr (Char.ofNat ((n - 0xD800) * 1024 + (m - 0xDC00) + 0x10000)) (k T) := by
  show parseSBCore k ('\\' :: 'u' :: hexDigitChar (n / 4096 % 16) ::
    hexDigitChar (n / 256 % 16) :: hexDigitChar (n / 16 % 16) :: hexDigitChar (n % 16) ::
    ('\\' :: 'u' :: hexDigitChar (m / 4096 % 16) :: hexDigitChar (m / 256 % 16) ::
      hexDigitChar (m / 16 % 16) :: hexDigitChar (m % 16) :: T)) = _
  have e1 : parseSBCore k ('\\' :: 'u' :: hexDigitChar (n / 4096 % 16) ::
      hexDigitChar (n / 256 % 16) :: hexDigitChar (n / 16 % 16) :: hexDigitChar (n % 16) ::
      ('\\' :: 'u' :: hexDigitChar (m / 4096 % 16) :: hexDigitChar (m / 256 % 16) ::
        hexDigitChar (m / 16 % 16) :: hexDigitChar (m % 16) :: T)) =
      parseSBUnicode k (hexDigitChar (n / 4096 % 16) :: hexDigitChar (n / 256 % 16) ::
        hexDigitChar (n / 16 % 16) :: hexDigitChar (n % 16) ::
        ('\\' :: 'u' :: hexDigitChar (m / 4096 % 16) :: hexDigitChar (m / 256 % 16) ::
          hexDigitChar (m / 16 % 16) :: hexDigitChar (m % 16) :: T)) := rfl
  rw [e1, parseSBUnicode, hex4_uEscapeDigits n (by omega)]
  dsimp only
  rw [if_pos hn, parseSBLowSurrogate]
  rw [if_pos ⟨rfl, rfl⟩, hex4_uEscapeDigits m (by omega)]
  dsimp only
  rw [if_pos hm]

theorem escapeChar_length_pos (c : Char) : 1 ≤ (escapeChar c).length := by
  rw [escapeChar]
  repeat' split
  all_goals simp [uEscape]

theorem length_le_flatMap_escapeChar (s : List Char) :
    s.length ≤ (s.flatMap escapeChar).length := by
  induction s with
  | nil => simp
  | cons c t ih =>
    rw [List.flatMap_cons, List.length_append, List.length_cons]
    have := escapeChar_length_pos c
    omega

theorem parseStringBodyF_escape_roundtrip (s : List Char) :
    ∀ (f : Nat) (rest : List Char), s.length + 1 ≤ f →
      parseStringBodyF f (s.flatMap escapeChar ++ '"' :: rest) = some (s, rest) := by
  induction s with
  | nil =>
    intro f rest hf
    match f, hf with
    | g + 1, _ =>
      rw [List.flatMap_nil, List.nil_append, parseStringBodyF]
      rfl
  | cons c t ih =>
    intro f rest hf
    match f, hf with
    | g + 1, hf =>
      have hg : t.length + 1 ≤ g := by
        simp only [List.length_cons] at hf
        omega
      rw [List.flatMap_cons, List.append_assoc, parseStringBodyF]
      have ihg := ih g rest hg
      rw [escapeChar]
      by_cases h1 : c = '"'
      · subst h1
        rw [if_pos rfl]
        show consStr '"' (parseStringBodyF g (t.flatMap escapeChar ++ '"' :: rest)) = _
        rw [ihg]
        rfl
      · rw [if_neg h1]
        by_cases h2 : c = '\\'
        · subst h2
          rw [if_pos rfl]
          show consStr '\\' (parseStringBodyF g (t.flatMap escapeChar ++ '"' :: rest)) = _
          rw [ihg]
          rfl
        · rw [if_neg h2]
          by_cases h3 : c = '\n'
          · subst h3
            rw [if_pos rfl]
            show consStr '\n' (parseStringBodyF g (t.flatMap escapeChar ++ '"' :: rest)) = _
            rw [ihg]
            rfl
          · rw [if_neg h3]
            by_cases h4 : c = '\r'
            · subst h4
              rw [if_pos rfl]
              show consStr '\r' (parseStringBodyF g (t.flatMap escapeChar ++ '"' :: rest)) = _
              rw [ihg]
              rfl
            · rw [if_neg h4]
              by_cases h5 : c = '\t'
              · subst h5
                rw [if_pos rfl]
                show consStr '\t' (parseStringBodyF g (t.flatMap escapeChar ++ '"' :: rest)) = _
                rw [ihg]
                rfl
              · rw [if_neg h5]
                by_cases h6 : c = Char.ofNat 8
                · subst h6
                  rw [if_pos rfl]
                  show consStr (Char.ofNat 8)
                    (parseStringBodyF g (t.flatMap escapeChar ++ '"' :: rest)) = _
                  rw [ihg]
                  rfl
                · rw [if_neg h6]
                  by_cases h7 : c = Char.ofNat 12
                  · subst h7
                    rw [if_pos rfl]
                    show consStr (Char.ofNat 12)
                      (parseStringBodyF g (t.flatMap escapeChar ++ '"' :: rest)) = _
                    rw [ihg]
                    rfl
                  · rw [if_neg h7]
                    by_cases h8 : c.toNat < 0x20
                    · rw [if_pos h8]
                      rw [parseSBCore_uEscape _ c.toNat (by omega) (by omega)]
                      rw [Char.ofNat_toNat, ihg]
                      rfl
                    · rw [if_neg h8]
                      by_cases h9 : c.toNat < 0x7f
                      · rw [if_pos h9]
                        show parseSBCore (parseStringBodyF g)
                          (c :: (t.flatMap escapeChar ++ '"' :: rest)) = _
                        rw [parseSBCore]
                        rw [if_neg h1, if_neg h2, if_neg h8, ihg]
                        rfl
                      · rw [if_neg h9]
                        by_cases h10 : c.toNat < 0x10000
                        · rw [if_pos h10]
                          have hno : c.toNat < 0xD800 ∨ 0xE000 ≤ c.toNat := by
                            rcases char_toNat_valid c with hv | hv
                            · left; exact hv
                            · right; omega
                          rw [parseSBCore_uEscape _ c.toNat h10 hno]
                          rw [Char.ofNat_toNat, ihg]
                          rfl
                        · rw [if_neg h10]
                          have hup : c.toNat < 0x110000 := by
                            rcases char_toNat_valid c with hv | hv
                            · omega
                            · omega
                          rw [List.append_assoc]
                          rw [parseSBCore_surrogatePair _ _ _
                            (by constructor <;> omega) (by constructor <;> omega)]
                          have harith : (0xD800 + (c.toNat - 0x10000) / 1024 - 0xD800) * 1024 +
                              (0xDC00 + (c.toNat - 0x10000) % 1024 - 0xDC00) + 0x10000 =
                              c.toNat := by
                            omega
                          rw [harith, Char.ofNat_toNat, ihg]
                          rfl

theorem parseStringBody_escape_roundtrip (s rest : List Char) :
    parseStringBody (s.flatMap escapeChar ++ '"' :: rest) = some (s, rest) := by
  rw [parseStringBody]
  apply parseStringBodyF_escape_roundtrip
  have := length_le_flatMap_escapeChar s
  simp only [List.length_append, List.length_cons]
  omega


/-- The JSON value a message dict serialises to. -/
def msgToJson (m : Msg) : JsonValue :=
  .obj (("role".toList, .str m.role) ::
    ((match m.name with
      | some nm => [("name".toList, JsonValue.str nm)]
      | none => []) ++
     [("content".toList, .str m.content)]))

theorem skipJsonWs_cons_not (c : Char) (l : List Char) (h : isJsonWs c = false) :
    skipJsonWs (c :: l) = c :: l := by
  simp [skipJsonWs, List.dropWhile_cons, h]

theorem skipJsonWs_append (p l : List Char) (h : p.all isJsonWs = true) :
    skipJsonWs (p ++ l) = skipJsonWs l := by
  induction p with
  | nil => rfl
  | cons c t ih =>
    simp only [List.all_cons, Bool.and_eq_true] at h
    simp only [List.cons_append, skipJsonWs, List.dropWhile_cons, h.1]
    exact ih h.2

theorem skipJsonWs_cons_ws (c : Char) (l : List Char) (h : isJsonWs c = true) :
    skipJsonWs (c :: l) = skipJsonWs l := by
  simp [skipJsonWs, List.dropWhile_cons, h]

theorem parseValue_dumpsMsgGen (lead pad0 pad padEnd : List Char) (m : Msg) (g : Nat)
    (rest : List Char) (hl : lead.all isJsonWs = true) (h0 : pad0.all isJsonWs = true)
    (hp : pad.all isJsonWs = true) (hE : padEnd.all isJsonWs = true) :
    parseValue (g + 6) (lead ++ (dumpsMsgGen pad0 pad padEnd m ++ rest)) =
      some (msgToJson m, rest) := by
  cases hname : m.name with
  | none =>
    rw [dumpsMsgGen, hname]
    simp only [List.append_assoc, List.cons_append, List.nil_append]
    rw [parseValue]
    rw [skipJsonWs_append lead _ hl]
    rw [skipJsonWs_cons_not '{' _ (by decide)]
    dsimp only
    rw [if_neg (by decide), if_pos rfl]
    rw [skipJsonWs_append pad0 _ h0]
    rw [jsonStrLit]
    simp only [List.append_assoc, List.cons_append]
    rw [skipJsonWs_cons_not '"' _ (by decide)]
    dsimp only
    rw [if_neg (by decide)]
    rw [parseMembers]
    rw [if_pos rfl]
    simp only [List.nil_append]
    rw [parseStringBody_escape_roundtrip]
    dsimp only
    rw [show (": ".toList : List Char) = ':' :: ' ' :: [] from rfl]
    simp only [List.cons_append, List.nil_append]
    rw [skipJsonWs_cons_not ':' _ (by decide)]
    dsimp only
    rw [if_pos rfl]
    rw [parseValue]
    rw [skipJsonWs_cons_ws ' ' _ (by decide)]
    rw [jsonStrLit]
    simp only [List.cons_append, List.append_assoc, List.nil_append]
    rw [skipJsonWs_cons_not '"' _ (by decide)]
    dsimp only
    rw [if_pos rfl]
    rw [parseStringBody_escape_roundtrip]
    dsimp only
    rw [skipJsonWs_cons_not ',' _ (by decide)]
    dsimp only
    rw [if_pos rfl]
    rw [skipJsonWs_append pad _ hp]
    rw [jsonStrLit]
    simp only [List.cons_append, List.append_assoc, List.nil_append]
    rw [skipJsonWs_cons_not '"' _ (by decide)]
    rw [parseMembers]
    rw [if_pos rfl]
    rw [parseStringBody_escape_roundtrip]
    dsimp only
    rw [skipJsonWs_cons_not ':' _ (by decide)]
    dsimp only
    rw [if_pos rfl]
    rw [parseValue]
    rw [skipJsonWs_cons_ws ' ' _ (by decide)]
    rw [jsonStrLit]
    simp only [List.cons_append, List.append_assoc, List.nil_append]
    rw [skipJsonWs_cons_not '"' _ (by decide)]
    dsimp only
    rw [if_pos rfl]
    rw [parseStringBody_escape_roundtrip]
    dsimp only
    rw [skipJsonWs_append padEnd _ hE]
    rw [skipJsonWs_cons_not '}' _ (by decide)]
    dsimp only
    rw [if_neg (by decide), if_pos rfl]
    rw [msgToJson, hname]
    rfl
  | some nm =>
    rw [dumpsMsgGen, hname]
    simp only [List.append_assoc, List.cons_append, List.nil_append]
    rw [parseValue]
    rw [skipJsonWs_append lead _ hl]
    rw [skipJsonWs_cons_not '{' _ (by decide)]
    dsimp only
    rw [if_neg (by decide), if_pos rfl]
    rw [skipJsonWs_append pad0 _ h0]
    rw [jsonStrLit]
    simp only [List.append_assoc, List.cons_append]
    rw [skipJsonWs_cons_not '"' _ (by decide)]
    dsimp only
    rw [if_neg (by decide)]
    rw [parseMembers]
    rw [if_pos rfl]
    simp only [List.nil_append]
    rw [parseStringBody_escape_roundtrip]
    dsimp only
    rw [show (": ".toList : List Char) = ':' :: ' ' :: [] from rfl]
    simp only [List.cons_append, List.nil_append]
    rw [skipJsonWs_cons_not ':' _ (by decide)]
    dsimp only
    rw [if_pos rfl]
    rw [parseValue]
    rw [skipJsonWs_cons_ws ' ' _ (by decide)]
    rw [jsonStrLit]
    simp only [List.cons_append, List.append_assoc, List.nil_append]
    rw [skipJsonWs_cons_not '"' _ (by decide)]
    dsimp only
    rw [if_pos rfl]
    rw [parseStringBody_escape_roundtrip]
    dsimp only
    rw [skipJsonWs_cons_not ',' _ (by decide)]
    dsimp only
    rw [if_pos rfl]
    rw [skipJsonWs_append pad _ hp]
    rw [jsonStrLit]
    simp only [List.cons_append, List.append_assoc, List.nil_append]
    rw [skipJsonWs_cons_not '"' _ (by decide)]
    rw [parseMembers]
    rw [if_pos rfl]
    rw [parseStringBody_escape_roundtrip]
    dsimp only
    rw [skipJsonWs_cons_not ':' _ (by decide)]
    dsimp only
    rw [if_pos rfl]
    rw [parseValue]
    rw [skipJsonWs_cons_ws ' ' _ (by decide)]
    rw [jsonStrLit]
    simp only [List.cons_append, List.append_assoc, List.nil_append]
    rw [skipJsonWs_cons_not '"' _ (by decide)]
    dsimp only
    rw [if_pos rfl]
    rw [parseStringBody_escape_roundtrip]
    dsimp only
    rw [skipJsonWs_cons_not ',' _ (by decide)]
    dsimp only
    rw [if_pos rfl]
    rw [skipJsonWs_append pad _ hp]
    rw [jsonStrLit]
    simp only [List.cons_append, List.append_assoc, List.nil_append]
    rw [skipJsonWs_cons_not '"' _ (by decide)]
    rw [parseMembers]
    rw [if_pos rfl]
    rw [parseStringBody_escape_roundtrip]
    dsimp only
    rw [skipJsonWs_cons_not ':' _ (by decide)]
    dsimp only
    rw [if_pos rfl]
    rw [parseValue]
    rw [skipJsonWs_cons_ws ' ' _ (by decide)]
    rw [jsonStrLit]
    simp only [List.cons_append, List.append_assoc, List.nil_append]
    rw [skipJsonWs_cons_not '"' _ (by decide)]
    dsimp only
    rw [if_pos rfl]
    rw [parseStringBody_escape_roundtrip]
    dsimp only
    rw [skipJsonWs_append padEnd _ hE]
    rw [skipJsonWs_cons_not '}' _ (by decide)]
    dsimp only
    rw [if_neg (by decide), if_pos rfl]
    rw [msgToJson, hname]
    rfl


theorem intercalate_single (sep x : List Char) : List.intercalate sep [x] = x := by
  simp [List.intercalate, List.intersperse]

theorem intercalate_cons2 (sep x y : List Char) (l : List (List Char)) :
    List.intercalate sep (x :: y :: l) = x ++ (sep ++ List.intercalate sep (y :: l)) := by
  simp [List.intercalate, List.intersperse]

theorem parseElements_msgs :
    ∀ (msgs : List Msg) (m0 : Msg) (g : Nat) (lead : List Char)
      (hl : lead.all isJsonWs = true) (acc : List JsonValue) (rest : List Char),
      parseElements (msgs.length + g + 7)
        (lead ++ (List.intercalate ",\n  ".toList ((m0 :: msgs).map dumpsMsgIndent) ++
          '\n' :: ']' :: rest)) acc =
        some (.arr (acc ++ (m0 :: msgs).map msgToJson), rest) := by
  intro msgs
  induction msgs with
  | nil =>
    intro m0 g lead hl acc rest
    rw [List.map_cons, List.map_nil, intercalate_single]
    rw [show ([] : List Msg).length + g + 7 = (g + 6) + 1 from by simp]
    rw [parseElements]
    rw [show dumpsMsgIndent m0 ++ '\n' :: ']' :: rest =
      dumpsMsgGen "\n    ".toList "\n    ".toList "\n  ".toList m0 ++ '\n' :: ']' :: rest from rfl]
    rw [parseValue_dumpsMsgGen lead _ _ _ m0 g _ hl (by decide) (by decide) (by decide)]
    dsimp only
    rw [skipJsonWs_cons_ws '\n' _ (by decide), skipJsonWs_cons_not ']' _ (by decide)]
    dsimp only
    rw [if_neg (by decide), if_pos rfl]
    rw [List.map_cons, List.map_nil]
  | cons m1 t ih =>
    intro m0 g lead hl acc rest
    rw [List.map_cons, List.map_cons, intercalate_cons2]
    rw [show (m1 :: t).length + g + 7 = ((t.length + g + 1) + 6) + 1 from by
      simp only [List.length_cons]; omega]
    rw [parseElements]
    simp only [List.append_assoc]
    rw [show dumpsMsgIndent m0 = dumpsMsgGen "\n    ".toList "\n    ".toList "\n  ".toList m0
      from rfl]
    rw [parseValue_dumpsMsgGen lead _ _ _ m0 (t.length + g + 1) _ hl
      (by decide) (by decide) (by decide)]
    dsimp only
    rw [show (",\n  ".toList : List Char) = ',' :: '\n' :: ' ' :: ' ' :: [] from rfl]
    simp only [List.cons_append, List.nil_append]
    rw [skipJsonWs_cons_not ',' _ (by decide)]
    dsimp only
    rw [if_pos rfl]
    have hlead2 : (('\n' :: ' ' :: ' ' :: []) : List Char).all isJsonWs = true := by decide
    have := ih m1 g ('\n' :: ' ' :: ' ' :: []) hlead2 (acc ++ [msgToJson m0]) rest
    rw [show t.length + g + 7 = (t.length + g + 1) + 6 from by omega] at this
    rw [show (",\n  ".toList : List Char) = ',' :: '\n' :: ' ' :: ' ' :: [] from rfl] at this
    rw [List.map_cons] at this
    simp only [List.cons_append, List.nil_append] at this ⊢
    rw [this]
    simp [List.append_assoc]


/-! ### The transcript files decode back to the message history (C8) -/

/-- Splitting file content into `'\n'`-terminated lines, as a reader of
the JSONL file would. -/
def splitLines : List Char → List (List Char)
  | [] => []
  | c :: rest =>
    if c = '\n' then [] :: splitLines rest
    else
      match splitLines rest with
      | [] => [[c]]
      | l :: ls => (c :: l) :: ls

theorem dumpsMsgGen_length_ge (pad0 pad padEnd : List Char) (m : Msg) :
    5 ≤ (dumpsMsgGen pad0 pad padEnd m).length := by
  rw [dumpsMsgGen]
  simp only [List.length_cons, List.length_append]
  have h : (jsonStrLit "role".toList).length = 6 := rfl
  omega

theorem pyLoads_dumpsMsg (m : Msg) : pyLoads (dumpsMsg m) = some (msgToJson m) := by
  have h5 : 5 ≤ (dumpsMsgGen [] [' '] [] m).length := dumpsMsgGen_length_ge [] [' '] [] m
  show pyLoads (dumpsMsgGen [] [' '] [] m) = some (msgToJson m)
  rw [pyLoads]
  rw [show (dumpsMsgGen [] [' '] [] m).length + 1 =
    ((dumpsMsgGen [] [' '] [] m).length - 5) + 6 from by omega]
  have h := parseValue_dumpsMsgGen [] [] [' '] [] m ((dumpsMsgGen [] [' '] [] m).length - 5) []
    rfl rfl (by decide) rfl
  rw [List.nil_append, List.append_nil] at h
  rw [h]
  rfl

theorem hexDigitChar_ne_newline (n : Nat) (h : n < 16) : hexDigitChar n ≠ '\n' := by
  interval_cases n <;> decide

theorem mem_uEscape_ne_newline (n : Nat) (x : Char) (h : x ∈ uEscape n) : x ≠ '\n' := by
  rw [uEscape] at h
  simp only [List.mem_cons, List.not_mem_nil, or_false] at h
  rcases h with rfl | rfl | rfl | rfl | rfl | rfl
  · decide
  · decide
  · exact hexDigitChar_ne_newline _ (Nat.mod_lt _ (by omega))
  · exact hexDigitChar_ne_newline _ (Nat.mod_lt _ (by omega))
  · exact hexDigitChar_ne_newline _ (Nat.mod_lt _ (by omega))
  · exact hexDigitChar_ne_newline _ (Nat.mod_lt _ (by omega))

theorem mem_escapeChar_ne_newline (c x : Char) (h : x ∈ escapeChar c) : x ≠ '\n' := by
  rw [escapeChar] at h
  repeat' split at h
  all_goals
    try simp only [List.mem_cons, List.mem_append, List.not_mem_nil, or_false] at h
  all_goals
    first
      | (rcases h with rfl | rfl <;> decide)
      | exact mem_uEscape_ne_newline _ _ h
      | (rcases h with h | h <;> exact mem_uEscape_ne_newline _ _ h)
      | (subst h; assumption)

theorem newline_not_mem_jsonStrLit (s : List Char) (h : '\n' ∈ jsonStrLit s) : False := by
  rw [jsonStrLit] at h
  rcases List.mem_cons.mp h with h | h
  · exact absurd h (by decide)
  rcases List.mem_append.mp h with h | h
  · obtain ⟨c, _, hc⟩ := List.mem_flatMap.mp h
    exact mem_escapeChar_ne_newline c '\n' hc rfl
  · exact absurd h (by decide)

theorem newline_not_mem_dumpsMsg (m : Msg) : '\n' ∉ dumpsMsg m := by
  rcases m with ⟨role, content, name⟩
  intro h
  have hd : dumpsMsg ⟨role, content, name⟩ = dumpsMsgGen [] [' '] [] ⟨role, content, name⟩ := rfl
  rw [hd, dumpsMsgGen] at h
  cases name with
  | none =>
    dsimp only at h
    simp only [List.mem_cons, List.mem_append, List.not_mem_nil, List.nil_append, or_false,
      false_or] at h
    rcases h with (h | ((h | h) | h) | h | ((h | h) | h) | h) | h
    all_goals first
      | exact newline_not_mem_jsonStrLit _ h
      | (revert h; decide)
  | some nm =>
    dsimp only at h
    simp only [List.mem_cons, List.mem_append, List.not_mem_nil, List.nil_append, or_false,
      false_or] at h
    rcases h with (h | (((h | h) | h) | h | ((h | h) | h) | h) | h | ((h | h) | h) | h) | h
    all_goals first
      | exact newline_not_mem_jsonStrLit _ h
      | (revert h; decide)

theorem splitLines_line_append (line rest : List Char) (h : '\n' ∉ line) :
    splitLines (line ++ '\n' :: rest) = line :: splitLines rest := by
  induction line with
  | nil =>
    rw [List.nil_append, splitLines, if_pos rfl]
  | cons c t ih =>
    have hc : ¬ c = '\n' := fun hh => h (hh ▸ List.mem_cons_self c t)
    have ht : '\n' ∉ t := fun hh => h (List.mem_cons_of_mem c hh)
    rw [List.cons_append, splitLines, if_neg hc, ih ht]

theorem splitLines_jsonl (msgs : List Msg) :
    splitLines (jsonlOfMessages msgs) = msgs.map dumpsMsg := by
  induction msgs with
  | nil => rfl
  | cons m t ih =>
    show splitLines ((dumpsMsg m ++ ['\n']) ++ jsonlOfMessages t) = dumpsMsg m :: t.map dumpsMsg
    rw [List.append_assoc, List.singleton_append,
      splitLines_line_append _ _ (newline_not_mem_dumpsMsg m), ih]

theorem jsonl_lines_decode (msgs : List Msg) :
    (splitLines (jsonlOfMessages msgs)).map pyLoads =
      msgs.map (fun m => some (msgToJson m)) := by
  rw [splitLines_jsonl, List.map_map]
  refine List.map_congr_left fun m _ => ?_
  exact pyLoads_dumpsMsg m

theorem intercalate_dumps_head (sep : List Char) (m0 : Msg) (l : List (List Char)) :
    ∃ Y, List.intercalate sep (dumpsMsgIndent m0 :: l) = '{' :: Y := by
  cases l with
  | nil =>
    rw [intercalate_single]
    exact ⟨_, rfl⟩
  | cons x l =>
    rw [intercalate_cons2]
    exact ⟨_, rfl⟩

theorem intercalate_dumps_length (m0 : Msg) (t : List Msg) :
    t.length + 5 ≤ (List.intercalate ",\n  ".toList ((m0 :: t).map dumpsMsgIndent)).length := by
  induction t generalizing m0 with
  | nil =>
    rw [List.map_cons, List.map_nil, intercalate_single]
    exact dumpsMsgGen_length_ge _ _ _ m0
  | cons m1 t ih =>
    rw [List.map_cons, List.map_cons, intercalate_cons2]
    have h1 : 5 ≤ (dumpsMsgIndent m0).length := dumpsMsgGen_length_ge _ _ _ m0
    have h2 := ih m1
    rw [List.map_cons] at h2
    simp only [List.length_append, List.length_cons]
    omega

theorem parseValue_array (t : List Msg) (m0 : Msg) (g : Nat) (rest : List Char) :
    parseValue (t.length + g + 8) ('[' :: '\n' :: ' ' :: ' ' ::
      (List.intercalate ",\n  ".toList ((m0 :: t).map dumpsMsgIndent) ++
        '\n' :: ']' :: rest)) =
      some (.arr ((m0 :: t).map msgToJson), rest) := by
  rw [show t.length + g + 8 = (t.length + g + 7) + 1 from rfl]
  rw [parseValue]
  rw [skipJsonWs_cons_not '[' _ (by decide)]
  dsimp only
  rw [if_neg (by decide), if_neg (by decide), if_pos rfl]
  rw [skipJsonWs_cons_ws '\n' _ (by decide), skipJsonWs_cons_ws ' ' _ (by decide),
    skipJsonWs_cons_ws ' ' _ (by decide)]
  rw [List.map_cons]
  obtain ⟨Y, hY⟩ := intercalate_dumps_head ",\n  ".toList m0 (t.map dumpsMsgIndent)
  rw [hY, List.cons_append, skipJsonWs_cons_not '{' _ (by decide)]
  dsimp only
  rw [if_neg (by decide)]
  rw [← List.cons_append, ← hY]
  have h := parseElements_msgs t m0 g [] rfl [] rest
  rw [List.nil_append, List.map_cons] at h
  rw [h]
  rw [List.nil_append, List.map_cons]

theorem pyLoads_jsonArray (msgs : List Msg) :
    pyLoads (jsonArrayOfMessages msgs) = some (.arr (msgs.map msgToJson)) := by
  cases msgs with
  | nil => rfl
  | cons m0 t =>
    have hJ : jsonArrayOfMessages (m0 :: t) =
        '[' :: '\n' :: ' ' :: ' ' ::
          (List.intercalate ",\n  ".toList ((m0 :: t).map dumpsMsgIndent) ++
            '\n' :: ']' :: []) := by
      rw [jsonArrayOfMessages]
      rfl
    have hlen := intercalate_dumps_length m0 t
    rw [pyLoads, hJ]
    rw [show ('[' :: '\n' :: ' ' :: ' ' ::
        (List.intercalate ",\n  ".toList ((m0 :: t).map dumpsMsgIndent) ++
          '\n' :: ']' :: ([] : List Char))).length + 1 =
        t.length + ((List.intercalate ",\n  ".toList
          ((m0 :: t).map dumpsMsgIndent)).length - t.length - 1) + 8 from by
      simp only [List.length_cons, List.length_append, List.length_nil]
      omega]
    rw [parseValue_array t m0 _ []]
    rfl

theorem msgToJson_injective : Function.Injective msgToJson := by
  intro a b h
  rcases a with ⟨ra, ca, na⟩
  rcases b with ⟨rb, cb, nb⟩
  cases na <;> cases nb <;> simp_all [msgToJson]

/-- C8: after the agent loop reaches any of the three terminal states
(done, truncated, transport error — that is, no exception escaped the
loop), `prompt_local_agent` persists the run's full ordered message
history to exactly two files: a JSONL file at the caller-supplied path
whose lines, decoded by `json.loads`, are exactly the run's messages in
order, and a JSON array file at the `.jsonl`-replaced-by-`.json` path
that decodes to the same messages in the same order; the per-message
JSON encoding is injective, so each file determines the history. -/
theorem save_output_two_files_same_messages
    (oracle : ChatOracle) (w : World) (prompt adwId outputFile : List Char)
    (h : (runAgentLoop oracle w prompt 20).tag.isRaised = false) :
    (promptLocalAgent oracle w prompt adwId outputFile).2 =
      [(outputFile, jsonlOfMessages (runAgentLoop oracle w prompt 20).allMessages),
       (replaceAll ".jsonl".toList ".json".toList outputFile,
        jsonArrayOfMessages (runAgentLoop oracle w prompt 20).allMessages)] ∧
    (splitLines (jsonlOfMessages (runAgentLoop oracle w prompt 20).allMessages)).map pyLoads =
      (runAgentLoop oracle w prompt 20).allMessages.map (fun m => some (msgToJson m)) ∧
    pyLoads (jsonArrayOfMessages (runAgentLoop oracle w prompt 20).allMessages) =
      some (.arr ((runAgentLoop oracle w prompt 20).allMessages.map msgToJson)) ∧
    Function.Injective msgToJson := by
  refine ⟨?_, jsonl_lines_decode _, pyLoads_jsonArray _, msgToJson_injective⟩
  simp only [promptLocalAgent]
  rcases htag : (runAgentLoop oracle w prompt 20).tag with _ | _ | _ | e
  · rfl
  · rfl
  · rfl
  · rw [htag] at h
    exact Bool.noConfusion h

set_option maxRecDepth 100000 in
/-- Witness for C8 at a concrete oracle that answers with no tool calls
on the first turn: the terminal state is not an escaped exception, and
the conclusion holds at this run. -/
theorem save_output_two_files_same_messages_witness :
    (runAgentLoop emptyDoneOracle emptyWorld "hello".toList 20).tag.isRaised = false ∧
    ((promptLocalAgent emptyDoneOracle emptyWorld "hello".toList "id1".toList
        "t.jsonl".toList).2 =
      [("t.jsonl".toList,
        jsonlOfMessages (runAgentLoop emptyDoneOracle emptyWorld "hello".toList 20).allMessages),
       (replaceAll ".jsonl".toList ".json".toList "t.jsonl".toList,
        jsonArrayOfMessages
          (runAgentLoop emptyDoneOracle emptyWorld "hello".toList 20).allMessages)] ∧
     (splitLines (jsonlOfMessages
         (runAgentLoop emptyDoneOracle emptyWorld "hello".toList 20).allMessages)).map pyLoads =
      (runAgentLoop emptyDoneOracle emptyWorld "hello".toList 20).allMessages.map
        (fun m => some (msgToJson m)) ∧
     pyLoads (jsonArrayOfMessages
         (runAgentLoop emptyDoneOracle emptyWorld "hello".toList 20).allMessages) =
      some (.arr ((runAgentLoop emptyDoneOracle emptyWorld
        "hello".toList 20).allMessages.map msgToJson)) ∧
     Function.Injective msgToJson) :=
  ⟨rfl, save_output_two_files_same_messages emptyDoneOracle emptyWorld "hello".toList
    "id1".toList "t.jsonl".toList rfl⟩

/-! ### The canonical flat single-invocation texts (C3) -/

/-- Characters allowed in the name and the flat string arguments of the
canonical single-invocation texts: printable ASCII that is inert for all
three extraction regexes and for JSON string syntax (no quote, backslash,
brace, backtick or angle bracket). -/
def inertChar (c : Char) : Bool :=
  0x20 ≤ c.toNat && c.toNat < 0x7f &&
    !(c = '"' || c = '\\' || c = '{' || c = '}' || c = '`' || c = '<' || c = '>')

/-- A string of inert characters. -/
def inertStr (s : List Char) : Bool := s.all inertChar

/-- One `"key": "value"` member of the canonical arguments object. -/
def serField (kv : List Char × List Char) : List Char :=
  '"' :: kv.1 ++ '"' :: ':' :: ' ' :: '"' :: kv.2 ++ ['"']

/-- The members of the canonical arguments object, separated by `", "`. -/
def serArgs (args : List (List Char × List Char)) : List Char :=
  List.intercalate ", ".toList (args.map serField)

/-- The canonical single tool invocation text
`\x7b"name": "<nm>", "arguments": \x7b...\x7d\x7d`. -/
def serCall (nm : List Char) (args : List (List Char × List Char)) : List Char :=
  "\x7b\"name\": \"".toList ++ nm ++ "\", \"arguments\": \x7b".toList ++
    serArgs args ++ "\x7d\x7d".toList

/-- The JSON value `serCall` denotes. -/
def callJson (nm : List Char) (args : List (List Char × List Char)) : JsonValue :=
  .obj [("name".toList, .str nm),
        ("arguments".toList, .obj (args.map (fun kv => (kv.1, .str kv.2))))]

theorem inertChar_spec (c : Char) (h : inertChar c = true) :
    0x20 ≤ c.toNat ∧ c.toNat < 0x7f ∧ c ≠ '"' ∧ c ≠ '\\' ∧ c ≠ '{' ∧ c ≠ '}' ∧
      c ≠ '`' ∧ c ≠ '<' ∧ c ≠ '>' := by
  rw [inertChar] at h
  simp only [Bool.and_eq_true, Bool.not_eq_true', Bool.or_eq_false_iff,
    decide_eq_true_eq, decide_eq_false_iff_not] at h
  tauto

theorem inertChar_not_space_like (c : Char) (h : inertChar c = true) :
    c ≠ '\n' ∧ c ≠ '\r' ∧ c ≠ '\t' := by
  obtain ⟨h1, -⟩ := inertChar_spec c h
  refine ⟨?_, ?_, ?_⟩ <;> (intro hh; rw [hh] at h1; exact absurd h1 (by decide))

theorem escapeChar_inert (c : Char) (h : inertChar c = true) : escapeChar c = [c] := by
  obtain ⟨h1, h2, h3, h4, -⟩ := inertChar_spec c h
  obtain ⟨hn, hr, ht⟩ := inertChar_not_space_like c h
  rw [escapeChar, if_neg h3, if_neg h4, if_neg hn, if_neg hr, if_neg ht]
  rw [if_neg (fun hh => by rw [hh] at h1; exact absurd h1 (by decide))]
  rw [if_neg (fun hh => by rw [hh] at h1; exact absurd h1 (by decide))]
  rw [if_neg (by omega), if_pos h2]

theorem flatMap_escapeChar_inert (s : List Char) (h : inertStr s = true) :
    s.flatMap escapeChar = s := by
  induction s with
  | nil => rfl
  | cons c t ih =>
    rw [inertStr, List.all_cons, Bool.and_eq_true] at h
    rw [List.flatMap_cons, escapeChar_inert c h.1, ih h.2, List.singleton_append]

theorem parseStringBody_inert (s rest : List Char) (h : inertStr s = true) :
    parseStringBody (s ++ '"' :: rest) = some (s, rest) := by
  have hf := parseStringBody_escape_roundtrip s rest
  rw [flatMap_escapeChar_inert s h] at hf
  exact hf

theorem objInsert_fresh (acc : List (List Char × JsonValue)) (k : List Char) (v : JsonValue)
    (h : lookupField k acc = none) : objInsert acc k v = acc ++ [(k, v)] := by
  induction acc with
  | nil => rfl
  | cons kv rest ih =>
    obtain ⟨k2, v2⟩ := kv
    rw [lookupField] at h
    rw [objInsert]
    split at h
    · exact absurd h (by simp)
    case isFalse hne =>
      rw [if_neg hne, ih h]
      rfl

theorem span_all_append (p : Char → Bool) (s : List Char) (y : Char) (t : List Char)
    (hs : ∀ c ∈ s, p c = true) (hy : p y = false) :
    (s ++ y :: t).span p = (s, y :: t) := by
  induction s with
  | nil =>
    rw [List.nil_append, List.span_eq_take_drop, List.takeWhile_cons, List.dropWhile_cons, hy]
    simp
  | cons c cs ih =>
    have hc : p c = true := hs c (List.mem_cons_self c cs)
    have hcs : ∀ x ∈ cs, p x = true := fun x hx => hs x (List.mem_cons_of_mem c hx)
    have := ih hcs
    rw [List.span_eq_take_drop] at this ⊢
    obtain ⟨h1, h2⟩ := Prod.mk.injEq .. ▸ this
    rw [List.cons_append, List.takeWhile_cons, List.dropWhile_cons, hc]
    simp only [if_true]
    rw [h1, h2]

/-- The characters that can occur in `serArgs`: the structural quote,
colon, comma and space, and inert characters. -/
def okArgChar (c : Char) : Bool :=
  c = '"' || c = ':' || c = ',' || c = ' ' || inertChar c

theorem mem_inertStr {c : Char} {s : List Char} (h : inertStr s = true) (hc : c ∈ s) :
    inertChar c = true :=
  List.all_eq_true.mp h c hc

theorem mem_serField (kv : List Char × List Char) (hk : inertStr kv.1 = true)
    (hv : inertStr kv.2 = true) : ∀ c ∈ serField kv, okArgChar c = true := by
  intro c hc
  rw [serField] at hc
  simp only [List.mem_cons, List.mem_append, List.not_mem_nil, or_false,
    List.mem_singleton] at hc
  casesm* _ ∨ _
  all_goals rename_i hx
  all_goals rw [okArgChar]
  all_goals first
    | (rw [hx]; rfl)
    | simp [mem_inertStr hk hx]
    | simp [mem_inertStr hv hx]

theorem mem_serArgs (args : List (List Char × List Char))
    (h : ∀ kv ∈ args, inertStr kv.1 = true ∧ inertStr kv.2 = true) :
    ∀ c ∈ serArgs args, okArgChar c = true := by
  induction args with
  | nil =>
    intro c hc
    rw [show serArgs [] = [] from rfl] at hc
    exact absurd hc (List.not_mem_nil c)
  | cons kv t ih =>
    intro c hc
    have hkv := h kv (List.mem_cons_self kv t)
    cases t with
    | nil =>
      rw [serArgs, List.map_cons, List.map_nil, intercalate_single] at hc
      exact mem_serField kv hkv.1 hkv.2 c hc
    | cons kv2 t2 =>
      rw [serArgs, List.map_cons, List.map_cons, intercalate_cons2] at hc
      rcases List.mem_append.mp hc with h2 | h2
      · exact mem_serField kv hkv.1 hkv.2 c h2
      rcases List.mem_append.mp h2 with h3 | h3
      · rw [show (", ".toList : List Char) = [',', ' '] from rfl] at h3
        simp only [List.mem_cons, List.not_mem_nil, or_false] at h3
        rw [okArgChar]
        rcases h3 with h4 | h4 <;> (rw [h4]; rfl)
      · exact ih (fun x hx => h x (List.mem_cons_of_mem kv hx)) c
          (by rw [serArgs, List.map_cons]; exact h3)

theorem okArgChar_spec (c : Char) (h : okArgChar c = true) :
    nonBrace c = true ∧ c ≠ '`' ∧ c ≠ '<' ∧ c ≠ '\n' := by
  rw [okArgChar] at h
  simp only [Bool.or_eq_true, decide_eq_true_eq] at h
  casesm* _ ∨ _
  all_goals rename_i hx
  all_goals first
    | (rw [hx]; exact ⟨by decide, by decide, by decide, by decide⟩)
    | (obtain ⟨h1, -, -, -, h5, h6, h7, h8, -⟩ := inertChar_spec c hx
       refine ⟨?_, h7, h8, ?_⟩
       · rw [nonBrace]
         simp [h5, h6]
       · intro hh; rw [hh] at h1; exact absurd h1 (by decide))

theorem mem_serCall_cases (nm : List Char) (args : List (List Char × List Char)) (c : Char)
    (h : c ∈ serCall nm args) :
    c ∈ "\x7b\"name\": \"".toList ∨ c ∈ nm ∨ c ∈ "\", \"arguments\": \x7b".toList ∨
      c ∈ serArgs args ∨ c ∈ "\x7d\x7d".toList := by
  rw [serCall] at h
  simp only [List.mem_append] at h
  tauto

theorem serCall_no_tick_lt_nl (nm : List Char) (args : List (List Char × List Char))
    (hnm : inertStr nm = true)
    (hargs : ∀ kv ∈ args, inertStr kv.1 = true ∧ inertStr kv.2 = true) :
    '`' ∉ serCall nm args ∧ '<' ∉ serCall nm args ∧ '\n' ∉ serCall nm args := by
  refine ⟨?_, ?_, ?_⟩ <;>
  · intro h
    rcases mem_serCall_cases nm args _ h with h | h | h | h | h
    · exact absurd h (by decide)
    · first
        | exact absurd rfl (inertChar_spec _ (mem_inertStr hnm h)).2.2.2.2.2.2.1
        | exact absurd rfl (inertChar_spec _ (mem_inertStr hnm h)).2.2.2.2.2.2.2.1
        | exact (inertChar_not_space_like _ (mem_inertStr hnm h)).1 rfl
    · exact absurd h (by decide)
    · first
        | exact absurd rfl (okArgChar_spec _ (mem_serArgs args hargs _ h)).2.1
        | exact absurd rfl (okArgChar_spec _ (mem_serArgs args hargs _ h)).2.2.1
        | exact absurd rfl (okArgChar_spec _ (mem_serArgs args hargs _ h)).2.2.2
    · exact absurd h (by decide)

theorem takeWhile_all_append (p : Char → Bool) (s : List Char) (y : Char) (t : List Char)
    (hs : ∀ c ∈ s, p c = true) (hy : p y = false) :
    (s ++ y :: t).takeWhile p = s := by
  have h := span_all_append p s y t hs hy
  rw [List.span_eq_take_drop] at h
  exact congrArg Prod.fst h

theorem dropWhile_all_append (p : Char → Bool) (s : List Char) (y : Char) (t : List Char)
    (hs : ∀ c ∈ s, p c = true) (hy : p y = false) :
    (s ++ y :: t).dropWhile p = y :: t := by
  have h := span_all_append p s y t hs hy
  rw [List.span_eq_take_drop] at h
  exact congrArg Prod.snd h

theorem descKs_decomp (s : List Char) (y : Char) (t : List Char)
    (hs : ∀ c ∈ s, nonBrace c = true) (hy : nonBrace y = false) :
    descKs (s ++ y :: t) = (List.map Nat.succ (List.range s.length)).reverse ++ [0] := by
  rw [descKs, takeWhile_all_append nonBrace s y t hs hy, List.range_succ_eq_map,
    List.reverse_cons]

theorem mem_succ_range {k n : Nat} (h : k ∈ (List.map Nat.succ (List.range n)).reverse) :
    ∃ j, j < n ∧ k = j + 1 := by
  rw [List.mem_reverse] at h
  obtain ⟨j, hj, rfl⟩ := List.mem_map.mp h
  exact ⟨j, List.mem_range.mp hj, rfl⟩

theorem tryNameAt_append (ks ks' : List Nat) (s : List Char)
    (h : ∀ k ∈ ks, "\"name\"".toList.isPrefixOf (s.drop k) = false ∨
      match3AfterName ((s.drop k).drop 6) = none) :
    tryNameAt (ks ++ ks') s = tryNameAt ks' s := by
  induction ks with
  | nil => rfl
  | cons k ks ih =>
    have hk := h k (List.mem_cons_self k ks)
    have ht := fun k2 hk2 => h k2 (List.mem_cons_of_mem k hk2)
    rw [List.cons_append, tryNameAt]
    by_cases hp : "\"name\"".toList.isPrefixOf (s.drop k) = true
    · rw [if_pos hp]
      rcases hk with hk | hk
      · rw [hp] at hk
        exact Bool.noConfusion hk
      · rw [hk]
        exact ih ht
    · rw [if_neg hp]
      exact ih ht

theorem tryArgsAt_append (ks ks' : List Nat) (s : List Char)
    (h : ∀ k ∈ ks, "\"arguments\"".toList.isPrefixOf (s.drop k) = false ∨
      match3AfterArgs ((s.drop k).drop 11) = none) :
    tryArgsAt (ks ++ ks') s = tryArgsAt ks' s := by
  induction ks with
  | nil => rfl
  | cons k ks ih =>
    have hk := h k (List.mem_cons_self k ks)
    have ht := fun k2 hk2 => h k2 (List.mem_cons_of_mem k hk2)
    rw [List.cons_append, tryArgsAt]
    by_cases hp : "\"arguments\"".toList.isPrefixOf (s.drop k) = true
    · rw [if_pos hp]
      rcases hk with hk | hk
      · rw [hp] at hk
        exact Bool.noConfusion hk
      · rw [hk]
        exact ih ht
    · rw [if_neg hp]
      exact ih ht

theorem lookupField_self_of_fresh (F : List (List Char × JsonValue))
    (hp : List.Pairwise (fun a b => a.1 ≠ b.1) F) :
    ∀ k v, (k, v) ∈ F → lookupField k F = some v := by
  induction F with
  | nil => intro k v h; exact absurd h (List.not_mem_nil _)
  | cons kv rest ih =>
    intro k v hm
    obtain ⟨k2, v2⟩ := kv
    rw [lookupField]
    rcases List.mem_cons.mp hm with h | h
    · cases h
      rw [if_pos rfl]
    · have hne : k ≠ k2 := fun hh =>
        ((List.pairwise_cons.mp hp).1 (k, v) h) (by rw [hh])
      rw [if_neg hne]
      exact ih (List.pairwise_cons.mp hp).2 k v h

theorem pyEqJ_str_refl (s : List Char) : pyEqJ (.str s) (.str s) = true := by
  rw [pyEqJ]
  simp

theorem pyEqFieldsJ_str_all (F G : List (List Char × JsonValue))
    (h : ∀ kv ∈ F, (∃ s, kv.2 = JsonValue.str s) ∧ lookupField kv.1 G = some kv.2) :
    pyEqFieldsJ F G = true := by
  induction F with
  | nil => rfl
  | cons kv rest ih =>
    obtain ⟨k, v⟩ := kv
    obtain ⟨⟨sv, hsv⟩, hl⟩ := h (k, v) (List.mem_cons_self _ _)
    rw [pyEqFieldsJ, hl]
    dsimp only at hsv ⊢
    subst hsv
    rw [pyEqJ_str_refl, Bool.true_and]
    exact ih (fun kv2 hkv2 => h kv2 (List.mem_cons_of_mem _ hkv2))

theorem pyEqJ_callJson_refl (nm : List Char) (args : List (List Char × List Char))
    (hkeys : List.Pairwise (fun a b => a.1 ≠ b.1) args) :
    pyEqJ (callJson nm args) (callJson nm args) = true := by
  have hmap : List.Pairwise (fun a b => a.1 ≠ b.1)
      (args.map (fun kv => (kv.1, JsonValue.str kv.2))) := by
    rw [List.pairwise_map]
    exact hkeys
  rw [callJson, pyEqJ, Bool.and_eq_true]
  refine ⟨by simp, ?_⟩
  rw [pyEqFieldsJ]
  rw [show lookupField "name".toList
      [("name".toList, JsonValue.str nm),
       ("arguments".toList, JsonValue.obj (args.map (fun kv => (kv.1, JsonValue.str kv.2))))] =
    some (JsonValue.str nm) from rfl]
  dsimp only
  rw [pyEqJ_str_refl, Bool.true_and, pyEqFieldsJ]
  rw [show lookupField "arguments".toList
      [("name".toList, JsonValue.str nm),
       ("arguments".toList, JsonValue.obj (args.map (fun kv => (kv.1, JsonValue.str kv.2))))] =
    some (JsonValue.obj (args.map (fun kv => (kv.1, JsonValue.str kv.2)))) from rfl]
  dsimp only
  rw [pyEqFieldsJ, Bool.and_true]
  rw [pyEqJ, Bool.and_eq_true]
  refine ⟨by simp, ?_⟩
  refine pyEqFieldsJ_str_all _ _ (fun kv hkv => ?_)
  obtain ⟨kv0, -, rfl⟩ := List.mem_map.mp hkv
  exact ⟨⟨kv0.2, rfl⟩, lookupField_self_of_fresh _ hmap _ _ hkv⟩

theorem isPrefixOf_cons_ne (a b : Char) (as bs : List Char) (h : a ≠ b) :
    (a :: as).isPrefixOf (b :: bs) = false := by
  show (a == b && as.isPrefixOf bs) = false
  rw [beq_eq_false_iff_ne.mpr h, Bool.false_and]

theorem dropWhile_cons_of_neg {p : Char → Bool} {c : Char} {l : List Char} (h : p c = false) :
    (c :: l).dropWhile p = c :: l := by
  rw [List.dropWhile_cons, h]
  rfl

theorem dropWhile_cons_of_pos {p : Char → Bool} {c : Char} {l : List Char} (h : p c = true) :
    (c :: l).dropWhile p = l.dropWhile p := by
  rw [List.dropWhile_cons, h]
  rfl

theorem span_cons_of_neg {p : Char → Bool} {c : Char} {l : List Char} (h : p c = false) :
    (c :: l).span p = ([], c :: l) := by
  rw [List.span_eq_take_drop, List.takeWhile_cons, h, dropWhile_cons_of_neg h]
  rfl

theorem nonBrace_serArgs (args : List (List Char × List Char))
    (hargs : ∀ kv ∈ args, inertStr kv.1 = true ∧ inertStr kv.2 = true) :
    ∀ c ∈ serArgs args, nonBrace c = true :=
  fun c hc => (okArgChar_spec c (mem_serArgs args hargs c hc)).1

theorem match3AfterArgs_serArgs (args : List (List Char × List Char)) (suffix : List Char)
    (hargs : ∀ kv ∈ args, inertStr kv.1 = true ∧ inertStr kv.2 = true) :
    match3AfterArgs (':' :: ' ' :: '\x7b' :: (serArgs args ++ '\x7d' :: '\x7d' :: suffix)) =
      some suffix := by
  rw [match3AfterArgs]
  rw [dropWhile_cons_of_neg (by decide)]
  dsimp only
  rw [if_pos rfl]
  rw [dropWhile_cons_of_pos (by decide), dropWhile_cons_of_neg (by decide)]
  dsimp only
  rw [if_pos rfl]
  rw [span_all_append nonBrace (serArgs args) '\x7d' ('\x7d' :: suffix)
    (nonBrace_serArgs args hargs) (by decide)]
  dsimp only
  rw [if_pos rfl]
  rw [span_cons_of_neg (by decide)]
  dsimp only
  rw [if_pos rfl]

theorem tryArgsAt_serArgs (args : List (List Char × List Char)) (suffix : List Char)
    (hargs : ∀ kv ∈ args, inertStr kv.1 = true ∧ inertStr kv.2 = true) :
    tryArgsAt
      (descKs (' ' :: '"' :: 'a' :: 'r' :: 'g' :: 'u' :: 'm' :: 'e' :: 'n' :: 't' :: 's' ::
        '"' :: ':' :: ' ' :: '\x7b' :: (serArgs args ++ '\x7d' :: '\x7d' :: suffix)))
      (' ' :: '"' :: 'a' :: 'r' :: 'g' :: 'u' :: 'm' :: 'e' :: 'n' :: 't' :: 's' ::
        '"' :: ':' :: ' ' :: '\x7b' :: (serArgs args ++ '\x7d' :: '\x7d' :: suffix)) =
      some suffix := by
  have hd : descKs (' ' :: '"' :: 'a' :: 'r' :: 'g' :: 'u' :: 'm' :: 'e' :: 'n' :: 't' :: 's' ::
      '"' :: ':' :: ' ' :: '\x7b' :: (serArgs args ++ '\x7d' :: '\x7d' :: suffix)) =
      [14, 13, 12, 11, 10, 9, 8, 7, 6, 5, 4, 3, 2] ++ (1 :: [0]) := by
    have := descKs_decomp
      [' ', '"', 'a', 'r', 'g', 'u', 'm', 'e', 'n', 't', 's', '"', ':', ' ']
      '\x7b' (serArgs args ++ '\x7d' :: '\x7d' :: suffix) (by decide) (by decide)
    rw [List.cons_append] at this
    simp only [List.cons_append, List.nil_append] at this
    rw [this]
    rfl
  rw [hd]
  rw [tryArgsAt_append _ _ _ ?hfail]
  case hfail =>
    intro k hk
    fin_cases hk <;> exact Or.inl rfl
  have hpre : "\"arguments\"".toList.isPrefixOf
      ((' ' :: '"' :: 'a' :: 'r' :: 'g' :: 'u' :: 'm' :: 'e' :: 'n' :: 't' :: 's' ::
        '"' :: ':' :: ' ' :: '\x7b' :: (serArgs args ++ '\x7d' :: '\x7d' :: suffix)).drop 1) =
      true := rfl
  rw [tryArgsAt, if_pos hpre]
  rw [show ((' ' :: '"' :: 'a' :: 'r' :: 'g' :: 'u' :: 'm' :: 'e' :: 'n' :: 't' :: 's' ::
      '"' :: ':' :: ' ' :: '\x7b' :: (serArgs args ++ '\x7d' :: '\x7d' :: suffix)).drop 1).drop 11 =
    ':' :: ' ' :: '\x7b' :: (serArgs args ++ '\x7d' :: '\x7d' :: suffix) from rfl]
  rw [match3AfterArgs_serArgs args suffix hargs]

theorem prefix_gives_name (nm X : List Char) (hin : inertStr nm = true)
    (h : ('n' :: 'a' :: 'm' :: 'e' :: '"' :: []).isPrefixOf (nm ++ '"' :: X) = true) :
    nm = 'n' :: 'a' :: 'm' :: 'e' :: [] := by
  cases nm with
  | nil => exact Bool.noConfusion h
  | cons c0 t0 =>
    rw [List.cons_append] at h
    rw [show (('n' :: 'a' :: 'm' :: 'e' :: '"' :: []).isPrefixOf (c0 :: (t0 ++ '"' :: X))) =
      (('n' == c0) && ('a' :: 'm' :: 'e' :: '"' :: []).isPrefixOf (t0 ++ '"' :: X)) from rfl] at h
    rw [Bool.and_eq_true, beq_iff_eq] at h
    obtain ⟨h1, h⟩ := h
    subst h1
    cases t0 with
    | nil => exact Bool.noConfusion h
    | cons c1 t1 =>
      rw [List.cons_append] at h
      rw [show (('a' :: 'm' :: 'e' :: '"' :: []).isPrefixOf (c1 :: (t1 ++ '"' :: X))) =
        (('a' == c1) && ('m' :: 'e' :: '"' :: []).isPrefixOf (t1 ++ '"' :: X)) from rfl] at h
      rw [Bool.and_eq_true, beq_iff_eq] at h
      obtain ⟨h1, h⟩ := h
      subst h1
      cases t1 with
      | nil => exact Bool.noConfusion h
      | cons c2 t2 =>
        rw [List.cons_append] at h
        rw [show (('m' :: 'e' :: '"' :: []).isPrefixOf (c2 :: (t2 ++ '"' :: X))) =
          (('m' == c2) && ('e' :: '"' :: []).isPrefixOf (t2 ++ '"' :: X)) from rfl] at h
        rw [Bool.and_eq_true, beq_iff_eq] at h
        obtain ⟨h1, h⟩ := h
        subst h1
        cases t2 with
        | nil => exact Bool.noConfusion h
        | cons c3 t3 =>
          rw [List.cons_append] at h
          rw [show (('e' :: '"' :: []).isPrefixOf (c3 :: (t3 ++ '"' :: X))) =
            (('e' == c3) && ('"' :: []).isPrefixOf (t3 ++ '"' :: X)) from rfl] at h
          rw [Bool.and_eq_true, beq_iff_eq] at h
          obtain ⟨h1, h⟩ := h
          subst h1
          cases t3 with
          | nil => rfl
          | cons c4 t4 =>
            rw [List.cons_append] at h
            rw [show (('"' :: []).isPrefixOf (c4 :: (t4 ++ '"' :: X))) =
              (('"' == c4) && ([] : List Char).isPrefixOf (t4 ++ '"' :: X)) from rfl] at h
            rw [Bool.and_eq_true, beq_iff_eq] at h
            have hc4 : inertChar c4 = true :=
              mem_inertStr hin (by simp)
            exact absurd h.1.symm (inertChar_spec c4 hc4).2.2.1

/-- The part of `serCall` after its opening brace, with a suffix
appended, in cons-normal form. -/
def serTail (nm : List Char) (args : List (List Char × List Char)) (suffix : List Char) :
    List Char :=
  '"' :: 'n' :: 'a' :: 'm' :: 'e' :: '"' :: ':' :: ' ' :: '"' ::
    (nm ++ ('"' :: ',' :: ' ' :: '"' :: 'a' :: 'r' :: 'g' :: 'u' :: 'm' :: 'e' :: 'n' ::
      't' :: 's' :: '"' :: ':' :: ' ' :: '\x7b' ::
        (serArgs args ++ '\x7d' :: '\x7d' :: suffix)))

theorem serCall_append (nm : List Char) (args : List (List Char × List Char))
    (suffix : List Char) :
    serCall nm args ++ suffix = '\x7b' :: serTail nm args suffix := by
  rw [serCall, serTail]
  rw [show ("\x7b\"name\": \"".toList : List Char) =
    '\x7b' :: '"' :: 'n' :: 'a' :: 'm' :: 'e' :: '"' :: ':' :: ' ' :: '"' :: [] from rfl]
  rw [show ("\", \"arguments\": \x7b".toList : List Char) =
    '"' :: ',' :: ' ' :: '"' :: 'a' :: 'r' :: 'g' :: 'u' :: 'm' :: 'e' :: 'n' :: 't' :: 's' ::
      '"' :: ':' :: ' ' :: '\x7b' :: [] from rfl]
  rw [show ("\x7d\x7d".toList : List Char) = '\x7d' :: '\x7d' :: [] from rfl]
  simp only [List.cons_append, List.nil_append, List.append_assoc]

theorem match3AfterName_serTail (nm : List Char) (args : List (List Char × List Char))
    (suffix : List Char) (hnm : inertStr nm = true) (hne : nm ≠ [])
    (hargs : ∀ kv ∈ args, inertStr kv.1 = true ∧ inertStr kv.2 = true) :
    match3AfterName ((serTail nm args suffix).drop 6) = some suffix := by
  rw [show (serTail nm args suffix).drop 6 =
    ':' :: ' ' :: '"' :: (nm ++ ('"' :: ',' :: ' ' :: '"' :: 'a' :: 'r' :: 'g' :: 'u' :: 'm' ::
      'e' :: 'n' :: 't' :: 's' :: '"' :: ':' :: ' ' :: '\x7b' ::
        (serArgs args ++ '\x7d' :: '\x7d' :: suffix))) from rfl]
  rw [match3AfterName]
  rw [dropWhile_cons_of_neg (by decide)]
  dsimp only
  rw [if_pos rfl]
  rw [dropWhile_cons_of_pos (by decide), dropWhile_cons_of_neg (by decide)]
  dsimp only
  rw [if_pos rfl]
  have hs : ∀ c ∈ nm, (!(c == '"')) = true := by
    intro c hc
    rw [beq_eq_false_iff_ne.mpr (inertChar_spec c (mem_inertStr hnm hc)).2.2.1]
    rfl
  rw [span_all_append (fun c => !(c == '"')) nm '"'
    (',' :: ' ' :: '"' :: 'a' :: 'r' :: 'g' :: 'u' :: 'm' :: 'e' :: 'n' :: 't' :: 's' ::
      '"' :: ':' :: ' ' :: '\x7b' :: (serArgs args ++ '\x7d' :: '\x7d' :: suffix))
    hs (by decide)]
  have hEmp : ¬ (nm.isEmpty = true) := by
    cases nm with
    | nil => exact absurd rfl hne
    | cons c t => exact fun hh => Bool.noConfusion hh
  dsimp only
  rw [if_neg hEmp]
  rw [if_pos rfl]
  rw [dropWhile_cons_of_neg (by decide)]
  dsimp only
  rw [if_pos rfl]
  exact tryArgsAt_serArgs args suffix hargs

theorem tryNameAt_fail_serTail (nm : List Char) (args : List (List Char × List Char))
    (suffix : List Char) (hnm : inertStr nm = true) :
    ∀ k ∈ (List.map Nat.succ (List.range
        (("\"name\": \"".toList ++ nm ++ "\", \"arguments\": ".toList).length))).reverse,
      "\"name\"".toList.isPrefixOf ((serTail nm args suffix).drop k) = false ∨
        match3AfterName (((serTail nm args suffix).drop k).drop 6) = none := by
  intro k hk
  obtain ⟨j, hj, rfl⟩ := mem_succ_range hk
  have h9 : ("\"name\": \"".toList : List Char).length = 9 := rfl
  have h16 : ("\", \"arguments\": ".toList : List Char).length = 16 := rfl
  have hj' : j < 25 + nm.length := by
    simp only [List.length_append, h9, h16] at hj
    omega
  by_cases hc1 : j + 1 ≤ 7
  · left
    have hj6 : j ≤ 6 := by omega
    interval_cases j <;> rfl
  by_cases hc2 : j + 1 = 8
  · rw [hc2]
    by_cases hnm4 : nm = 'n' :: 'a' :: 'm' :: 'e' :: []
    · right
      subst hnm4
      rfl
    · left
      rw [Bool.eq_false_iff]
      intro hh
      apply hnm4
      rw [show (serTail nm args suffix).drop 8 =
        '"' :: (nm ++ ('"' :: ',' :: ' ' :: '"' :: 'a' :: 'r' :: 'g' :: 'u' :: 'm' :: 'e' ::
          'n' :: 't' :: 's' :: '"' :: ':' :: ' ' :: '\x7b' ::
            (serArgs args ++ '\x7d' :: '\x7d' :: suffix))) from rfl] at hh
      rw [show (("\"name\"".toList : List Char).isPrefixOf
        ('"' :: (nm ++ ('"' :: ',' :: ' ' :: '"' :: 'a' :: 'r' :: 'g' :: 'u' :: 'm' :: 'e' ::
          'n' :: 't' :: 's' :: '"' :: ':' :: ' ' :: '\x7b' ::
            (serArgs args ++ '\x7d' :: '\x7d' :: suffix))))) =
        (('"' == '"') && ('n' :: 'a' :: 'm' :: 'e' :: '"' :: []).isPrefixOf
          (nm ++ ('"' :: ',' :: ' ' :: '"' :: 'a' :: 'r' :: 'g' :: 'u' :: 'm' :: 'e' ::
            'n' :: 't' :: 's' :: '"' :: ':' :: ' ' :: '\x7b' ::
              (serArgs args ++ '\x7d' :: '\x7d' :: suffix)))) from rfl] at hh
      rw [Bool.and_eq_true] at hh
      exact prefix_gives_name nm _ hnm hh.2
  by_cases hc3 : j + 1 ≤ 8 + nm.length
  · left
    rw [show serTail nm args suffix =
      ('"' :: 'n' :: 'a' :: 'm' :: 'e' :: '"' :: ':' :: ' ' :: '"' :: []) ++
        (nm ++ ('"' :: ',' :: ' ' :: '"' :: 'a' :: 'r' :: 'g' :: 'u' :: 'm' :: 'e' ::
          'n' :: 't' :: 's' :: '"' :: ':' :: ' ' :: '\x7b' ::
            (serArgs args ++ '\x7d' :: '\x7d' :: suffix))) from rfl]
    rw [show j + 1 =
      ('"' :: 'n' :: 'a' :: 'm' :: 'e' :: '"' :: ':' :: ' ' :: '"' :: ([] : List Char)).length +
        (j - 8) from by simp only [List.length_cons, List.length_nil]; omega]
    rw [List.drop_append]
    rw [List.drop_append_of_le_length (by omega : j - 8 ≤ nm.length)]
    rw [List.drop_eq_getElem_cons (by omega : j - 8 < nm.length)]
    rw [List.cons_append]
    refine isPrefixOf_cons_ne _ _ _ _ (fun hh => ?_)
    exact (inertChar_spec _ (mem_inertStr hnm (List.getElem_mem _))).2.2.1 hh.symm
  · left
    rw [show serTail nm args suffix =
      (('"' :: 'n' :: 'a' :: 'm' :: 'e' :: '"' :: ':' :: ' ' :: '"' :: []) ++ nm) ++
        ('"' :: ',' :: ' ' :: '"' :: 'a' :: 'r' :: 'g' :: 'u' :: 'm' :: 'e' ::
          'n' :: 't' :: 's' :: '"' :: ':' :: ' ' :: '\x7b' ::
            (serArgs args ++ '\x7d' :: '\x7d' :: suffix)) from by
      rw [serTail]
      simp only [List.cons_append, List.nil_append, List.append_assoc]]
    rw [show j + 1 =
      (('"' :: 'n' :: 'a' :: 'm' :: 'e' :: '"' :: ':' :: ' ' :: '"' :: ([] : List Char)) ++
        nm).length + (j + 1 - 9 - nm.length) from by
      simp only [List.length_append, List.length_cons, List.length_nil]; omega]
    rw [List.drop_append]
    obtain ⟨i, hiv, hile⟩ : ∃ i, j + 1 - 9 - nm.length = i ∧ i ≤ 16 :=
      ⟨j + 1 - 9 - nm.length, rfl, by omega⟩
    rw [hiv]
    interval_cases i <;> rfl

theorem tryNameAt_serTail (nm : List Char) (args : List (List Char × List Char))
    (suffix : List Char) (hnm : inertStr nm = true) (hne : nm ≠ [])
    (hargs : ∀ kv ∈ args, inertStr kv.1 = true ∧ inertStr kv.2 = true) :
    tryNameAt (descKs (serTail nm args suffix)) (serTail nm args suffix) = some suffix := by
  have hshape : serTail nm args suffix =
      ("\"name\": \"".toList ++ nm ++ "\", \"arguments\": ".toList) ++
        '\x7b' :: (serArgs args ++ '\x7d' :: '\x7d' :: suffix) := by
    rw [serTail]
    rw [show ("\"name\": \"".toList : List Char) =
      '"' :: 'n' :: 'a' :: 'm' :: 'e' :: '"' :: ':' :: ' ' :: '"' :: [] from rfl]
    rw [show ("\", \"arguments\": ".toList : List Char) =
      '"' :: ',' :: ' ' :: '"' :: 'a' :: 'r' :: 'g' :: 'u' :: 'm' :: 'e' :: 'n' :: 't' ::
        's' :: '"' :: ':' :: ' ' :: [] from rfl]
    simp only [List.cons_append, List.nil_append, List.append_assoc]
  have hdesc : descKs (serTail nm args suffix) =
      (List.map Nat.succ (List.range
        (("\"name\": \"".toList ++ nm ++ "\", \"arguments\": ".toList).length))).reverse ++
        [0] := by
    conv_lhs => rw [hshape]
    refine descKs_decomp _ _ _ ?_ (by decide)
    intro c hc
    rcases List.mem_append.mp hc with hc | hc
    · rcases List.mem_append.mp hc with hc | hc
      · rw [show ("\"name\": \"".toList : List Char) =
          ['"', 'n', 'a', 'm', 'e', '"', ':', ' ', '"'] from rfl] at hc
        simp only [List.mem_cons, List.not_mem_nil, or_false] at hc
        casesm* _ ∨ _
        all_goals rename_i hx
        all_goals rw [hx]
        all_goals rfl
      · obtain ⟨-, -, -, -, h5, h6, -⟩ := inertChar_spec c (mem_inertStr hnm hc)
        rw [nonBrace]
        simp [h5, h6]
    · rw [show ("\", \"arguments\": ".toList : List Char) =
        ['"', ',', ' ', '"', 'a', 'r', 'g', 'u', 'm', 'e', 'n', 't', 's', '"', ':', ' ']
        from rfl] at hc
      simp only [List.mem_cons, List.not_mem_nil, or_false] at hc
      casesm* _ ∨ _
      all_goals rename_i hx
      all_goals rw [hx]
      all_goals rfl
  rw [hdesc, tryNameAt_append _ _ _ (tryNameAt_fail_serTail nm args suffix hnm)]
  rw [tryNameAt]
  rw [if_pos (show ("\"name\"".toList : List Char).isPrefixOf
    ((serTail nm args suffix).drop 0) = true from rfl)]
  rw [show ((serTail nm args suffix).drop 0).drop 6 = (serTail nm args suffix).drop 6 from rfl]
  rw [match3AfterName_serTail nm args suffix hnm hne hargs]

theorem tryMatch3_serCall (nm : List Char) (args : List (List Char × List Char))
    (suffix : List Char) (hnm : inertStr nm = true) (hne : nm ≠ [])
    (hargs : ∀ kv ∈ args, inertStr kv.1 = true ∧ inertStr kv.2 = true) :
    tryMatch3 (serCall nm args ++ suffix) = some (serCall nm args, suffix) := by
  have hbody : serTail nm args suffix = serTail nm args [] ++ suffix := by
    rw [serTail, serTail]
    simp only [List.cons_append, List.nil_append, List.append_assoc]
  have hcall : serCall nm args = '\x7b' :: serTail nm args [] := by
    have := serCall_append nm args []
    rw [List.append_nil] at this
    exact this
  rw [serCall_append, tryMatch3]
  rw [if_pos rfl]
  rw [tryNameAt_serTail nm args suffix hnm hne hargs]
  dsimp only
  rw [show ('\x7b' :: serTail nm args suffix).length - suffix.length =
      (serTail nm args []).length + 1 from by
    rw [hbody]
    simp only [List.length_cons, List.length_append]
    omega]
  rw [show ('\x7b' :: serTail nm args suffix).take ((serTail nm args []).length + 1) =
      '\x7b' :: ((serTail nm args [] ++ suffix).take (serTail nm args []).length) from by
    rw [hbody]
    rfl]
  rw [List.take_left]
  rw [hcall]

theorem findJsonObjsF_nil (n : Nat) : findJsonObjsF n [] = [] := by
  cases n <;> rfl

theorem findJsonObjsF_no_brace :
    ∀ (s : List Char) (n : Nat), (∀ c ∈ s, ¬ c = '\x7b') → findJsonObjsF n s = [] := by
  intro s
  induction s with
  | nil => intro n _; exact findJsonObjsF_nil n
  | cons c t ih =>
    intro n h
    cases n with
    | zero => rfl
    | succ m =>
      rw [findJsonObjsF, if_neg (h c (List.mem_cons_self c t))]
      exact ih m (fun x hx => h x (List.mem_cons_of_mem c hx))

theorem findJsonObjsF_skip_front :
    ∀ (p : List Char) (n : Nat) (rest : List Char), (∀ c ∈ p, ¬ c = '\x7b') →
      findJsonObjsF (p.length + n) (p ++ rest) = findJsonObjsF n rest := by
  intro p
  induction p with
  | nil =>
    intro n rest _
    rw [List.length_nil, Nat.zero_add, List.nil_append]
  | cons c t ih =>
    intro n rest h
    rw [List.cons_append]
    rw [show (c :: t).length + n = (t.length + n) + 1 from by
      rw [List.length_cons]; omega]
    rw [findJsonObjsF, if_neg (h c (List.mem_cons_self c t))]
    exact ih n rest (fun x hx => h x (List.mem_cons_of_mem c hx))

theorem findToolFencesF_nil (n : Nat) : findToolFencesF n [] = [] := by
  cases n <;> rfl

theorem findToolFencesF_no_tick :
    ∀ (s : List Char) (n : Nat), (∀ c ∈ s, ¬ c = '`') → findToolFencesF n s = [] := by
  intro s
  induction s with
  | nil => intro n _; exact findToolFencesF_nil n
  | cons c t ih =>
    intro n h
    cases n with
    | zero => rfl
    | succ m =>
      have hpre : ("```tool".toList : List Char).isPrefixOf (c :: t) = false :=
        isPrefixOf_cons_ne '`' c _ _ (fun hh => h c (List.mem_cons_self c t) hh.symm)
      rw [findToolFencesF, if_neg (by intro hh; rw [hpre] at hh; exact Bool.noConfusion hh)]
      exact ih m (fun x hx => h x (List.mem_cons_of_mem c hx))

theorem findTagCallsF_nil (n : Nat) : findTagCallsF n [] = [] := by
  cases n <;> rfl

theorem findTagCallsF_no_lt :
    ∀ (s : List Char) (n : Nat), (∀ c ∈ s, ¬ c = '<') → findTagCallsF n s = [] := by
  intro s
  induction s with
  | nil => intro n _; exact findTagCallsF_nil n
  | cons c t ih =>
    intro n h
    cases n with
    | zero => rfl
    | succ m =>
      have hpre : ("<tool_call>".toList : List Char).isPrefixOf (c :: t) = false :=
        isPrefixOf_cons_ne '<' c _ _ (fun hh => h c (List.mem_cons_self c t) hh.symm)
      rw [findTagCallsF, if_neg (by intro hh; rw [hpre] at hh; exact Bool.noConfusion hh)]
      exact ih m (fun x hx => h x (List.mem_cons_of_mem c hx))

theorem fenceClose_clean :
    ∀ (s : List Char) (acc : List Char), (∀ c ∈ s, ¬ c = '`' ∧ ¬ c = '\n') →
      fenceClose acc (s ++ '\n' :: '`' :: '`' :: '`' :: []) = some (acc.reverse ++ s, []) := by
  intro s
  induction s with
  | nil =>
    intro acc _
    rw [List.nil_append, List.append_nil]
    rfl
  | cons x xs ih =>
    intro acc h
    have hx := h x (List.mem_cons_self x xs)
    rw [List.cons_append, fenceClose]
    have hp1 : (('\n' :: '`' :: '`' :: '`' :: []) : List Char).isPrefixOf
        (x :: (xs ++ '\n' :: '`' :: '`' :: '`' :: [])) = false :=
      isPrefixOf_cons_ne _ _ _ _ (fun hh => hx.2 hh.symm)
    have hp2 : (('`' :: '`' :: '`' :: []) : List Char).isPrefixOf
        (x :: (xs ++ '\n' :: '`' :: '`' :: '`' :: [])) = false :=
      isPrefixOf_cons_ne _ _ _ _ (fun hh => hx.1 hh.symm)
    rw [if_neg (by intro hh; rw [hp1] at hh; exact Bool.noConfusion hh)]
    rw [if_neg (by intro hh; rw [hp2] at hh; exact Bool.noConfusion hh)]
    rw [ih (x :: acc) (fun c hc => h c (List.mem_cons_of_mem x hc))]
    rw [List.reverse_cons, List.append_assoc, List.singleton_append]

theorem tagClose_clean :
    ∀ (s : List Char) (acc : List Char), (∀ c ∈ s, ¬ c = '<') →
      (∀ u, u <:+ s → u ≠ [] → ∃ c ∈ u, isPySpace c = false) →
      tagClose acc (s ++ '\n' :: "</tool_call>".toList) = some (acc.reverse ++ s, []) := by
  intro s
  induction s with
  | nil =>
    intro acc _ _
    rw [List.nil_append, List.append_nil]
    rfl
  | cons x xs ih =>
    intro acc h1 h2
    have hx : ¬ x = '<' := h1 x (List.mem_cons_self x xs)
    rw [List.cons_append, tagClose]
    by_cases hxs : xs = []
    · subst hxs
      obtain ⟨c, hcmem, hcs⟩ := h2 [x] List.suffix_rfl (by simp)
      rw [List.mem_singleton] at hcmem
      subst hcmem
      rw [List.nil_append]
      rw [dropWhile_cons_of_neg hcs]
      have hp : ("</tool_call>".toList : List Char).isPrefixOf
          (c :: '\n' :: "</tool_call>".toList) = false :=
        isPrefixOf_cons_ne '<' c _ _ (fun h2 => hx h2.symm)
      rw [if_neg (by intro hh; rw [hp] at hh; exact Bool.noConfusion hh)]
      rw [show tagClose (c :: acc) ('\n' :: "</tool_call>".toList) =
        some ((c :: acc).reverse, []) from rfl]
      rw [List.reverse_cons]
    · obtain ⟨c0, hc0mem, hc0⟩ := h2 xs (List.suffix_cons x xs) hxs
      have hd : xs.dropWhile isPySpace ≠ [] := by
        intro hh
        rw [List.dropWhile_eq_nil_iff] at hh
        rw [hh c0 hc0mem] at hc0
        exact Bool.noConfusion hc0
      have hrec := ih (x :: acc) (fun c hc => h1 c (List.mem_cons_of_mem x hc))
        (fun u hu hune => h2 u (hu.trans (List.suffix_cons x xs)) hune)
      have hstep : ∀ w : List Char,
          (w.dropWhile isPySpace = (x :: (xs ++ '\n' :: "</tool_call>".toList)).dropWhile
            isPySpace) → True := fun _ _ => trivial
      cases hxd : xs.dropWhile isPySpace with
      | nil => exact absurd hxd hd
      | cons d ds =>
        have hdmem : d ∈ xs :=
          (List.dropWhile_sublist isPySpace).subset (by rw [hxd]; exact List.mem_cons_self d ds)
        have hdlt : ¬ d = '<' := h1 d (List.mem_cons_of_mem x hdmem)
        have happ : (xs ++ '\n' :: "</tool_call>".toList).dropWhile isPySpace =
            d :: (ds ++ '\n' :: "</tool_call>".toList) := by
          rw [List.dropWhile_append, hxd]
          rfl
        by_cases hxsp : isPySpace x = true
        · rw [dropWhile_cons_of_pos hxsp, happ]
          have hp : ("</tool_call>".toList : List Char).isPrefixOf
              (d :: (ds ++ '\n' :: "</tool_call>".toList)) = false :=
            isPrefixOf_cons_ne '<' d _ _ (fun h2 => hdlt h2.symm)
          rw [if_neg (by intro hh; rw [hp] at hh; exact Bool.noConfusion hh)]
          rw [hrec]
          rw [List.reverse_cons, List.append_assoc, List.singleton_append]
        · rw [dropWhile_cons_of_neg (Bool.eq_false_iff.mpr hxsp)]
          have hp : ("</tool_call>".toList : List Char).isPrefixOf
              (x :: (xs ++ '\n' :: "</tool_call>".toList)) = false :=
            isPrefixOf_cons_ne '<' x _ _ (fun h2 => hx h2.symm)
          rw [if_neg (by intro hh; rw [hp] at hh; exact Bool.noConfusion hh)]
          rw [hrec]
          rw [List.reverse_cons, List.append_assoc, List.singleton_append]

/-- An assistant text consisting of the invocation in a ```` ```tool ````
fenced block. -/
def fenceText (nm : List Char) (args : List (List Char × List Char)) : List Char :=
  "```tool\n".toList ++ serCall nm args ++ "\n```".toList

/-- An assistant text consisting of the invocation in a `<tool_call>`
tag pair. -/
def tagText (nm : List Char) (args : List (List Char × List Char)) : List Char :=
  "<tool_call>\n".toList ++ serCall nm args ++ "\n</tool_call>".toList

theorem serCall_reverse (nm : List Char) (args : List (List Char × List Char)) :
    ∃ R, (serCall nm args).reverse = '\x7d' :: R := by
  rw [serCall, List.reverse_append]
  exact ⟨_, rfl⟩

theorem serCall_cons (nm : List Char) (args : List (List Char × List Char)) :
    serCall nm args = '\x7b' :: serTail nm args [] := by
  have := serCall_append nm args []
  rw [List.append_nil] at this
  exact this

theorem exists_nonspace_suffix_serCall (nm : List Char) (args : List (List Char × List Char)) :
    ∀ u, u <:+ serCall nm args → u ≠ [] → ∃ c ∈ u, isPySpace c = false := by
  intro u hu hne
  have hpre : u.reverse <+: (serCall nm args).reverse := List.reverse_prefix.mpr hu
  obtain ⟨R, hR⟩ := serCall_reverse nm args
  rw [hR] at hpre
  obtain ⟨t, ht⟩ := hpre
  cases hur : u.reverse with
  | nil =>
    exact absurd (by rw [← List.reverse_reverse u, hur]; rfl) hne
  | cons a as =>
    rw [hur, List.cons_append] at ht
    injection ht with ha _
    refine ⟨'\x7d', ?_, by decide⟩
    rw [← List.mem_reverse, hur, ← ha]
    exact List.mem_cons_self a as

theorem pyStrip_serCall (nm : List Char) (args : List (List Char × List Char)) :
    pyStrip (serCall nm args) = serCall nm args := by
  rw [pyStrip]
  rw [serCall_cons, dropWhile_cons_of_neg (by decide), ← serCall_cons]
  obtain ⟨R, hR⟩ := serCall_reverse nm args
  rw [hR, dropWhile_cons_of_neg (by decide), ← hR, List.reverse_reverse]

theorem findJsonObjs_serCall_suffix (nm : List Char) (args : List (List Char × List Char))
    (suffix : List Char) (hnm : inertStr nm = true) (hne : nm ≠ [])
    (hargs : ∀ kv ∈ args, inertStr kv.1 = true ∧ inertStr kv.2 = true)
    (hsfx : ∀ c ∈ suffix, ¬ c = '\x7b') :
    findJsonObjsF ((serCall nm args ++ suffix).length) (serCall nm args ++ suffix) =
      [serCall nm args] := by
  rw [serCall_append]
  rw [List.length_cons, findJsonObjsF, if_pos rfl]
  rw [← serCall_append, tryMatch3_serCall nm args suffix hnm hne hargs]
  dsimp only
  rw [findJsonObjsF_no_brace suffix _ hsfx]

theorem findToolFences_fenceText (nm : List Char) (args : List (List Char × List Char))
    (hnm : inertStr nm = true)
    (hargs : ∀ kv ∈ args, inertStr kv.1 = true ∧ inertStr kv.2 = true) :
    findToolFences (fenceText nm args) = [serCall nm args] := by
  obtain ⟨htick, -, hnl⟩ := serCall_no_tick_lt_nl nm args hnm hargs
  rw [findToolFences, fenceText, List.append_assoc]
  rw [show ("```tool\n".toList ++ (serCall nm args ++ "\n```".toList)) =
    '`' :: ('`' :: '`' :: 't' :: 'o' :: 'o' :: 'l' :: '\n' ::
      (serCall nm args ++ "\n```".toList)) from rfl]
  rw [List.length_cons, findToolFencesF]
  have hcond : ("```tool".toList : List Char).isPrefixOf
      ('`' :: ('`' :: '`' :: 't' :: 'o' :: 'o' :: 'l' :: '\n' ::
        (serCall nm args ++ "\n```".toList))) = true := rfl
  rw [if_pos hcond]
  rw [show (('`' :: ('`' :: '`' :: 't' :: 'o' :: 'o' :: 'l' :: '\n' ::
      (serCall nm args ++ "\n```".toList))).drop 7).dropWhile isPySpace =
    ((serCall nm args ++ "\n```".toList)).dropWhile isPySpace from by
      rw [show ('`' :: ('`' :: '`' :: 't' :: 'o' :: 'o' :: 'l' :: '\n' ::
        (serCall nm args ++ "\n```".toList))).drop 7 =
        '\n' :: (serCall nm args ++ "\n```".toList) from rfl]
      rw [dropWhile_cons_of_pos (by decide)]]
  rw [serCall_append, dropWhile_cons_of_neg (by decide), ← serCall_append]
  rw [show ("\n```".toList : List Char) = '\n' :: '`' :: '`' :: '`' :: [] from rfl]
  rw [fenceClose_clean (serCall nm args) []
    (fun c hc => ⟨fun hh => htick (hh ▸ hc), fun hh => hnl (hh ▸ hc)⟩)]
  rw [List.reverse_nil, List.nil_append]
  dsimp only
  rw [findToolFencesF_nil]

theorem findTagCalls_tagText (nm : List Char) (args : List (List Char × List Char))
    (hnm : inertStr nm = true)
    (hargs : ∀ kv ∈ args, inertStr kv.1 = true ∧ inertStr kv.2 = true) :
    findTagCalls (tagText nm args) = [serCall nm args] := by
  obtain ⟨-, hlt, -⟩ := serCall_no_tick_lt_nl nm args hnm hargs
  rw [findTagCalls, tagText, List.append_assoc]
  rw [show ("<tool_call>\n".toList ++ (serCall nm args ++ "\n</tool_call>".toList)) =
    '<' :: ('t' :: 'o' :: 'o' :: 'l' :: '_' :: 'c' :: 'a' :: 'l' :: 'l' :: '>' :: '\n' ::
      (serCall nm args ++ "\n</tool_call>".toList)) from rfl]
  rw [List.length_cons, findTagCallsF]
  have hcond : ("<tool_call>".toList : List Char).isPrefixOf
      ('<' :: ('t' :: 'o' :: 'o' :: 'l' :: '_' :: 'c' :: 'a' :: 'l' :: 'l' :: '>' :: '\n' ::
        (serCall nm args ++ "\n</tool_call>".toList))) = true := rfl
  rw [if_pos hcond]
  rw [show (('<' :: ('t' :: 'o' :: 'o' :: 'l' :: '_' :: 'c' :: 'a' :: 'l' :: 'l' :: '>' ::
      '\n' :: (serCall nm args ++ "\n</tool_call>".toList))).drop 11).dropWhile isPySpace =
    ((serCall nm args ++ "\n</tool_call>".toList)).dropWhile isPySpace from by
      rw [show ('<' :: ('t' :: 'o' :: 'o' :: 'l' :: '_' :: 'c' :: 'a' :: 'l' :: 'l' :: '>' ::
        '\n' :: (serCall nm args ++ "\n</tool_call>".toList))).drop 11 =
        '\n' :: (serCall nm args ++ "\n</tool_call>".toList) from rfl]
      rw [dropWhile_cons_of_pos (by decide)]]
  rw [serCall_append, dropWhile_cons_of_neg (by decide), ← serCall_append]
  rw [show ("\n</tool_call>".toList : List Char) = '\n' :: "</tool_call>".toList from rfl]
  rw [tagClose_clean (serCall nm args) []
    (fun c hc => fun hh => hlt (hh ▸ hc))
    (exists_nonspace_suffix_serCall nm args)]
  rw [List.reverse_nil, List.nil_append]
  dsimp only
  rw [findTagCallsF_nil]

theorem serArgs_cons_head (kv : List Char × List Char) (t : List (List Char × List Char)) :
    ∃ Y, serArgs (kv :: t) = '"' :: Y := by
  cases t with
  | nil =>
    rw [serArgs, List.map_cons, List.map_nil, intercalate_single, serField]
    exact ⟨_, rfl⟩
  | cons kv2 t2 =>
    rw [serArgs, List.map_cons, List.map_cons, intercalate_cons2, serField]
    exact ⟨_, rfl⟩

theorem lookupField_append_none (acc : List (List Char × JsonValue)) (k k2 : List Char)
    (v : JsonValue) (h1 : lookupField k acc = none) (h2 : ¬ k = k2) :
    lookupField k (acc ++ [(k2, v)]) = none := by
  induction acc with
  | nil => rw [List.nil_append, lookupField, if_neg h2, lookupField]
  | cons kv3 rest ih =>
    obtain ⟨k3, v3⟩ := kv3
    rw [lookupField] at h1
    rw [List.cons_append, lookupField]
    split at h1
    · exact absurd h1 (by simp)
    case isFalse hne =>
      rw [if_neg hne]
      exact ih h1

theorem parseMembers_serArgs :
    ∀ (t : List (List Char × List Char)) (kv : List Char × List Char) (g : Nat)
      (acc : List (List Char × JsonValue)) (rest : List Char),
      (∀ x ∈ kv :: t, inertStr x.1 = true ∧ inertStr x.2 = true) →
      (∀ x ∈ kv :: t, lookupField x.1 acc = none) →
      List.Pairwise (fun a b => a.1 ≠ b.1) (kv :: t) →
      parseMembers (t.length + g + 2) (serArgs (kv :: t) ++ '\x7d' :: rest) acc =
        some (.obj (acc ++ (kv :: t).map (fun x => (x.1, JsonValue.str x.2))), rest) := by
  intro t
  induction t with
  | nil =>
    intro kv g acc rest hargs hfresh _
    have hk1 : inertStr kv.1 = true := (hargs kv (List.mem_cons_self kv [])).1
    have hk2 : inertStr kv.2 = true := (hargs kv (List.mem_cons_self kv [])).2
    have hno : serArgs [kv] ++ '\x7d' :: rest =
        '"' :: (kv.1 ++ ('"' :: ':' :: ' ' :: '"' :: (kv.2 ++ ('"' :: '\x7d' :: rest)))) := by
      rw [show serArgs [kv] = serField kv from by
        rw [serArgs, List.map_cons, List.map_nil, intercalate_single]]
      rw [serField]
      simp only [List.cons_append, List.append_assoc, List.singleton_append, List.nil_append]
    rw [hno]
    rw [show ([] : List (List Char × List Char)).length + g + 2 = (g + 1) + 1 from by
      simp]
    rw [parseMembers]
    try dsimp only
    rw [if_pos rfl]
    rw [show kv.1 ++ ('"' :: ':' :: ' ' :: '"' :: (kv.2 ++ ('"' :: '\x7d' :: rest))) =
      kv.1 ++ '"' :: (':' :: ' ' :: '"' :: (kv.2 ++ ('"' :: '\x7d' :: rest))) from rfl]
    rw [parseStringBody_inert kv.1 _ hk1]
    try dsimp only
    rw [skipJsonWs_cons_not ':' _ (by decide)]
    try dsimp only
    rw [if_pos rfl]
    rw [show g + 1 = g + 1 from rfl, parseValue]
    rw [skipJsonWs_cons_ws ' ' _ (by decide), skipJsonWs_cons_not '"' _ (by decide)]
    try dsimp only
    rw [if_pos rfl]
    rw [show kv.2 ++ ('"' :: '\x7d' :: rest) = kv.2 ++ '"' :: ('\x7d' :: rest) from rfl]
    rw [parseStringBody_inert kv.2 _ hk2]
    try dsimp only
    rw [skipJsonWs_cons_not '\x7d' _ (by decide)]
    try dsimp only
    rw [if_neg (by decide), if_pos rfl]
    rw [objInsert_fresh acc kv.1 _ (hfresh kv (List.mem_cons_self kv []))]
    rw [List.map_cons, List.map_nil]
  | cons kv2 t2 ih =>
    intro kv g acc rest hargs hfresh hkeys
    have hk1 : inertStr kv.1 = true := (hargs kv (List.mem_cons_self _ _)).1
    have hk2 : inertStr kv.2 = true := (hargs kv (List.mem_cons_self _ _)).2
    have hno : serArgs (kv :: kv2 :: t2) ++ '\x7d' :: rest =
        '"' :: (kv.1 ++ ('"' :: ':' :: ' ' :: '"' :: (kv.2 ++ ('"' :: ',' :: ' ' ::
          (serArgs (kv2 :: t2) ++ '\x7d' :: rest))))) := by
      rw [serArgs, List.map_cons, List.map_cons, intercalate_cons2]
      rw [show List.intercalate ", ".toList (serField kv2 :: List.map serField t2) =
        serArgs (kv2 :: t2) from by rw [serArgs, List.map_cons]]
      rw [serField]
      rw [show (", ".toList : List Char) = ',' :: ' ' :: [] from rfl]
      simp only [List.cons_append, List.append_assoc, List.singleton_append, List.nil_append]
    rw [hno]
    rw [show (kv2 :: t2).length + g + 2 = (t2.length + g + 2) + 1 from by
      rw [List.length_cons]; omega]
    rw [parseMembers]
    try dsimp only
    rw [if_pos rfl]
    rw [show kv.1 ++ ('"' :: ':' :: ' ' :: '"' :: (kv.2 ++ ('"' :: ',' :: ' ' ::
      (serArgs (kv2 :: t2) ++ '\x7d' :: rest)))) =
      kv.1 ++ '"' :: (':' :: ' ' :: '"' :: (kv.2 ++ ('"' :: ',' :: ' ' ::
      (serArgs (kv2 :: t2) ++ '\x7d' :: rest)))) from rfl]
    rw [parseStringBody_inert kv.1 _ hk1]
    try dsimp only
    rw [skipJsonWs_cons_not ':' _ (by decide)]
    try dsimp only
    rw [if_pos rfl]
    rw [show t2.length + g + 2 = (t2.length + g + 1) + 1 from by omega]
    rw [parseValue]
    rw [skipJsonWs_cons_ws ' ' _ (by decide), skipJsonWs_cons_not '"' _ (by decide)]
    try dsimp only
    rw [if_pos rfl]
    rw [show kv.2 ++ ('"' :: ',' :: ' ' :: (serArgs (kv2 :: t2) ++ '\x7d' :: rest)) =
      kv.2 ++ '"' :: (',' :: ' ' :: (serArgs (kv2 :: t2) ++ '\x7d' :: rest)) from rfl]
    rw [parseStringBody_inert kv.2 _ hk2]
    try dsimp only
    rw [skipJsonWs_cons_not ',' _ (by decide)]
    try dsimp only
    rw [if_pos rfl]
    rw [skipJsonWs_cons_ws ' ' _ (by decide)]
    obtain ⟨Y, hY⟩ := serArgs_cons_head kv2 t2
    rw [hY, List.cons_append, skipJsonWs_cons_not '"' _ (by decide), ← List.cons_append, ← hY]
    rw [objInsert_fresh acc kv.1 _ (hfresh kv (List.mem_cons_self _ _))]
    have hfresh2 : ∀ x ∈ kv2 :: t2,
        lookupField x.1 (acc ++ [(kv.1, JsonValue.str kv.2)]) = none := by
      intro x hx
      refine lookupField_append_none acc x.1 kv.1 _ (hfresh x (List.mem_cons_of_mem kv hx)) ?_
      exact fun hh => ((List.pairwise_cons.mp hkeys).1 x hx) hh.symm
    have := ih kv2 g (acc ++ [(kv.1, JsonValue.str kv.2)]) rest
      (fun x hx => hargs x (List.mem_cons_of_mem kv hx)) hfresh2
      (List.pairwise_cons.mp hkeys).2
    rw [show (t2.length + g + 1) + 1 = t2.length + g + 2 from by omega]
    rw [this]
    simp [List.append_assoc]

theorem parseValue_argsObj (args : List (List Char × List Char)) (g : Nat) (rest : List Char)
    (hargs : ∀ kv ∈ args, inertStr kv.1 = true ∧ inertStr kv.2 = true)
    (hkeys : List.Pairwise (fun a b => a.1 ≠ b.1) args) :
    parseValue (args.length + g + 2) (' ' :: '\x7b' :: (serArgs args ++ '\x7d' :: rest)) =
      some (.obj (args.map (fun x => (x.1, JsonValue.str x.2))), rest) := by
  cases args with
  | nil =>
    rw [show serArgs [] = ([] : List Char) from rfl, List.nil_append]
    rfl
  | cons kv t =>
    rw [show (kv :: t).length + g + 2 = (t.length + g + 2) + 1 from by
      rw [List.length_cons]; omega]
    rw [parseValue]
    rw [skipJsonWs_cons_ws ' ' _ (by decide), skipJsonWs_cons_not '\x7b' _ (by decide)]
    try dsimp only
    rw [if_neg (by decide), if_pos rfl]
    obtain ⟨Y, hY⟩ := serArgs_cons_head kv t
    rw [hY, List.cons_append, skipJsonWs_cons_not '"' _ (by decide)]
    dsimp only
    rw [if_neg (by decide)]
    rw [← List.cons_append, ← hY]
    rw [parseMembers_serArgs t kv g [] rest hargs (fun x _ => rfl) hkeys]
    rw [List.nil_append]

theorem parseValue_serCall (nm : List Char) (args : List (List Char × List Char)) (g : Nat)
    (rest : List Char) (hnm : inertStr nm = true)
    (hargs : ∀ kv ∈ args, inertStr kv.1 = true ∧ inertStr kv.2 = true)
    (hkeys : List.Pairwise (fun a b => a.1 ≠ b.1) args) :
    parseValue (args.length + g + 6) (serCall nm args ++ rest) =
      some (callJson nm args, rest) := by
  rw [serCall_append]
  rw [show args.length + g + 6 = (args.length + g + 5) + 1 from rfl]
  rw [parseValue]
  rw [serTail]
  rw [skipJsonWs_cons_not '\x7b' _ (by decide)]
  try dsimp only
  rw [if_neg (by decide), if_pos rfl]
  rw [skipJsonWs_cons_not '"' _ (by decide)]
  try dsimp only
  rw [if_neg (by decide)]
  rw [show args.length + g + 5 = (args.length + g + 4) + 1 from rfl]
  rw [parseMembers]
  try dsimp only
  rw [if_pos rfl]
  rw [show ('n' :: 'a' :: 'm' :: 'e' :: '"' :: ':' :: ' ' :: '"' ::
      (nm ++ ('"' :: ',' :: ' ' :: '"' :: 'a' :: 'r' :: 'g' :: 'u' :: 'm' :: 'e' :: 'n' ::
        't' :: 's' :: '"' :: ':' :: ' ' :: '\x7b' ::
          (serArgs args ++ '\x7d' :: '\x7d' :: rest)))) =
    "name".toList ++ '"' :: (':' :: ' ' :: '"' ::
      (nm ++ ('"' :: ',' :: ' ' :: '"' :: 'a' :: 'r' :: 'g' :: 'u' :: 'm' :: 'e' :: 'n' ::
        't' :: 's' :: '"' :: ':' :: ' ' :: '\x7b' ::
          (serArgs args ++ '\x7d' :: '\x7d' :: rest)))) from rfl]
  rw [parseStringBody_inert "name".toList _ (by decide)]
  try dsimp only
  rw [skipJsonWs_cons_not ':' _ (by decide)]
  try dsimp only
  rw [if_pos rfl]
  rw [show args.length + g + 4 = (args.length + g + 3) + 1 from rfl]
  rw [parseValue]
  rw [skipJsonWs_cons_ws ' ' _ (by decide), skipJsonWs_cons_not '"' _ (by decide)]
  try dsimp only
  rw [if_pos rfl]
  rw [show nm ++ ('"' :: ',' :: ' ' :: '"' :: 'a' :: 'r' :: 'g' :: 'u' :: 'm' :: 'e' :: 'n' ::
      't' :: 's' :: '"' :: ':' :: ' ' :: '\x7b' :: (serArgs args ++ '\x7d' :: '\x7d' :: rest)) =
    nm ++ '"' :: (',' :: ' ' :: '"' :: 'a' :: 'r' :: 'g' :: 'u' :: 'm' :: 'e' :: 'n' ::
      't' :: 's' :: '"' :: ':' :: ' ' :: '\x7b' :: (serArgs args ++ '\x7d' :: '\x7d' :: rest))
    from rfl]
  rw [parseStringBody_inert nm _ hnm]
  try dsimp only
  rw [skipJsonWs_cons_not ',' _ (by decide)]
  try dsimp only
  rw [if_pos rfl]
  rw [skipJsonWs_cons_ws ' ' _ (by decide), skipJsonWs_cons_not '"' _ (by decide)]
  rw [parseMembers]
  try dsimp only
  rw [if_pos rfl]
  rw [show ('a' :: 'r' :: 'g' :: 'u' :: 'm' :: 'e' :: 'n' :: 't' :: 's' :: '"' :: ':' :: ' ' ::
      '\x7b' :: (serArgs args ++ '\x7d' :: '\x7d' :: rest)) =
    "arguments".toList ++ '"' :: (':' :: ' ' ::
      '\x7b' :: (serArgs args ++ '\x7d' :: '\x7d' :: rest)) from rfl]
  rw [parseStringBody_inert "arguments".toList _ (by decide)]
  try dsimp only
  rw [skipJsonWs_cons_not ':' _ (by decide)]
  try dsimp only
  rw [if_pos rfl]
  rw [show args.length + g + 3 = args.length + (g + 1) + 2 from by omega]
  rw [parseValue_argsObj args (g + 1) ('\x7d' :: rest) hargs hkeys]
  try dsimp only
  rw [skipJsonWs_cons_not '\x7d' _ (by decide)]
  try dsimp only
  rw [if_neg (by decide), if_pos rfl]
  rfl

theorem serArgs_length_ge (args : List (List Char × List Char)) :
    args.length ≤ (serArgs args).length := by
  induction args with
  | nil => simp [show serArgs [] = ([] : List Char) from rfl]
  | cons kv t ih =>
    cases t with
    | nil =>
      rw [serArgs, List.map_cons, List.map_nil, intercalate_single, serField]
      simp
    | cons kv2 t2 =>
      rw [serArgs, List.map_cons, List.map_cons, intercalate_cons2]
      rw [serArgs, List.map_cons] at ih
      simp only [List.length_append, List.length_cons] at ih ⊢
      have h2 : (", ".toList : List Char).length = 2 := rfl
      omega

theorem pyLoads_serCall (nm : List Char) (args : List (List Char × List Char))
    (hnm : inertStr nm = true)
    (hargs : ∀ kv ∈ args, inertStr kv.1 = true ∧ inertStr kv.2 = true)
    (hkeys : List.Pairwise (fun a b => a.1 ≠ b.1) args) :
    pyLoads (serCall nm args) = some (callJson nm args) := by
  have hlen : args.length ≤ (serArgs args).length := serArgs_length_ge args
  have hL : (serCall nm args).length = 29 + nm.length + (serArgs args).length := by
    rw [serCall]
    simp only [List.length_append]
    have h1 : ("\x7b\"name\": \"".toList : List Char).length = 10 := rfl
    have h2 : ("\", \"arguments\": \x7b".toList : List Char).length = 17 := rfl
    have h3 : ("\x7d\x7d".toList : List Char).length = 2 := rfl
    omega
  rw [pyLoads]
  rw [show (serCall nm args).length + 1 =
    args.length + ((serCall nm args).length + 1 - args.length - 6) + 6 from by omega]
  have hP := parseValue_serCall nm args ((serCall nm args).length + 1 - args.length - 6) []
    hnm hargs hkeys
  rw [List.append_nil] at hP
  rw [hP]
  rfl

theorem fenceText_no_lt (nm : List Char) (args : List (List Char × List Char))
    (hnm : inertStr nm = true)
    (hargs : ∀ kv ∈ args, inertStr kv.1 = true ∧ inertStr kv.2 = true) :
    ∀ c ∈ fenceText nm args, ¬ c = '<' := by
  obtain ⟨-, hlt, -⟩ := serCall_no_tick_lt_nl nm args hnm hargs
  intro c hc
  rw [fenceText] at hc
  rcases List.mem_append.mp hc with hc | hc
  · rcases List.mem_append.mp hc with hc | hc
    · intro hh; rw [hh] at hc; exact absurd hc (by decide)
    · exact fun hh => hlt (hh ▸ hc)
  · intro hh; rw [hh] at hc; exact absurd hc (by decide)

theorem tagText_no_tick (nm : List Char) (args : List (List Char × List Char))
    (hnm : inertStr nm = true)
    (hargs : ∀ kv ∈ args, inertStr kv.1 = true ∧ inertStr kv.2 = true) :
    ∀ c ∈ tagText nm args, ¬ c = '`' := by
  obtain ⟨htick, -, -⟩ := serCall_no_tick_lt_nl nm args hnm hargs
  intro c hc
  rw [tagText] at hc
  rcases List.mem_append.mp hc with hc | hc
  · rcases List.mem_append.mp hc with hc | hc
    · intro hh; rw [hh] at hc; exact absurd hc (by decide)
    · exact fun hh => htick (hh ▸ hc)
  · intro hh; rw [hh] at hc; exact absurd hc (by decide)

theorem serCall_no_tick_list (nm : List Char) (args : List (List Char × List Char))
    (hnm : inertStr nm = true)
    (hargs : ∀ kv ∈ args, inertStr kv.1 = true ∧ inertStr kv.2 = true) :
    ∀ c ∈ serCall nm args, ¬ c = '`' := by
  obtain ⟨htick, -, -⟩ := serCall_no_tick_lt_nl nm args hnm hargs
  exact fun c hc hh => htick (hh ▸ hc)

theorem serCall_no_lt_list (nm : List Char) (args : List (List Char × List Char))
    (hnm : inertStr nm = true)
    (hargs : ∀ kv ∈ args, inertStr kv.1 = true ∧ inertStr kv.2 = true) :
    ∀ c ∈ serCall nm args, ¬ c = '<' := by
  obtain ⟨-, hlt, -⟩ := serCall_no_tick_lt_nl nm args hnm hargs
  exact fun c hc hh => hlt (hh ▸ hc)

theorem findJsonObjs_fenceText (nm : List Char) (args : List (List Char × List Char))
    (hnm : inertStr nm = true) (hne : nm ≠ [])
    (hargs : ∀ kv ∈ args, inertStr kv.1 = true ∧ inertStr kv.2 = true) :
    findJsonObjs (fenceText nm args) = [serCall nm args] := by
  rw [fenceText, List.append_assoc, findJsonObjs, List.length_append]
  rw [findJsonObjsF_skip_front "```tool\n".toList _ _ (by decide)]
  exact findJsonObjs_serCall_suffix nm args "\n```".toList hnm hne hargs (by decide)

theorem findJsonObjs_tagText (nm : List Char) (args : List (List Char × List Char))
    (hnm : inertStr nm = true) (hne : nm ≠ [])
    (hargs : ∀ kv ∈ args, inertStr kv.1 = true ∧ inertStr kv.2 = true) :
    findJsonObjs (tagText nm args) = [serCall nm args] := by
  rw [tagText, List.append_assoc, findJsonObjs, List.length_append]
  rw [findJsonObjsF_skip_front "<tool_call>\n".toList _ _ (by decide)]
  exact findJsonObjs_serCall_suffix nm args "\n</tool_call>".toList hnm hne hargs (by decide)

theorem findJsonObjs_bare (nm : List Char) (args : List (List Char × List Char))
    (hnm : inertStr nm = true) (hne : nm ≠ [])
    (hargs : ∀ kv ∈ args, inertStr kv.1 = true ∧ inertStr kv.2 = true) :
    findJsonObjs (serCall nm args) = [serCall nm args] := by
  rw [findJsonObjs]
  have h := findJsonObjs_serCall_suffix nm args [] hnm hne hargs (by simp)
  rw [List.append_nil] at h
  exact h

/-- C3 (amended): for every invocation with an inert nonempty name and a
flat arguments object of inert string values under distinct keys, an
assistant text consisting of that invocation wrapped in any one of the
three accepted conventions — a ```` ```tool ```` fenced block, a
`<tool_call>` tag pair, or the bare JSON object — yields exactly one
parsed call, whose value is the embedded JSON `callJson`; the bare-JSON
re-detection inside the fenced and tagged texts is removed by pattern 3's
structural deduplication.  (Nested `arguments` objects are not covered:
see the counterexample, where pattern 3's brace-free regex misses the
call entirely.) -/
theorem parse_tool_calls_single_flat_invocation
    (nm : List Char) (args : List (List Char × List Char))
    (hnm : inertStr nm = true) (hne : nm ≠ [])
    (hargs : ∀ kv ∈ args, inertStr kv.1 = true ∧ inertStr kv.2 = true)
    (hkeys : List.Pairwise (fun a b => a.1 ≠ b.1) args) :
    parseToolCallsFromText (fenceText nm args) = [callJson nm args] ∧
    parseToolCallsFromText (tagText nm args) = [callJson nm args] ∧
    parseToolCallsFromText (serCall nm args) = [callJson nm args] := by
  have hk : (hasKeyJ "name".toList (callJson nm args) &&
      hasKeyJ "arguments".toList (callJson nm args)) = true := rfl
  refine ⟨?_, ?_, ?_⟩
  · simp only [parseToolCallsFromText]
    rw [findToolFences_fenceText nm args hnm hargs]
    rw [show findTagCalls (fenceText nm args) = [] from by
      rw [findTagCalls]; exact findTagCallsF_no_lt _ _ (fenceText_no_lt nm args hnm hargs)]
    rw [findJsonObjs_fenceText nm args hnm hne hargs]
    simp only [List.filterMap_cons, List.filterMap_nil]
    rw [pyStrip_serCall, pyLoads_serCall nm args hnm hargs hkeys]
    dsimp only
    simp only [List.append_nil, List.foldl_cons, List.foldl_nil]
    rw [dedupStep, pyLoads_serCall nm args hnm hargs hkeys]
    dsimp only
    rw [if_pos hk]
    rw [List.any_cons, List.any_nil, pyEqJ_callJson_refl nm args hkeys, Bool.or_false]
    rw [if_pos rfl]
  · simp only [parseToolCallsFromText]
    rw [findTagCalls_tagText nm args hnm hargs]
    rw [show findToolFences (tagText nm args) = [] from by
      rw [findToolFences]; exact findToolFencesF_no_tick _ _ (tagText_no_tick nm args hnm hargs)]
    rw [findJsonObjs_tagText nm args hnm hne hargs]
    simp only [List.filterMap_cons, List.filterMap_nil]
    rw [pyStrip_serCall, pyLoads_serCall nm args hnm hargs hkeys]
    dsimp only
    simp only [List.nil_append, List.foldl_cons, List.foldl_nil]
    rw [dedupStep, pyLoads_serCall nm args hnm hargs hkeys]
    dsimp only
    rw [if_pos hk]
    rw [List.any_cons, List.any_nil, pyEqJ_callJson_refl nm args hkeys, Bool.or_false]
    rw [if_pos rfl]
  · simp only [parseToolCallsFromText]
    rw [show findToolFences (serCall nm args) = [] from by
      rw [findToolFences]
      exact findToolFencesF_no_tick _ _ (serCall_no_tick_list nm args hnm hargs)]
    rw [show findTagCalls (serCall nm args) = [] from by
      rw [findTagCalls]
      exact findTagCallsF_no_lt _ _ (serCall_no_lt_list nm args hnm hargs)]
    rw [findJsonObjs_bare nm args hnm hne hargs]
    simp only [List.filterMap_nil, List.nil_append, List.foldl_cons, List.foldl_nil]
    rw [dedupStep, pyLoads_serCall nm args hnm hargs hkeys]
    dsimp only
    rw [if_pos hk]
    rw [List.any_nil]
    rw [if_neg (by decide)]
    rw [List.nil_append]

/-- Witness for C3 at the concrete invocation
`\x7b"name": "bash", "arguments": \x7b"command": "ls -la"\x7d\x7d`. -/
theorem parse_tool_calls_single_flat_invocation_witness :
    (inertStr "bash".toList = true ∧ "bash".toList ≠ [] ∧
      (∀ kv ∈ [("command".toList, "ls -la".toList)],
        inertStr kv.1 = true ∧ inertStr kv.2 = true) ∧
      List.Pairwise (fun a b => a.1 ≠ b.1) [("command".toList, "ls -la".toList)]) ∧
    (parseToolCallsFromText
        (fenceText "bash".toList [("command".toList, "ls -la".toList)]) =
      [callJson "bash".toList [("command".toList, "ls -la".toList)]] ∧
    parseToolCallsFromText
        (tagText "bash".toList [("command".toList, "ls -la".toList)]) =
      [callJson "bash".toList [("command".toList, "ls -la".toList)]] ∧
    parseToolCallsFromText (serCall "bash".toList [("command".toList, "ls -la".toList)]) =
      [callJson "bash".toList [("command".toList, "ls -la".toList)]]) :=
  ⟨⟨by decide, by decide, by decide, by decide⟩,
    parse_tool_calls_single_flat_invocation "bash".toList
      [("command".toList, "ls -la".toList)] (by decide) (by decide) (by decide) (by decide)⟩

end LocalAgent
